import Mathlib

/-!
Flex working-time add-on: a verification development of `content.js`

The content script reads fragments of text from the host page, turns them into minute
counts, locates the start-of-work clock time, validates the triple and projects an
end-of-work time.  This file embeds those functions of `content.js` in Lean and proves
properties of them.

Modelling conventions

* A JavaScript string is a `List Char` (`JSString`).  All characters the script looks for
  (digits, `:`, `-`, `+`, the Hangul words, white space) lie in the Basic Multilingual
  Plane, so one `Char` is one UTF-16 code unit for them; `jsLength` counts two code units
  for any character above `U+FFFF`, as `String.prototype.length` does.
* A JavaScript number that holds an integer is an `Int`, and what the script computes
  on such numbers is computed as IEEE-754 binary64 arithmetic computes it: the exact
  result of `+`, `-` and `*` is rounded to 53 significant binary digits, a tie to the
  even significand (`toDouble`, `jsAdd`, `jsSub`, `jsMul`); `parseInt` returns the double
  nearest to the integer the digits denote; in `Math.floor (x / 60)` the quotient is
  rounded to a double before it is rounded down (`mathFloorDiv`); the remainder `x % 60`
  is exact and has the sign of the dividend (`jsMod`, that is `Int.tmod`);
  `Number.prototype.toString` prints plain digits below `2^53` and above it the shortest
  decimal that is read back as the same double, in exponent form from `10^21` on
  (`numToString`).  Up to `2^53` all of this is exact integer arithmetic
  (`toDouble_exact`, `floorQuotient_exact`, `numToString_natCast`).
* The exponent range of a double is not modelled.  A value of magnitude `2^1024` or more
  is `Infinity` in JavaScript and a finite integer here; the script reaches one from
  finite inputs only through `parseInt` on a run of more than 308 digits, or through a
  sum of two numbers near the largest double.  The statements below that give the value
  of such an expression bound it by `2^53`.  An argument of type `Int` stands for a
  number of the script, so it is a double itself.
* The one quotient that is not an integer, `totalHours` of `validateTimeData`, is a
  rational number.
* `NaN` and `undefined` only arise from `parseInt`; `parseInt` returns an `Option Int`
  whose `none` is `NaN`.
* `null` is `none`; a string-or-null value is "truthy" when it is a non-empty string.
* The regular expressions of the script are embedded one by one as matchers on
  `List Char`.  Every repetition in them (`\d+`, `\s*`, `\d{1,2}`) is followed by a
  character that the repeated class excludes, so the backtracking search of the
  JavaScript engine and the longest-run scan used here find the same match.
-/

namespace FlexAddon

/-- A JavaScript string, as its sequence of characters. -/
abbrev JSString := List Char

/-! ## String primitives -/

/-- The class `\d` of a JavaScript regular expression, also the digits `parseInt`
accepts in radix 10: the ASCII digits `0` to `9`. -/
def isDigit (c : Char) : Bool := 48 ≤ c.toNat && c.toNat ≤ 57

/-- Numeric value of a decimal digit character. -/
def digitVal (c : Char) : Nat := c.toNat - 48

/-- The decimal digit character of a number below ten. -/
def digitChar (d : Nat) : Char :=
  match d with
  | 0 => '0'
  | 1 => '1'
  | 2 => '2'
  | 3 => '3'
  | 4 => '4'
  | 5 => '5'
  | 6 => '6'
  | 7 => '7'
  | 8 => '8'
  | _ => '9'

/-- White space and line terminators of ECMAScript: the class `\s`, the characters
removed by `String.prototype.trim` and skipped by `parseInt`. -/
def isJSWhitespace (c : Char) : Bool :=
  let n := c.toNat
  n == 0x09 || n == 0x0A || n == 0x0B || n == 0x0C || n == 0x0D || n == 0x20 ||
  n == 0xA0 || n == 0x1680 || (0x2000 ≤ n && n ≤ 0x200A) || n == 0x2028 ||
  n == 0x2029 || n == 0x202F || n == 0x205F || n == 0x3000 || n == 0xFEFF

/-- The value of `String.prototype.length`: the number of UTF-16 code units. -/
def jsLength : JSString → Nat
  | [] => 0
  | c :: cs => (if c.toNat < 0x10000 then 1 else 2) + jsLength cs

/-- The method `String.prototype.trim`: white space removed from both ends. -/
def trim (s : JSString) : JSString :=
  ((s.dropWhile isJSWhitespace).reverse.dropWhile isJSWhitespace).reverse

/-- The method `String.prototype.includes`: does `sub` occur in `s` as a contiguous
run? -/
def includes (s sub : JSString) : Bool :=
  match s with
  | [] => sub.isEmpty
  | c :: cs => sub.isPrefixOf (c :: cs) || includes cs sub

/-- Pieces of `s` between occurrences of the character `sep`, with the piece under
construction in `cur` (reversed). -/
def splitAux (sep : Char) : JSString → JSString → List JSString
  | [], cur => [cur.reverse]
  | c :: cs, cur =>
    if c = sep then cur.reverse :: splitAux sep cs [] else splitAux sep cs (c :: cur)

/-- The method `String.prototype.split` with a one-character separator. -/
def split (s : JSString) (sep : Char) : List JSString := splitAux sep s []

/-- The value of a run of decimal digits, most significant first. -/
def digitsVal (ds : JSString) : Nat := ds.foldl (fun acc c => acc * 10 + digitVal c) 0

/-! ## Numbers

A number of the script that holds an integer is an `Int`; what JavaScript computes on
such numbers is computed here with the rounding of IEEE-754 binary64 arithmetic. -/

/-- Binary logarithm, rounded down, of a positive `n` that is at most `2 ^ fuel`. -/
def log2Fuel : Nat → Nat → Nat
  | 0, _ => 0
  | fuel + 1, n => if n < 2 then 0 else log2Fuel fuel (n / 2) + 1

/-- The position of the leading binary digit of `n`: the largest `e` with `2 ^ e ≤ n`. -/
def floorLog2 (n : Nat) : Nat := log2Fuel n n

/-- The quotient `n / d` rounded to the nearest integer, a tie to the even one. -/
def roundHalfEven (n d : Nat) : Nat :=
  if 2 * (n % d) < d then n / d
  else if d < 2 * (n % d) then n / d + 1
  else if n / d % 2 = 0 then n / d
  else n / d + 1

/-- The double nearest to the natural number `x` (round to nearest, ties to even): `x`
is cut to a significand of 53 binary digits. -/
def roundNat (x : Nat) : Nat :=
  roundHalfEven x (2 ^ (floorLog2 x - 52)) * 2 ^ (floorLog2 x - 52)

/-- The Number value of the integer `z`: the nearest double. -/
def toDouble : Int → Int
  | Int.ofNat n => (roundNat n : Int)
  | Int.negSucc n => -(roundNat (n + 1) : Int)

/-- The operator `+` on numbers that hold integers. -/
def jsAdd (a b : Int) : Int := toDouble (a + b)

/-- The operator `-` on numbers that hold integers. -/
def jsSub (a b : Int) : Int := toDouble (a - b)

/-- The operator `*` on numbers that hold integers. -/
def jsMul (a b : Int) : Int := toDouble (a * b)

/-- The value `Math.floor(x / d)` for naturals `x` and `0 < d < 2 ^ 53`: the quotient is
rounded to a double, then rounded down to an integer.  A quotient below 1 is rounded to
a double below 1.  A quotient between `2 ^ e` and `2 ^ (e + 1)` keeps 53 significant
binary digits: for `e < 52` it is rounded to a multiple of `1 / 2 ^ (52 - e)`, for
`52 ≤ e` to a multiple of `2 ^ (e - 52)`, which is an integer already. -/
def floorQuotient (x d : Nat) : Nat :=
  if x < d then 0
  else if floorLog2 (x / d) < 52 then
    roundHalfEven (x * 2 ^ (52 - floorLog2 (x / d))) d / 2 ^ (52 - floorLog2 (x / d))
  else
    roundHalfEven x (d * 2 ^ (floorLog2 (x / d) - 52)) * 2 ^ (floorLog2 (x / d) - 52)

/-- The rounded quotient of `floorQuotient`, rounded up to an integer instead. -/
def ceilQuotient (x d : Nat) : Nat :=
  if x = 0 then 0
  else if x < d then 1
  else if floorLog2 (x / d) < 52 then
    (roundHalfEven (x * 2 ^ (52 - floorLog2 (x / d))) d + 2 ^ (52 - floorLog2 (x / d)) - 1) /
      2 ^ (52 - floorLog2 (x / d))
  else
    roundHalfEven x (d * 2 ^ (floorLog2 (x / d) - 52)) * 2 ^ (floorLog2 (x / d) - 52)

/-- The expression `Math.floor(x / d)` for a number `x` that holds an integer and a
positive divisor `d` below `2 ^ 53`. -/
def mathFloorDiv (x : Int) (d : Nat) : Int :=
  match x with
  | Int.ofNat n => (floorQuotient n d : Int)
  | Int.negSucc n => -(ceilQuotient (n + 1) d : Int)

/-- The operator `%` on numbers that hold integers: the remainder has the sign of the
dividend and is exact. -/
def jsMod (a b : Int) : Int := Int.tmod a b

/-- The optional sign in front of the digits of `parseInt`: the factor and what follows. -/
def splitSign : JSString → Int × JSString
  | '-' :: r => (-1, r)
  | '+' :: r => (1, r)
  | s => (1, s)

/-- The call `parseInt(s, 10)`: skip leading white space, read an optional sign, then
the longest run of decimal digits; `none` (that is `NaN`) when that run is empty,
otherwise the Number value of the signed integer the digits denote. -/
def parseInt (s : JSString) : Option Int :=
  let signed := splitSign (s.dropWhile isJSWhitespace)
  let ds := signed.2.takeWhile isDigit
  if ds.isEmpty then none else some (toDouble (signed.1 * (digitsVal ds : Int)))

/-- The call `parseInt(ds, 10)` on a capture `(\d+)` of a regular expression, which is a
non-empty run of digits: the Number value of the integer the digits denote. -/
def parseDigits (ds : JSString) : Int := toDouble (digitsVal ds : Int)

/-- Decimal digits of `n` in front of `acc`; `fuel` bounds the number of digits. -/
def toDigitsFuel : Nat → Nat → JSString → JSString
  | 0, _, acc => acc
  | fuel + 1, n, acc =>
    if n < 10 then digitChar n :: acc
    else toDigitsFuel fuel (n / 10) (digitChar (n % 10) :: acc)

/-- The decimal digits of a natural number. -/
def natToString (n : Nat) : JSString := toDigitsFuel (n + 1) n []

/-- The multiples of `10 ^ p` next to `x` that are read back as the double `x`: the
closer one when both are, of two equally close ones the one with the even multiplier. -/
def shortestCandidate (x p : Nat) : Option Nat :=
  if roundNat (x / 10 ^ p * 10 ^ p) = x then
    if roundNat (x / 10 ^ p * 10 ^ p + 10 ^ p) = x then
      if x - x / 10 ^ p * 10 ^ p < x / 10 ^ p * 10 ^ p + 10 ^ p - x then
        some (x / 10 ^ p * 10 ^ p)
      else if x / 10 ^ p * 10 ^ p + 10 ^ p - x < x - x / 10 ^ p * 10 ^ p then
        some (x / 10 ^ p * 10 ^ p + 10 ^ p)
      else if x / 10 ^ p % 2 = 0 then some (x / 10 ^ p * 10 ^ p)
      else some (x / 10 ^ p * 10 ^ p + 10 ^ p)
    else some (x / 10 ^ p * 10 ^ p)
  else if roundNat (x / 10 ^ p * 10 ^ p + 10 ^ p) = x then
    some (x / 10 ^ p * 10 ^ p + 10 ^ p)
  else none

/-- The decimal number that `Number.prototype.toString` prints for the double `x`: the
one with the fewest significant digits (1, 2, ... up to 17) that is read back as `x`. -/
def shortestDecimal (x : Nat) : Nat :=
  match (List.range 17).findSome? (fun i =>
      if i + 1 ≤ (natToString x).length then
        shortestCandidate x ((natToString x).length - (i + 1))
      else none) with
  | some v => v
  | none => x

/-- The exponent form `d.ddde+n` of `Number.prototype.toString` for `v` with more
than 21 digits: the significant digits of `v`, a point after the first when there are
more, and the number of digits that follow the first as the exponent. -/
def exponentForm (v : Nat) : JSString :=
  match ((natToString v).reverse.dropWhile (fun c => c == '0')).reverse with
  | [] => natToString v
  | d :: rest =>
    d :: (if rest.isEmpty then [] else '.' :: rest) ++ "e+".toList ++
      natToString ((natToString v).length - 1)

/-- The method `Number.prototype.toString` on a double that holds a natural number.
Below `2 ^ 53` every integer is a double and its own shortest decimal, printed in plain
digits; above, the shortest decimal is printed, in plain digits below `10 ^ 21` and in
exponent form from there on. -/
def numToStringNat (x : Nat) : JSString :=
  if x < 2 ^ 53 then natToString x
  else if shortestDecimal x < 10 ^ 21 then natToString (shortestDecimal x)
  else exponentForm (shortestDecimal x)

/-- The method `Number.prototype.toString` on a number that holds an integer. -/
def numToString : Int → JSString
  | Int.ofNat n => numToStringNat n
  | Int.negSucc n => '-' :: numToStringNat (n + 1)

/-- The call `padStart(2, '0')` of `String.prototype.padStart`. -/
def padStart2 (s : JSString) : JSString :=
  List.replicate (2 - jsLength s) '0' ++ s

/-! ## Configuration (`CONFIG.WORK_SCHEDULE`) -/

/-- Lunch break in minutes. -/
def LUNCH_BREAK_MINUTES : Int := 60

/-- Weekly target working time in hours. -/
def WEEKLY_TARGET_HOURS : Int := 40

/-- Regular daily working time in hours. -/
def DAILY_WORK_HOURS : Int := 8

/-- Regular work days, Monday to Thursday, as `Date.prototype.getDay` numbers them. -/
def REGULAR_WORK_DAYS : List Nat := [1, 2, 3, 4]

/-- The flex day, Friday. -/
def FLEX_DAY : Nat := 5

/-- Weekend days, Sunday and Saturday. -/
def WEEKEND_DAYS : List Nat := [0, 6]

/-! ## Time strings: `parseTimeToMinutes`, the formatters, `addMinutesToTime` -/

/-- The pattern `(\d+)시간\s*(\d+)분` tried at the start of `s`: the two captures. -/
def matchHourMinuteHere (s : JSString) : Option (JSString × JSString) :=
  let d1 := s.takeWhile isDigit
  if d1.isEmpty then none
  else
    match s.dropWhile isDigit with
    | '시' :: '간' :: r =>
      let r1 := r.dropWhile isJSWhitespace
      let d2 := r1.takeWhile isDigit
      if d2.isEmpty then none
      else
        match r1.dropWhile isDigit with
        | '분' :: _ => some (d1, d2)
        | _ => none
    | _ => none

/-- The pattern `(\d+):(\d+)` tried at the start of `s`: the two captures. -/
def matchColonHere (s : JSString) : Option (JSString × JSString) :=
  let d1 := s.takeWhile isDigit
  if d1.isEmpty then none
  else
    match s.dropWhile isDigit with
    | ':' :: r =>
      let d2 := r.takeWhile isDigit
      if d2.isEmpty then none else some (d1, d2)
    | _ => none

/-- The pattern `(\d+)시간` tried at the start of `s`: the capture. -/
def matchHoursOnlyHere (s : JSString) : Option JSString :=
  let d1 := s.takeWhile isDigit
  if d1.isEmpty then none
  else
    match s.dropWhile isDigit with
    | '시' :: '간' :: _ => some d1
    | _ => none

/-- The method `String.prototype.match` with a pattern that has no anchor and no `g`
flag: the pattern is tried at every position from the left and the first success is
returned. -/
def searchFirst {α : Type} (here : JSString → Option α) : JSString → Option α
  | [] => here []
  | c :: cs =>
    match here (c :: cs) with
    | some r => some r
    | none => searchFirst here cs

/-- Source function `parseTimeToMinutes`: a text to a number of minutes. -/
def parseTimeToMinutes (timeStr : JSString) : Int :=
  if timeStr.isEmpty then 0
  else
    match searchFirst matchHourMinuteHere timeStr with
    | some (h, m) => jsAdd (jsMul (parseDigits h) 60) (parseDigits m)
    | none =>
      match searchFirst matchColonHere timeStr with
      | some (h, m) => jsAdd (jsMul (parseDigits h) 60) (parseDigits m)
      | none =>
        match searchFirst matchHoursOnlyHere timeStr with
        | some h => jsMul (parseDigits h) 60
        | none => 0

/-- Source function `formatMinutesToTime`: minutes as `<H>시간 <MM>분`. -/
def formatMinutesToTime (totalMinutes : Int) : JSString :=
  let hours := mathFloorDiv totalMinutes 60
  let minutes := jsMod totalMinutes 60
  numToString hours ++ "시간 ".toList ++ padStart2 (numToString minutes) ++ "분".toList

/-- Source function `formatMinutesToClock`: minutes as `HH:MM`. -/
def formatMinutesToClock (totalMinutes : Int) : JSString :=
  let hours := mathFloorDiv totalMinutes 60
  let minutes := jsMod totalMinutes 60
  padStart2 (numToString hours) ++ ":".toList ++ padStart2 (numToString minutes)

/-- Source function `addMinutesToTime`.  The parts of `timeStr.split(':')` go through
`parseInt`; a missing second part is `undefined`, and any `NaN` or `undefined` makes
every number of the computation `NaN`, which prints as `NaN`. -/
def addMinutesToTime (timeStr : JSString) (minutesToAdd : Int) : JSString :=
  match (split timeStr ':').map parseInt with
  | some hours :: some minutes :: _ =>
    let totalMinutes := jsAdd (jsAdd (jsMul hours 60) minutes) minutesToAdd
    let newHours := mathFloorDiv totalMinutes 60
    let newMinutes := jsMod totalMinutes 60
    if newHours ≥ 24 then
      let nextDayHours := jsMod newHours 24
      "익일 ".toList ++ padStart2 (numToString nextDayHours) ++ ":".toList ++
        padStart2 (numToString newMinutes)
    else
      padStart2 (numToString newHours) ++ ":".toList ++ padStart2 (numToString newMinutes)
  | _ => "NaN:NaN".toList

/-- The two-digit, zero-padded decimal form of a number below one hundred. -/
def twoDigits (k : Nat) : JSString := [digitChar (k / 10), digitChar (k % 10)]

/-- A clock time as text: the hour printed in at least two digits, a colon, the minute
in two digits, after the next-day tag `익일 ` when `nextDay` is set. -/
def clockText (nextDay : Bool) (hour minute : Nat) : JSString :=
  (if nextDay then "익일 ".toList else []) ++
    padStart2 (natToString hour) ++ ':' :: padStart2 (natToString minute)

/-- A text is a clock time whose hour is at least 0 and whose minute lies in 0..59. -/
def IsClockTime (s : JSString) : Prop :=
  ∃ (nextDay : Bool) (hour minute : Nat), minute < 60 ∧ s = clockText nextDay hour minute

/-- A text is a normalized 24-hour clock time: `HH:MM` with the hour in 0..23 and the
minute in 0..59, each in two digits. -/
def IsNormalizedClock (s : JSString) : Prop :=
  ∃ (hour minute : Nat), hour < 24 ∧ minute < 60 ∧
    s = twoDigits hour ++ ':' :: twoDigits minute

/-! ## Schedule projection (the `expectedEndTime` block of `calculateAndDisplayTotalTime`) -/

/-- JavaScript truthiness of a string-or-null value: `null` and the empty string are
falsy.  The script tests the start time this way (`if (startTime)`, `!startTime`). -/
def truthy : Option JSString → Bool
  | some (_ :: _) => true
  | _ => false

/-- The value of `expectedEndTime` computed by `calculateAndDisplayTotalTime` from the
start time, the day of the week (`Date.prototype.getDay`, 0 for Sunday to 6 for
Saturday) and the two minute counts; `none` is `null`, no projection. -/
def expectedEndTime (startTime : Option JSString) (dayOfWeek : Nat)
    (todayMinutes weekMinutes : Int) : Option JSString :=
  match startTime with
  | some (c :: cs) =>
    if REGULAR_WORK_DAYS.contains dayOfWeek then
      let dailyWorkMinutes := jsMul DAILY_WORK_HOURS 60
      let minutesUntilEnd := jsAdd dailyWorkMinutes LUNCH_BREAK_MINUTES
      some (addMinutesToTime (c :: cs) minutesUntilEnd)
    else if dayOfWeek = FLEX_DAY then
      let weeklyTargetMinutes := jsMul WEEKLY_TARGET_HOURS 60
      let totalWorkedMinutes := jsAdd weekMinutes todayMinutes
      let remainingMinutes := jsSub weeklyTargetMinutes totalWorkedMinutes
      if remainingMinutes > 0 then
        let minutesUntilEnd := jsAdd remainingMinutes LUNCH_BREAK_MINUTES
        some (addMinutesToTime (c :: cs) minutesUntilEnd)
      else if remainingMinutes = 0 then
        some "정시 퇴근 가능".toList
      else
        let overtimeMinutes : Int := Int.natAbs remainingMinutes
        some ("초과근무 중 (".toList ++ formatMinutesToTime overtimeMinutes ++ " 초과)".toList)
    else none
  | _ => none

/-! ## `validateTimeData` -/

/-- The object returned by `validateTimeData`. -/
structure ValidationResult where
  /-- Whether the data may be used. -/
  valid : Bool
  /-- The fatal findings, in the order they were pushed. -/
  errors : List JSString
  /-- The findings that are only logged. -/
  warnings : List JSString

/-- The test `/^\d{2}:\d{2}$/.test(s)`. -/
def testClock (s : JSString) : Bool :=
  match s with
  | [a, b, ':', c, d] => isDigit a && isDigit b && isDigit c && isDigit d
  | _ => false

/-- The test `/^익일 \d{2}:\d{2}$/.test(s)`: the tag `익일 `, then what `testClock`
accepts. -/
def testNextDayClock (s : JSString) : Bool :=
  match s with
  | '익' :: '일' :: ' ' :: rest => testClock rest
  | _ => false

/-- The error pushed when there is no time data at all. -/
def NO_DATA_ERROR : JSString := "근무 시간 데이터가 없습니다.".toList

/-- The error pushed when the start time has the wrong shape. -/
def START_FORMAT_ERROR : JSString := "출근시간 형식이 올바르지 않습니다.".toList

/-- The warning text for a total of `totalHours` hours; `Math.round` rounds a half
upwards. -/
def highHoursWarning (totalHours : ℚ) : JSString :=
  "주간 근무시간이 ".toList ++ numToString ⌊totalHours + 1 / 2⌋ ++ "시간으로 매우 높습니다.".toList

/-- The third test of `validateTimeData`: the start time is truthy and neither of the
two shape patterns matches it. -/
def startTimeMalformed (startTime : Option JSString) : Bool :=
  match startTime with
  | some (c :: cs) => !testClock (c :: cs) && !testNextDayClock (c :: cs)
  | _ => false

/-- Source function `validateTimeData`. -/
def validateTimeData (todayMinutes weekMinutes : Int) (startTime : Option JSString) :
    ValidationResult :=
  let errors0 : List JSString := []
  let warnings0 : List JSString := []
  let errors1 :=
    if todayMinutes = 0 ∧ weekMinutes = 0 ∧ truthy startTime = false then
      errors0 ++ [NO_DATA_ERROR]
    else errors0
  let totalHours : ℚ := ((todayMinutes + weekMinutes : Int) : ℚ) / 60
  let warnings1 :=
    if totalHours > ((WEEKLY_TARGET_HOURS * 2 : Int) : ℚ) then
      warnings0 ++ [highHoursWarning totalHours]
    else warnings0
  let errors2 :=
    if startTimeMalformed startTime = true then errors1 ++ [START_FORMAT_ERROR] else errors1
  ValidationResult.mk (errors2.length == 0) errors2 warnings1

/-- The function `validateTimeData` with its plausibility check (the statements that
compute `totalHours` and push the warning) taken out. -/
def validateTimeDataWithoutWarning (todayMinutes weekMinutes : Int)
    (startTime : Option JSString) : ValidationResult :=
  let errors0 : List JSString := []
  let warnings0 : List JSString := []
  let errors1 :=
    if todayMinutes = 0 ∧ weekMinutes = 0 ∧ truthy startTime = false then
      errors0 ++ [NO_DATA_ERROR]
    else errors0
  let errors2 :=
    if startTimeMalformed startTime = true then errors1 ++ [START_FORMAT_ERROR] else errors1
  ValidationResult.mk (errors2.length == 0) errors2 warnings0

/-- A start time has one of the two accepted shapes: two digits, a colon and two
digits, with or without the next-day tag `익일 ` in front. -/
def HasClockShape (startTime : Option JSString) : Prop :=
  ∃ a b c d : Char, isDigit a = true ∧ isDigit b = true ∧ isDigit c = true ∧
    isDigit d = true ∧
    (startTime = some [a, b, ':', c, d] ∨
      startTime = some ("익일 ".toList ++ [a, b, ':', c, d]))

/-! ## The host page: a tree of elements and text nodes -/

/-- A node of the host document: a text node with its character data, or an element
with its tag name and child nodes in document order. -/
inductive DomNode where
  | text (data : JSString)
  | element (tag : String) (children : List DomNode)

mutual
/-- The property `Node.prototype.textContent`: the character data of all text nodes
below the node, concatenated in document order. -/
def textContent : DomNode → JSString
  | DomNode.text d => d
  | DomNode.element _ cs => textContentList cs
/-- The text content of a run of sibling nodes. -/
def textContentList : List DomNode → JSString
  | [] => []
  | n :: ns => textContent n ++ textContentList ns
end

mutual
/-- The elements of a subtree in document order, its root first when the root is an
element: `[el, ...el.querySelectorAll('*')]`; on the root element of the document this
is `document.querySelectorAll('*')`. -/
def elementsOf : DomNode → List DomNode
  | DomNode.text _ => []
  | DomNode.element t cs => DomNode.element t cs :: elementsOfList cs
/-- The elements of the subtrees of a run of sibling nodes, in document order. -/
def elementsOfList : List DomNode → List DomNode
  | [] => []
  | n :: ns => elementsOf n ++ elementsOfList ns
end

/-- The text the script reads off an element: `el.textContent?.trim() || ''`. -/
def trimmedText (el : DomNode) : JSString := trim (textContent el)

/-! ## `findStartTime` -/

/-- The constant `CONFIG.DOM_SELECTORS.RECORDING_TEXT`. -/
def RECORDING_TEXT : JSString := "기록 중".toList

/-- The test of the first marker loop: the text is `휴게 없음`, or it contains `휴게` and
`없음` and is shorter than 20. -/
def isBreakNoneText (text : JSString) : Bool :=
  text == "휴게 없음".toList ||
    (includes text "휴게".toList && includes text "없음".toList && decide (jsLength text < 20))

/-- The test of the second marker loop: the text is or contains `기록 중` and is shorter
than 20. -/
def isRecordingText (text : JSString) : Bool :=
  (text == RECORDING_TEXT || includes text RECORDING_TEXT) && decide (jsLength text < 20)

/-- The marker element `targetElement`: the first element in document order that passes
the first test, and when there is none the first that passes the second test. -/
def findMarker (allElements : List DomNode) : Option DomNode :=
  match allElements.find? (fun el => isBreakNoneText (trimmedText el)) with
  | some el => some el
  | none => allElements.find? (fun el => isRecordingText (trimmedText el))

/-- The pattern `^(오전|오후)\s*(\d{1,2}):(\d{2})$` on a whole text: the three captures. -/
def matchMeridiemClock (s : JSString) : Option (JSString × JSString × JSString) :=
  match s with
  | '오' :: p :: r =>
    if p = '전' ∨ p = '후' then
      let r1 := r.dropWhile isJSWhitespace
      let hourDigits := r1.takeWhile isDigit
      if 1 ≤ hourDigits.length ∧ hourDigits.length ≤ 2 then
        match r1.dropWhile isDigit with
        | [':', m1, m2] =>
          if isDigit m1 && isDigit m2 then some (['오', p], hourDigits, [m1, m2]) else none
        | _ => none
      else none
    else none
  | _ => none

/-- An entry of `foundTimes`. -/
structure FoundTime where
  /-- The 24-hour text `HH:MM`. -/
  time : JSString
  /-- The text of the element it was read from. -/
  original : JSString
  /-- The hour after conversion to the 24-hour clock. -/
  hour24 : Nat
  /-- The minute as a number. -/
  minute : Nat

/-- The body of the collecting loop for one element: nothing for a text longer than 30
or one that the clock pattern does not match, otherwise the converted entry. -/
def foundTimeOf (el : DomNode) : Option FoundTime :=
  let elText := trimmedText el
  if jsLength elText > 30 then none
  else
    match matchMeridiemClock elText with
    | some (period, hourText, minute) =>
      let hour := digitsVal hourText
      let hour24 :=
        if period = "오후".toList ∧ hour ≠ 12 then hour + 12
        else if period = "오전".toList ∧ hour = 12 then 0
        else hour
      let foundTime := padStart2 (natToString hour24) ++ ':' :: minute
      some (FoundTime.mk foundTime elText hour24 (digitsVal minute))
    | none => none

/-- The array `foundTimes` after the collecting loop over `elementsToCheck`. -/
def collectTimes (elementsToCheck : List DomNode) : List FoundTime :=
  elementsToCheck.filterMap foundTimeOf

/-- The comparison function handed to `Array.prototype.sort`. -/
def compareFound (a b : FoundTime) : Int :=
  if a.hour24 ≠ b.hour24 then (a.hour24 : Int) - (b.hour24 : Int)
  else (a.minute : Int) - (b.minute : Int)

/-- Insertion of `a` in front of the first entry that does not come before it. -/
def insertFound (a : FoundTime) : List FoundTime → List FoundTime
  | [] => [a]
  | b :: l => if compareFound a b ≤ 0 then a :: b :: l else b :: insertFound a l

/-- The method `Array.prototype.sort` with `compareFound`.  The sort of ECMAScript is
stable, and for a consistent comparison function the stable sorted order is unique; this
insertion sort produces it. -/
def sortFound : List FoundTime → List FoundTime
  | [] => []
  | a :: l => insertFound a (sortFound l)

/-- Source function `findStartTime`, on the root element of the document; `none` is
`null`. -/
def findStartTime (document : DomNode) : Option JSString :=
  let allElements := elementsOf document
  match findMarker allElements with
  | none => none
  | some targetElement =>
    let elementsToCheck := elementsOf targetElement
    let foundTimes := collectTimes elementsToCheck
    if foundTimes.isEmpty then none
    else
      match sortFound foundTimes with
      | startTime :: _ => some startTime.time
      | [] => none

/-- A page in which the tracking marker `기록 중` has two clock fragments nested under
it. -/
def markerWithTwoTimes : DomNode :=
  DomNode.element "div" [DomNode.text "기록 중".toList,
    DomNode.element "span" [DomNode.text "오전 9:10".toList],
    DomNode.element "span" [DomNode.text "오전 9:05".toList]]

/-- A page in which the tracking marker has a fragment that is no time of day. -/
def markerWithBadTime : DomNode :=
  DomNode.element "div" [DomNode.text "기록 중".toList,
    DomNode.element "span" [DomNode.text "오후 13:75".toList]]


/-- A node lies below another one: it is a child of it, or lies below one of its
children. -/
inductive Descendant : DomNode → DomNode → Prop
  | child (tag : String) (children : List DomNode) (c : DomNode) :
      c ∈ children → Descendant c (DomNode.element tag children)
  | deeper (tag : String) (children : List DomNode) (c d : DomNode) :
      c ∈ children → Descendant d c → Descendant d (DomNode.element tag children)

/-- A node is an element, not a text node. -/
def isElement : DomNode → Bool
  | DomNode.element _ _ => true
  | DomNode.text _ => false

/-- A page with the tracking marker and a clock fragment in one widget, and another
clock fragment in a widget beside it. -/
def markerBesideOtherClock : DomNode :=
  DomNode.element "body" [
    DomNode.element "div" [DomNode.text "기록 중".toList,
      DomNode.element "span" [DomNode.text "오전 9:05".toList]],
    DomNode.element "div" [DomNode.element "span" [DomNode.text "오전 8:00".toList],
      DomNode.text "다른 위젯의 시간 표시".toList]]

/-- The same page with a different clock fragment in the widget beside the marker. -/
def markerBesideChangedClock : DomNode :=
  DomNode.element "body" [
    DomNode.element "div" [DomNode.text "기록 중".toList,
      DomNode.element "span" [DomNode.text "오전 9:05".toList]],
    DomNode.element "div" [DomNode.element "span" [DomNode.text "오전 7:30".toList],
      DomNode.text "다른 위젯의 시간 표시입니다".toList]]


/-! ## The three duration patterns, as the specification words them -/

/-- A number in a text: a non-empty run of decimal digits. -/
def IsNumber (s : JSString) : Prop := s ≠ [] ∧ ∀ c ∈ s, isDigit c = true

/-- The text has, after `front`, an occurrence of the hour-and-minute form: the number
`H`, the word `시간`, optional white space, the number `M`, the word `분`. -/
def HourMinuteOccurrence (text front H M : JSString) : Prop :=
  ∃ ws back : JSString,
    text = front ++ H ++ "시간".toList ++ ws ++ M ++ '분' :: back ∧
    IsNumber H ∧ (∀ c ∈ ws, isJSWhitespace c = true) ∧ IsNumber M

/-- The text has, after `front`, an occurrence of the colon form: the number `H`, a
colon, the number `M` (the whole run of digits that follows the colon). -/
def ColonOccurrence (text front H M : JSString) : Prop :=
  ∃ back : JSString,
    text = front ++ H ++ ':' :: M ++ back ∧ IsNumber H ∧ IsNumber M ∧
    ∀ (c : Char) (r : JSString), back = c :: r → isDigit c = false

/-- The text has, after `front`, an occurrence of the hour-only form: the number `H`
and the word `시간`. -/
def HoursOnlyOccurrence (text front H : JSString) : Prop :=
  ∃ back : JSString, text = front ++ H ++ "시간".toList ++ back ∧ IsNumber H


/-! ## The acquisition controller (source function `initialize` and its callbacks)

The controller is a step function on a record of the variables the callbacks share.
What the page shows at the moment a callback runs is an input of the step: each event
that can make an attempt carries `presentable`, whether `calculateAndDisplayTotalTime`,
run at that moment, ends in `displayTotalTime` appending the display element (`true`)
or in `displayError` (`false`); every path of that function ends in one of the two.  The
display element is looked up in the document, which the script does not own, so the
page may add or remove an element with that id between two callbacks.  The retry button
of the error display is outside the controller and is not an event here. -/

/-- The constant `CONFIG.TIMING.MAX_RETRIES`. -/
def MAX_RETRIES : Nat := 20

/-- The bound on `fallbackRetries` written in the interval callback. -/
def MAX_FALLBACK_RETRIES : Nat := 5

/-- The variables of the controller, with counters of what has been run. -/
structure Controller where
  /-- The module variable `isCalculated`. -/
  isCalculated : Bool
  /-- Whether `document.getElementById(CONFIG.UI.DISPLAY_ID)` finds an element. -/
  displayExists : Bool
  /-- The timer of the deferred first attempt is scheduled. -/
  firstAttemptPending : Bool
  /-- The `MutationObserver` is observing. -/
  observerActive : Bool
  /-- The timer of `CONFIG.TIMING.OBSERVER_TIMEOUT` is scheduled. -/
  timeoutPending : Bool
  /-- The interval timer `fallbackInterval` is running. -/
  intervalActive : Bool
  /-- The variable `retryCount` of the observer callback. -/
  retryCount : Nat
  /-- The variable `fallbackRetries` of the interval callback. -/
  fallbackRetries : Nat
  /-- How often `calculateAndDisplayTotalTime` has been run. -/
  pipelineRuns : Nat
  /-- How often a result has been presented (`displayTotalTime`). -/
  resultsPresented : Nat
  /-- How often an error has been shown (`displayError`). -/
  errorsShown : Nat
  /-- How often the observer callback has called `tryCalculate`. -/
  observerAttempts : Nat
  /-- How often the interval callback has called `tryCalculate`. -/
  intervalAttempts : Nat
  /-- How often the timeout callback has called `tryCalculate`. -/
  timeoutAttempts : Nat
  /-- The timeout callback has run. -/
  timeoutFired : Bool
  deriving DecidableEq

/-- What can happen to the controller: one of its four callbacks runs, or the page
changes whether an element with the display id exists. -/
inductive Event where
  | firstAttempt (presentable : Bool)
  | mutation (presentable : Bool)
  | tick (presentable : Bool)
  | timeout (presentable : Bool)
  | pageSetsDisplay (present : Bool)
  deriving DecidableEq

/-- The effect of `calculateAndDisplayTotalTime` on the controller: a result is
presented and the display element exists, or an error is shown. -/
def runPipeline (s : Controller) (presentable : Bool) : Controller :=
  if presentable then
    { s with pipelineRuns := s.pipelineRuns + 1, resultsPresented := s.resultsPresented + 1,
             displayExists := true }
  else
    { s with pipelineRuns := s.pipelineRuns + 1, errorsShown := s.errorsShown + 1 }

/-- Source function `tryCalculate`: the new state and the returned boolean. -/
def tryCalculate (s : Controller) (presentable : Bool) : Controller × Bool :=
  if !s.isCalculated && !s.displayExists then
    ({ runPipeline s presentable with isCalculated := true }, true)
  else (s, false)

/-- The state after `initialize` has scheduled the deferred first attempt;
`displayExists` says whether the document already holds an element with the display
id. -/
def initialController (displayExists : Bool) : Controller :=
  { isCalculated := false, displayExists := displayExists, firstAttemptPending := true,
    observerActive := false, timeoutPending := false, intervalActive := false,
    retryCount := 0, fallbackRetries := 0, pipelineRuns := 0, resultsPresented := 0,
    errorsShown := 0, observerAttempts := 0, intervalAttempts := 0, timeoutAttempts := 0,
    timeoutFired := false }

/-- The callback of the deferred first attempt. -/
def onFirstAttempt (s : Controller) (presentable : Bool) : Controller :=
  let r := tryCalculate { s with firstAttemptPending := false } presentable
  if r.2 then r.1
  else
    { r.1 with retryCount := 0, observerActive := true, timeoutPending := true,
               fallbackRetries := 0, intervalActive := true }

/-- The callback of the `MutationObserver`. -/
def onMutation (s : Controller) (presentable : Bool) : Controller :=
  let r := tryCalculate
    { s with retryCount := s.retryCount + 1, observerAttempts := s.observerAttempts + 1 }
    presentable
  if r.2 then { r.1 with observerActive := false }
  else if r.1.retryCount ≥ MAX_RETRIES then { r.1 with observerActive := false }
  else r.1

/-- The callback of the timeout. -/
def onTimeout (s : Controller) (presentable : Bool) : Controller :=
  let s0 := { s with timeoutPending := false, timeoutFired := true, observerActive := false }
  if !s0.isCalculated then
    (tryCalculate { s0 with timeoutAttempts := s0.timeoutAttempts + 1 } presentable).1
  else s0

/-- The callback of the interval timer. -/
def onTick (s : Controller) (presentable : Bool) : Controller :=
  let r := tryCalculate
    { s with fallbackRetries := s.fallbackRetries + 1,
             intervalAttempts := s.intervalAttempts + 1 }
    presentable
  if r.2 || decide (r.1.fallbackRetries ≥ MAX_FALLBACK_RETRIES) then
    { r.1 with intervalActive := false }
  else r.1

/-- One step of the controller.  A callback runs only while its timer or subscription
is active; otherwise nothing happens. -/
def step (s : Controller) : Event → Controller
  | Event.firstAttempt p => if s.firstAttemptPending then onFirstAttempt s p else s
  | Event.mutation p => if s.observerActive then onMutation s p else s
  | Event.tick p => if s.intervalActive then onTick s p else s
  | Event.timeout p => if s.timeoutPending then onTimeout s p else s
  | Event.pageSetsDisplay b => { s with displayExists := b }

/-- The state after a sequence of events. -/
def runEvents (s : Controller) : List Event → Controller
  | [] => s
  | e :: es => runEvents (step s e) es

/-- The event is a callback of the controller, not a change made by the page. -/
def Event.isCallback : Event → Bool
  | Event.pageSetsDisplay _ => false
  | _ => true

/-- The pipeline does not succeed at this event: the page has nothing presentable. -/
def Event.fails : Event → Bool
  | Event.firstAttempt p => !p
  | Event.mutation p => !p
  | Event.tick p => !p
  | Event.timeout p => !p
  | Event.pageSetsDisplay _ => true

/-- The controller is polling: the subscription, the interval timer and the timeout are
all active. -/
def Controller.polling (s : Controller) : Bool :=
  s.observerActive && s.intervalActive && s.timeoutPending

/-- No timer and no subscription of the controller is active. -/
def Controller.allCancelled (s : Controller) : Bool :=
  !s.firstAttemptPending && !s.observerActive && !s.intervalActive && !s.timeoutPending


/-- What holds in every state the controller can reach. -/
def Controller.Inv (s : Controller) : Prop :=
  s.pipelineRuns ≤ 1 ∧
  (s.isCalculated = true ↔ s.pipelineRuns = 1) ∧
  s.resultsPresented + s.errorsShown = s.pipelineRuns ∧
  s.observerAttempts = s.retryCount ∧
  (s.observerActive = true → s.retryCount < MAX_RETRIES) ∧
  s.retryCount ≤ MAX_RETRIES ∧
  s.intervalAttempts = s.fallbackRetries ∧
  (s.intervalActive = true → s.fallbackRetries < MAX_FALLBACK_RETRIES) ∧
  s.fallbackRetries ≤ MAX_FALLBACK_RETRIES ∧
  s.timeoutAttempts ≤ 1 ∧
  (s.timeoutPending = true → s.timeoutAttempts = 0 ∧ s.timeoutFired = false) ∧
  (s.timeoutFired = true → s.observerActive = false ∧ s.timeoutPending = false) ∧
  (s.firstAttemptPending = true →
    s.observerActive = false ∧ s.intervalActive = false ∧ s.timeoutPending = false ∧
    s.retryCount = 0 ∧ s.fallbackRetries = 0 ∧ s.timeoutAttempts = 0 ∧
    s.pipelineRuns = 0 ∧ s.timeoutFired = false)

/-! ## Facts about digits and number printing -/

theorem isDigit_digitChar (d : Nat) (h : d < 10) : isDigit (digitChar d) = true := by
  revert d; decide

theorem digitVal_digitChar (d : Nat) (h : d < 10) : digitVal (digitChar d) = d := by
  revert d; decide

theorem not_ws_of_isDigit {c : Char} (h : isDigit c = true) : isJSWhitespace c = false := by
  simp only [isDigit, Bool.and_eq_true, decide_eq_true_eq] at h
  simp only [isJSWhitespace, Bool.or_eq_false_iff, beq_eq_false_iff_ne, ne_eq,
    Bool.and_eq_false_iff, decide_eq_false_iff_not]
  omega

theorem takeWhile_run {p : Char → Bool} (ds : JSString) (c : Char) (r : JSString)
    (hds : ∀ x ∈ ds, p x = true) (hc : p c = false) :
    (ds ++ c :: r).takeWhile p = ds := by
  induction ds with
  | nil => simp [List.takeWhile, hc]
  | cons a t ih =>
    have ha : p a = true := hds a (List.mem_cons_self _ _)
    have ht : ∀ x ∈ t, p x = true := fun x hx => hds x (List.mem_cons_of_mem _ hx)
    simp [List.takeWhile, ha, ih ht]

theorem dropWhile_run {p : Char → Bool} (ds : JSString) (c : Char) (r : JSString)
    (hds : ∀ x ∈ ds, p x = true) (hc : p c = false) :
    (ds ++ c :: r).dropWhile p = c :: r := by
  induction ds with
  | nil => simp [List.dropWhile, hc]
  | cons a t ih =>
    have ha : p a = true := hds a (List.mem_cons_self _ _)
    have ht : ∀ x ∈ t, p x = true := fun x hx => hds x (List.mem_cons_of_mem _ hx)
    simp [List.dropWhile, ha, ih ht]

theorem digitsVal_append_one (ds : JSString) (c : Char) :
    digitsVal (ds ++ [c]) = digitsVal ds * 10 + digitVal c := by
  simp [digitsVal, List.foldl_append]

/-- With enough fuel, `toDigitsFuel` puts in front of `acc` a non-empty run of decimal
digits whose value is `n`. -/
theorem toDigitsFuel_spec (fuel : Nat) : ∀ (n : Nat) (acc : JSString), n < fuel →
    ∃ ds : JSString, toDigitsFuel fuel n acc = ds ++ acc ∧ ds ≠ [] ∧
      (∀ c ∈ ds, isDigit c = true) ∧ digitsVal ds = n := by
  induction fuel with
  | zero => intro n acc h; omega
  | succ f ih =>
    intro n acc h
    by_cases h10 : n < 10
    · refine ⟨[digitChar n], ?_, by simp, ?_, ?_⟩
      · simp [toDigitsFuel, h10]
      · intro c hc
        simp only [List.mem_singleton] at hc
        rw [hc]; exact isDigit_digitChar n h10
      · simp [digitsVal, digitVal_digitChar n h10]
    · have hlt : n / 10 < f := by omega
      obtain ⟨ds, h1, h2, h3, h4⟩ := ih (n / 10) (digitChar (n % 10) :: acc) hlt
      have hmod : n % 10 < 10 := Nat.mod_lt _ (by decide)
      refine ⟨ds ++ [digitChar (n % 10)], ?_, by simp, ?_, ?_⟩
      · simp [toDigitsFuel, h10, h1]
      · intro c hc
        rcases List.mem_append.mp hc with hc | hc
        · exact h3 c hc
        · simp only [List.mem_singleton] at hc
          rw [hc]; exact isDigit_digitChar _ hmod
      · rw [digitsVal_append_one, h4, digitVal_digitChar _ hmod]; omega

/-- The printed form of a natural number is a non-empty run of digits with that value. -/
theorem natToString_spec (n : Nat) :
    natToString n ≠ [] ∧ (∀ c ∈ natToString n, isDigit c = true) ∧
      digitsVal (natToString n) = n := by
  obtain ⟨ds, h1, h2, h3, h4⟩ := toDigitsFuel_spec (n + 1) n [] (Nat.lt_succ_self n)
  have : natToString n = ds := by simpa [natToString] using h1
  rw [this]; exact ⟨h2, h3, h4⟩

/-- Below one hundred, `padStart(2, '0')` of the printed number is its two digits. -/
theorem padStart2_natToString (k : Nat) (h : k < 100) :
    padStart2 (natToString k) = [digitChar (k / 10), digitChar (k % 10)] := by
  revert k; decide

/-- The value of one or two digits is below one hundred. -/
theorem digitsVal_short (h : JSString) (hlen : h.length ≤ 2)
    (hd : ∀ x ∈ h, isDigit x = true) : digitsVal h < 100 := by
  have hv : ∀ x : Char, isDigit x = true → digitVal x < 10 := by
    intro x hx
    simp only [isDigit, Bool.and_eq_true, decide_eq_true_eq] at hx
    unfold digitVal; omega
  match h, hlen, hd with
  | [], _, _ => simp [digitsVal]
  | [a], _, hd =>
    have := hv a (hd a (by simp))
    simp only [digitsVal, List.foldl]; omega
  | [a, b], _, hd =>
    have := hv a (hd a (by simp))
    have := hv b (hd b (by simp))
    simp only [digitsVal, List.foldl]; omega
  | _ :: _ :: _ :: _, hlen, _ => simp at hlen


/-! ## Facts about the arithmetic of doubles -/

/-- With enough fuel `log2Fuel` brackets a positive number between two powers of 2. -/
theorem log2Fuel_spec (fuel : Nat) : ∀ n : Nat, 0 < n → n ≤ fuel →
    2 ^ log2Fuel fuel n ≤ n ∧ n < 2 ^ (log2Fuel fuel n + 1) := by
  induction fuel with
  | zero => intro n h0 h; omega
  | succ f ih =>
    intro n h0 h
    by_cases h2 : n < 2
    · have h1 : n = 1 := by omega
      subst h1
      simp [log2Fuel]
    · have hrec : log2Fuel (f + 1) n = log2Fuel f (n / 2) + 1 := by
        simp [log2Fuel, h2]
      obtain ⟨ha, hb⟩ := ih (n / 2) (by omega) (by omega)
      rw [hrec]
      constructor
      · rw [pow_succ]; omega
      · rw [pow_succ] at hb ⊢; omega

theorem floorLog2_spec (n : Nat) (h : 0 < n) :
    2 ^ floorLog2 n ≤ n ∧ n < 2 ^ (floorLog2 n + 1) :=
  log2Fuel_spec n n h (le_refl n)

theorem floorLog2_zero : floorLog2 0 = 0 := rfl

/-- Below `2 ^ (k + 1)` the leading binary digit stands at position `k` or lower. -/
theorem floorLog2_le (n k : Nat) (h : n < 2 ^ (k + 1)) : floorLog2 n ≤ k := by
  rcases Nat.eq_zero_or_pos n with h0 | h0
  · subst h0; simp [floorLog2_zero]
  · have h1 := (floorLog2_spec n h0).1
    have h2 : 2 ^ floorLog2 n < 2 ^ (k + 1) := lt_of_le_of_lt h1 h
    have := (Nat.pow_lt_pow_iff_right (by decide : 1 < 2)).mp h2
    omega

theorem roundHalfEven_one (n : Nat) : roundHalfEven n 1 = n := by
  simp [roundHalfEven, Nat.mod_one]

/-- An integer of magnitude at most `2 ^ 53` is a double. -/
theorem roundNat_exact (x : Nat) (h : x ≤ 2 ^ 53) : roundNat x = x := by
  rcases Nat.lt_or_ge x (2 ^ 53) with hlt | hge
  · have he : floorLog2 x - 52 = 0 := by
      have := floorLog2_le x 52 hlt
      omega
    unfold roundNat
    rw [he]
    simp [roundHalfEven_one]
  · have : x = 2 ^ 53 := le_antisymm h hge
    subst this
    decide

theorem roundHalfEven_ge (n d : Nat) : n / d ≤ roundHalfEven n d := by
  unfold roundHalfEven
  split_ifs <;> omega

/-- Rounding to a double does not make a positive number zero. -/
theorem roundNat_pos (x : Nat) (h : 0 < x) : 0 < roundNat x := by
  have h1 := (floorLog2_spec x h).1
  have hp : 0 < 2 ^ (floorLog2 x - 52) := Nat.two_pow_pos _
  have hle : 2 ^ (floorLog2 x - 52) ≤ x :=
    le_trans (Nat.pow_le_pow_right (by decide) (Nat.sub_le _ _)) h1
  have hq : 0 < x / 2 ^ (floorLog2 x - 52) := Nat.div_pos hle hp
  have := roundHalfEven_ge x (2 ^ (floorLog2 x - 52))
  unfold roundNat
  exact Nat.mul_pos (by omega) hp

theorem toDouble_exact (z : Int) (h : |z| ≤ 2 ^ 53) : toDouble z = z := by
  cases z with
  | ofNat n =>
    have hn : n ≤ 2 ^ 53 := by
      have : |(n : Int)| = (n : Int) := abs_of_nonneg (Int.ofNat_nonneg n)
      simp only [Int.ofNat_eq_coe] at h
      rw [this] at h
      exact_mod_cast h
    show (roundNat n : Int) = (n : Int)
    rw [roundNat_exact n hn]
  | negSucc n =>
    have hn : n + 1 ≤ 2 ^ 53 := by
      have : |Int.negSucc n| = ((n + 1 : Nat) : Int) := by
        rw [abs_of_neg (Int.negSucc_lt_zero n)]; rfl
      rw [this] at h
      exact_mod_cast h
    show -(roundNat (n + 1) : Int) = Int.negSucc n
    rw [roundNat_exact (n + 1) hn]
    rfl

theorem toDouble_natCast (n : Nat) : toDouble (n : Int) = (roundNat n : Int) := rfl

theorem toDouble_nonneg (z : Int) (h : 0 ≤ z) : 0 ≤ toDouble z := by
  cases z with
  | ofNat n => exact Int.ofNat_nonneg _
  | negSucc n => exact absurd h (by simp [Int.negSucc_lt_zero])

theorem toDouble_neg (z : Int) (h : z < 0) : toDouble z < 0 := by
  cases z with
  | ofNat n => exact absurd h (by simp)
  | negSucc n =>
    have := roundNat_pos (n + 1) (Nat.succ_pos n)
    show -(roundNat (n + 1) : Int) < 0
    omega

/-- For a dividend up to `2 ^ 53` the rounded quotient by 60, rounded down, is the
integer quotient: `Math.floor (x / 60)` is exact there. -/
theorem floorQuotient_exact (x : Nat) (h : x ≤ 2 ^ 53) : floorQuotient x 60 = x / 60 := by
  unfold floorQuotient
  by_cases hx : x < 60
  · rw [if_pos hx]; omega
  · rw [if_neg hx]
    have hq : x / 60 < 2 ^ (47 + 1) := by
      have : (2 : Nat) ^ 53 = 9007199254740992 := by norm_num
      have : (2 : Nat) ^ (47 + 1) = 281474976710656 := by norm_num
      omega
    have hE := floorLog2_le (x / 60) 47 hq
    rw [if_pos (by omega)]
    generalize hs : 52 - floorLog2 (x / 60) = s
    have hs5 : 5 ≤ s := by omega
    have hP : 32 ≤ 2 ^ s := by
      calc 32 = 2 ^ 5 := by norm_num
        _ ≤ 2 ^ s := Nat.pow_le_pow_right (by decide) hs5
    generalize 2 ^ s = P at hP
    have hxd : x = 60 * (x / 60) + x % 60 := (Nat.div_add_mod x 60).symm
    have hj : x % 60 < 60 := Nat.mod_lt _ (by decide)
    generalize x / 60 = k at hxd
    generalize x % 60 = j at hxd hj
    have hmul : x * P = 60 * (k * P) + j * P := by rw [hxd]; ring
    have hjP : j * P ≤ 59 * P := Nat.mul_le_mul_right P (by omega)
    rw [hmul]
    generalize j * P = B at hjP
    have hR : ∃ t, t < P ∧ roundHalfEven (60 * (k * P) + B) 60 = t + k * P := by
      unfold roundHalfEven
      generalize k * P = A
      split_ifs
      · exact ⟨B / 60, by omega, by omega⟩
      · exact ⟨B / 60 + 1, by omega, by omega⟩
      · exact ⟨B / 60, by omega, by omega⟩
      · exact ⟨B / 60 + 1, by omega, by omega⟩
    obtain ⟨t, ht, hRt⟩ := hR
    rw [hRt, Nat.add_mul_div_right _ _ (by omega : 0 < P), Nat.div_eq_of_lt ht]
    omega

/-- The rounded quotient of a positive number, rounded up, is positive. -/
theorem ceilQuotient_pos (x : Nat) (h : 0 < x) : 0 < ceilQuotient x 60 := by
  unfold ceilQuotient
  rw [if_neg (by omega)]
  by_cases hx : x < 60
  · rw [if_pos hx]; decide
  · rw [if_neg hx]
    have hq0 : 0 < x / 60 := Nat.div_pos (by omega) (by decide)
    have hlo := (floorLog2_spec (x / 60) hq0).1
    split_ifs with hE
    · generalize 52 - floorLog2 (x / 60) = s
      have hP : 0 < 2 ^ s := Nat.two_pow_pos _
      have hge := roundHalfEven_ge (x * 2 ^ s) 60
      have hx1 : 60 * 2 ^ s ≤ x * 2 ^ s := Nat.mul_le_mul_right _ (by omega)
      have hR : 2 ^ s ≤ x * 2 ^ s / 60 := by
        rw [Nat.le_div_iff_mul_le (by decide)]; omega
      apply Nat.div_pos _ hP
      omega
    · have hP : 0 < 2 ^ (floorLog2 (x / 60) - 52) := Nat.two_pow_pos _
      have hge := roundHalfEven_ge x (60 * 2 ^ (floorLog2 (x / 60) - 52))
      have hle : 2 ^ (floorLog2 (x / 60) - 52) ≤ x / 60 :=
        le_trans (Nat.pow_le_pow_right (by decide) (Nat.sub_le _ _)) hlo
      have hq : 0 < x / (60 * 2 ^ (floorLog2 (x / 60) - 52)) := by
        apply Nat.div_pos _ (by omega)
        have := Nat.div_mul_le_self x 60
        nlinarith
      exact Nat.mul_pos (by omega) hP

theorem mathFloorDiv_natCast (n : Nat) : mathFloorDiv (n : Int) 60 = (floorQuotient n 60 : Int) :=
  rfl

theorem mathFloorDiv_neg (z : Int) (h : z < 0) : mathFloorDiv z 60 < 0 := by
  cases z with
  | ofNat n => exact absurd h (by simp)
  | negSucc n =>
    have := ceilQuotient_pos (n + 1) (Nat.succ_pos n)
    show -(ceilQuotient (n + 1) 60 : Int) < 0
    omega

theorem toDouble_exact_of_bounds (z : Int) (h1 : -9007199254740992 ≤ z)
    (h2 : z ≤ 9007199254740992) : toDouble z = z := by
  apply toDouble_exact
  rw [abs_le]
  constructor
  · have : (2 : Int) ^ 53 = 9007199254740992 := by norm_num
    omega
  · have : (2 : Int) ^ 53 = 9007199254740992 := by norm_num
    omega

theorem toDouble_exact_natCast (n : Nat) (h : n ≤ 2 ^ 53) : toDouble (n : Int) = (n : Int) := by
  rw [toDouble_natCast, roundNat_exact n h]

/-- In the range up to `2 ^ 53` the minute count `60 * h + m` is computed exactly from
the parsed digits. -/
theorem minutes_exact (h m : Nat) (hb : 60 * h + m ≤ 2 ^ 53) :
    jsAdd (jsMul (toDouble (h : Int)) 60) (toDouble (m : Int)) = 60 * (h : Int) + (m : Int) := by
  have e1 : toDouble (h : Int) = (h : Int) := toDouble_exact_natCast h (by omega)
  have e2 : toDouble (m : Int) = (m : Int) := toDouble_exact_natCast m (by omega)
  have e3 : toDouble (((h * 60 : Nat) : Int)) = ((h * 60 : Nat) : Int) :=
    toDouble_exact_natCast (h * 60) (by omega)
  have e4 : toDouble (((h * 60 + m : Nat) : Int)) = ((h * 60 + m : Nat) : Int) :=
    toDouble_exact_natCast (h * 60 + m) (by omega)
  unfold jsAdd jsMul
  rw [e1, e2]
  have c3 : (h : Int) * 60 = ((h * 60 : Nat) : Int) := by push_cast; ring
  rw [c3, e3]
  have c4 : ((h * 60 : Nat) : Int) + (m : Int) = ((h * 60 + m : Nat) : Int) := by push_cast; ring
  rw [c4, e4]
  push_cast; ring

/-- In the range up to `2 ^ 53` the minute count `60 * h` is computed exactly. -/
theorem hours_exact (h : Nat) (hb : 60 * h ≤ 2 ^ 53) :
    jsMul (toDouble (h : Int)) 60 = 60 * (h : Int) := by
  have := minutes_exact h 0 (by omega)
  have e0 : toDouble ((0 : Nat) : Int) = 0 := by decide
  unfold jsAdd at this
  rw [e0, add_zero] at this
  have hval : jsMul (toDouble (h : Int)) 60 = ((h * 60 : Nat) : Int) := by
    have e1 : toDouble (h : Int) = (h : Int) := toDouble_exact_natCast h (by omega)
    unfold jsMul
    rw [e1]
    have c3 : (h : Int) * 60 = ((h * 60 : Nat) : Int) := by push_cast; ring
    rw [c3, toDouble_exact_natCast (h * 60) (by omega)]
  rw [hval]; push_cast; ring

/-- Below `2 ^ 53` a natural number is printed in plain decimal digits. -/
theorem numToString_natCast (n : Nat) (h : n < 2 ^ 53) :
    numToString (n : Int) = natToString n := by
  show numToStringNat n = natToString n
  unfold numToStringNat
  rw [if_pos h]

/-- The printed form of a natural number is never empty. -/
theorem numToStringNat_ne_nil (x : Nat) : numToStringNat x ≠ [] := by
  unfold numToStringNat
  split_ifs
  · exact (natToString_spec x).1
  · exact (natToString_spec _).1
  · unfold exponentForm
    split
    · exact (natToString_spec _).1
    · simp

theorem searchFirst_of_here {α : Type} (here : JSString → Option α) (s : JSString) (r : α)
    (h : here s = some r) : searchFirst here s = some r := by
  cases s with
  | nil => simpa [searchFirst] using h
  | cons c cs => simp [searchFirst, h]

/-- The hour-and-minute pattern matches a text `<digits>시간 <d><d>분` at its start and
captures the digit runs. -/
theorem matchHourMinuteHere_formatted (H : JSString) (a b : Char) (hne : H ≠ [])
    (hH : ∀ c ∈ H, isDigit c = true) (ha : isDigit a = true) (hb : isDigit b = true) :
    matchHourMinuteHere (H ++ '시' :: '간' :: ' ' :: a :: b :: ['분']) = some (H, [a, b]) := by
  have hsi : isDigit '시' = false := by decide
  have hbun : isDigit '분' = false := by decide
  have hsp : isJSWhitespace ' ' = true := by decide
  have haw : isJSWhitespace a = false := not_ws_of_isDigit ha
  unfold matchHourMinuteHere
  rw [takeWhile_run H '시' _ hH hsi, dropWhile_run H '시' _ hH hsi]
  have hemp : H.isEmpty = false := by cases H <;> simp_all
  simp [hemp, List.dropWhile, List.takeWhile, hsp, haw, ha, hb, hbun]

/-- Claim C1 fails above `2 ^ 53`.  The double 36028797018964024 is printed with 600479950316067
hours and 04 minutes; read back, `600479950316067 * 60` is not a double and is rounded,
and the result is 36028797018964016.  The double `6 * 10 ^ 22` has `10 ^ 21` hours, which
print in exponent form as `1e+21`; the pattern then finds `21시간 00분` and the result is
1260. -/
theorem formatted_duration_read_back_inexact :
    toDouble 36028797018964024 = 36028797018964024 ∧
    formatMinutesToTime 36028797018964024 = "600479950316067시간 04분".toList ∧
    parseTimeToMinutes (formatMinutesToTime 36028797018964024) = 36028797018964016 ∧
    parseTimeToMinutes (formatMinutesToTime 36028797018964024) ≠ 36028797018964024 ∧
    toDouble 60000000000000000000000 = 60000000000000000000000 ∧
    formatMinutesToTime 60000000000000000000000 = "1e+21시간 00분".toList ∧
    parseTimeToMinutes (formatMinutesToTime 60000000000000000000000) = 1260 := by
  decide

/-- Claim C1, amended: for every integer `m` from 0 to `2 ^ 53`, parsing the worded
duration `<H>시간 <MM>분` that `formatMinutesToTime` produces for `m` gives back exactly
`m`. -/
theorem parseTimeToMinutes_formatMinutesToTime (m : Nat) (hm : m ≤ 2 ^ 53) :
    parseTimeToMinutes (formatMinutesToTime (m : Int)) = (m : Int) := by
  have hq : mathFloorDiv (m : Int) 60 = ((m / 60 : Nat) : Int) := by
    rw [mathFloorDiv_natCast, floorQuotient_exact m hm]
  have hr : jsMod (m : Int) 60 = ((m % 60 : Nat) : Int) := by
    unfold jsMod
    rw [Int.tmod_eq_emod (by omega) (by decide)]; omega
  obtain ⟨hne, hH, hval⟩ := natToString_spec (m / 60)
  have hlt : m % 60 < 100 := by omega
  have hfmt : formatMinutesToTime (m : Int) =
      natToString (m / 60) ++ '시' :: '간' :: ' ' ::
        digitChar (m % 60 / 10) :: digitChar (m % 60 % 10) :: ['분'] := by
    show numToString (mathFloorDiv (m : Int) 60) ++ "시간 ".toList ++
      padStart2 (numToString (jsMod (m : Int) 60)) ++ "분".toList = _
    rw [hq, hr, numToString_natCast (m / 60) (by omega),
      numToString_natCast (m % 60) (by omega)]
    show natToString (m / 60) ++ "시간 ".toList ++ padStart2 (natToString (m % 60)) ++
      "분".toList = _
    rw [padStart2_natToString _ hlt]
    simp
  have ha : isDigit (digitChar (m % 60 / 10)) = true := isDigit_digitChar _ (by omega)
  have hb : isDigit (digitChar (m % 60 % 10)) = true := isDigit_digitChar _ (by omega)
  have hmatch := matchHourMinuteHere_formatted (natToString (m / 60)) _ _ hne hH ha hb
  have hsearch := searchFirst_of_here matchHourMinuteHere _ _ hmatch
  have hnonempty : (formatMinutesToTime (m : Int)).isEmpty = false := by
    rw [hfmt]; cases hs : natToString (m / 60) <;> simp_all
  unfold parseTimeToMinutes
  rw [hnonempty]
  rw [hfmt, hsearch]
  have hv2 : digitsVal [digitChar (m % 60 / 10), digitChar (m % 60 % 10)] = m % 60 := by
    simp only [digitsVal, List.foldl]
    rw [digitVal_digitChar _ (by omega : m % 60 / 10 < 10),
      digitVal_digitChar _ (by omega : m % 60 % 10 < 10)]
    omega
  simp only [Bool.false_eq_true, if_false]
  unfold parseDigits
  rw [hval, hv2, minutes_exact (m / 60) (m % 60) (by omega)]
  omega

/-- The round trip at a concrete input: 587 minutes are printed as `9시간 47분` and read
back as 587. -/
theorem parseTimeToMinutes_formatMinutesToTime_witness :
    (587 : Nat) ≤ 2 ^ 53 ∧
    parseTimeToMinutes (formatMinutesToTime ((587 : Nat) : Int)) = ((587 : Nat) : Int) :=
  ⟨by decide, parseTimeToMinutes_formatMinutesToTime 587 (by decide)⟩

/-! ## `addMinutesToTime` on well-formed clock strings -/

theorem takeWhile_all {p : Char → Bool} (ds : JSString) (hds : ∀ x ∈ ds, p x = true) :
    ds.takeWhile p = ds := by
  induction ds with
  | nil => rfl
  | cons a t ih =>
    have ha : p a = true := hds a (List.mem_cons_self _ _)
    have ht : ∀ x ∈ t, p x = true := fun x hx => hds x (List.mem_cons_of_mem _ hx)
    simp [List.takeWhile, ha, ih ht]

/-- On a non-empty run of digits `parseInt` is never `NaN`: it returns the value of the
run. -/
theorem parseInt_digits (ds : JSString) (hne : ds ≠ []) (hds : ∀ x ∈ ds, isDigit x = true) :
    parseInt ds = some (parseDigits ds) := by
  obtain ⟨a, t, rfl⟩ := List.exists_cons_of_ne_nil hne
  have ha : isDigit a = true := hds a (List.mem_cons_self _ _)
  have hws : isJSWhitespace a = false := not_ws_of_isDigit ha
  have hminus : a ≠ '-' := by rintro rfl; revert ha; decide
  have hplus : a ≠ '+' := by rintro rfl; revert ha; decide
  have hdrop : List.dropWhile isJSWhitespace (a :: t) = a :: t := by
    simp [List.dropWhile, hws]
  have hsign : splitSign (a :: t) = (1, a :: t) := by
    unfold splitSign
    split
    · rename_i r heq
      exact absurd (List.cons.inj heq).1 hminus
    · rename_i r heq
      exact absurd (List.cons.inj heq).1 hplus
    · rfl
  unfold parseInt parseDigits
  simp only [hdrop, hsign]
  rw [takeWhile_all _ hds]
  simp

theorem split_clock (a b c d : Char) (ha : isDigit a = true) (hb : isDigit b = true)
    (hc : isDigit c = true) (hd : isDigit d = true) :
    split [a, b, ':', c, d] ':' = [[a, b], [c, d]] := by
  have hne : ∀ x : Char, isDigit x = true → x ≠ ':' := by
    intro x hx; rintro rfl; revert hx; decide
  simp [split, splitAux, hne a ha, hne b hb, hne c hc, hne d hd]

/-- The numeric core of `addMinutesToTime` on a non-negative total `t` (the sum as the
script computes it): the printed result in terms of the rounded-down quotient and the
remainder. -/
theorem addMinutesToTime_of_parts (timeStr : JSString) (h m : Nat) (rest : List (Option Int))
    (hparts : (split timeStr ':').map parseInt = some (h : Int) :: some (m : Int) :: rest)
    (delta : Int) (t : Nat)
    (ht : jsAdd (jsAdd (jsMul (h : Int) 60) (m : Int)) delta = (t : Int)) :
    addMinutesToTime timeStr delta =
      if floorQuotient t 60 < 24 then
        twoDigits (floorQuotient t 60) ++ ':' :: twoDigits (t % 60)
      else "익일 ".toList ++ twoDigits (floorQuotient t 60 % 24) ++ ':' :: twoDigits (t % 60) := by
  have hq : mathFloorDiv (t : Int) 60 = ((floorQuotient t 60 : Nat) : Int) := rfl
  have hr : jsMod (t : Int) 60 = ((t % 60 : Nat) : Int) := by
    unfold jsMod
    rw [Int.tmod_eq_emod (by omega) (by decide)]; omega
  have hq24 : jsMod ((floorQuotient t 60 : Nat) : Int) 24 =
      ((floorQuotient t 60 % 24 : Nat) : Int) := by
    unfold jsMod
    rw [Int.tmod_eq_emod (by omega) (by decide)]; omega
  have hsmall : ∀ k : Nat, k < 100 → numToString (k : Int) = natToString k := by
    intro k hk
    exact numToString_natCast k (lt_trans hk (by norm_num))
  unfold addMinutesToTime
  rw [hparts]
  simp only [ht, hq, hr, hq24]
  have hmin : padStart2 (numToString ((t % 60 : Nat) : Int)) = twoDigits (t % 60) := by
    rw [hsmall _ (by omega)]
    exact padStart2_natToString _ (by omega)
  by_cases hlt : floorQuotient t 60 < 24
  · have hno : ¬ (((floorQuotient t 60 : Nat) : Int) ≥ 24) := by omega
    have hhour : padStart2 (numToString ((floorQuotient t 60 : Nat) : Int)) =
        twoDigits (floorQuotient t 60) := by
      rw [hsmall _ (by omega)]
      exact padStart2_natToString _ (by omega)
    rw [if_neg hno, if_pos hlt, hhour, hmin]
    rfl
  · have hyes : ((floorQuotient t 60 : Nat) : Int) ≥ 24 := by omega
    have hhour : padStart2 (numToString ((floorQuotient t 60 % 24 : Nat) : Int)) =
        twoDigits (floorQuotient t 60 % 24) := by
      rw [hsmall _ (by omega)]
      exact padStart2_natToString _ (by omega)
    rw [if_pos hyes, if_neg hlt, hhour, hmin]
    simp

theorem parts_clock (a b c d : Char) (ha : isDigit a = true) (hb : isDigit b = true)
    (hc : isDigit c = true) (hd : isDigit d = true) :
    (split [a, b, ':', c, d] ':').map parseInt =
      [some (digitsVal [a, b] : Int), some (digitsVal [c, d] : Int)] := by
  have hab : ∀ x ∈ [a, b], isDigit x = true := by
    intro x hx; simp only [List.mem_cons, List.mem_singleton, List.not_mem_nil, or_false] at hx
    rcases hx with rfl | rfl <;> assumption
  have hcd : ∀ x ∈ [c, d], isDigit x = true := by
    intro x hx; simp only [List.mem_cons, List.mem_singleton, List.not_mem_nil, or_false] at hx
    rcases hx with rfl | rfl <;> assumption
  have hab2 : digitsVal [a, b] < 100 := digitsVal_short [a, b] (by simp) hab
  have hcd2 : digitsVal [c, d] < 100 := digitsVal_short [c, d] (by simp) hcd
  rw [split_clock a b c d ha hb hc hd]
  simp only [List.map]
  rw [parseInt_digits [a, b] (by simp) hab, parseInt_digits [c, d] (by simp) hcd]
  unfold parseDigits
  rw [toDouble_exact_natCast _ (by omega), toDouble_exact_natCast _ (by omega)]

/-- The sum `hours * 60 + minutes + delta` of `addMinutesToTime` for two-digit parts: the
first two operations are exact, the last one rounds. -/
theorem total_clock (h m : Nat) (hh : h < 100) (hm : m < 100) (delta : Int) :
    jsAdd (jsAdd (jsMul (h : Int) 60) (m : Int)) delta =
      toDouble ((h : Int) * 60 + (m : Int) + delta) := by
  have e1 : jsMul (h : Int) 60 = (h : Int) * 60 := by
    unfold jsMul
    have c : (h : Int) * 60 = ((h * 60 : Nat) : Int) := by push_cast; ring
    rw [c, toDouble_exact_natCast _ (by omega)]
  have e2 : jsAdd ((h : Int) * 60) (m : Int) = (h : Int) * 60 + (m : Int) := by
    unfold jsAdd
    have c : (h : Int) * 60 + (m : Int) = ((h * 60 + m : Nat) : Int) := by push_cast; ring
    rw [c, toDouble_exact_natCast _ (by omega)]
  rw [e1, e2]
  rfl

/-- Claim C5 fails when the sum leaves the range of exact integers.  With `00:01` and the
double `2 ^ 53` the sum `2 ^ 53 + 1` is rounded to `2 ^ 53`, so the minute printed is 32,
where `t mod 60` of the claim is 33. -/
theorem addMinutesToTime_large_delta_inexact :
    toDouble 9007199254740992 = 9007199254740992 ∧
    addMinutesToTime "00:01".toList 9007199254740992 = "익일 00:32".toList ∧
    (digitsVal "00".toList * 60 + digitsVal "01".toList + 9007199254740992) % 60 = 33 ∧
    (digitsVal "00".toList * 60 + digitsVal "01".toList + 9007199254740992) / 60 % 24 = 0 ∧
    ¬ ((digitsVal "00".toList * 60 + digitsVal "01".toList + 9007199254740992) / 60 < 24) ∧
    addMinutesToTime "00:01".toList 9007199254740992 ≠
      "익일 ".toList ++
        twoDigits ((digitsVal "00".toList * 60 + digitsVal "01".toList + 9007199254740992)
          / 60 % 24) ++
        ':' :: twoDigits ((digitsVal "00".toList * 60 + digitsVal "01".toList +
          9007199254740992) % 60) := by
  decide

/-- Claim C5, amended: for a well-formed clock string `HH:MM` and a non-negative `delta`
such that `t = hour*60 + minute + delta` is at most `2 ^ 53`, `addMinutesToTime` returns
the zero-padded `HH:MM` of `(t / 60, t mod 60)` when `t / 60 < 24`, and otherwise the
next-day text `익일 HH:MM` with hour `(t / 60) mod 24` and minute `t mod 60`.  So 23:50
plus 20 is `익일 00:10` and 09:00 plus 540 is 18:00.  The statement holds for any two
digits on each side of the colon, in particular for every hour 0..23 and minute 0..59. -/
theorem addMinutesToTime_well_formed (a b c d : Char) (ha : isDigit a = true)
    (hb : isDigit b = true) (hc : isDigit c = true) (hd : isDigit d = true) (delta : Nat)
    (hbound : digitsVal [a, b] * 60 + digitsVal [c, d] + delta ≤ 2 ^ 53) :
    addMinutesToTime [a, b, ':', c, d] (delta : Int) =
      (if (digitsVal [a, b] * 60 + digitsVal [c, d] + delta) / 60 < 24 then
        twoDigits ((digitsVal [a, b] * 60 + digitsVal [c, d] + delta) / 60) ++
          ':' :: twoDigits ((digitsVal [a, b] * 60 + digitsVal [c, d] + delta) % 60)
      else
        "익일 ".toList ++
          twoDigits ((digitsVal [a, b] * 60 + digitsVal [c, d] + delta) / 60 % 24) ++
          ':' :: twoDigits ((digitsVal [a, b] * 60 + digitsVal [c, d] + delta) % 60)) ∧
    addMinutesToTime "23:50".toList 20 = "익일 00:10".toList ∧
    addMinutesToTime "09:00".toList 540 = "18:00".toList := by
  refine ⟨?_, by decide, by decide⟩
  have hab : digitsVal [a, b] < 100 :=
    digitsVal_short [a, b] (by simp) (by
      intro x hx
      simp only [List.mem_cons, List.mem_singleton, List.not_mem_nil, or_false] at hx
      rcases hx with rfl | rfl <;> assumption)
  have hcd : digitsVal [c, d] < 100 :=
    digitsVal_short [c, d] (by simp) (by
      intro x hx
      simp only [List.mem_cons, List.mem_singleton, List.not_mem_nil, or_false] at hx
      rcases hx with rfl | rfl <;> assumption)
  have ht : jsAdd (jsAdd (jsMul (digitsVal [a, b] : Int) 60) (digitsVal [c, d] : Int))
      (delta : Int) = ((digitsVal [a, b] * 60 + digitsVal [c, d] + delta : Nat) : Int) := by
    rw [total_clock _ _ hab hcd]
    have c1 : (digitsVal [a, b] : Int) * 60 + (digitsVal [c, d] : Int) + (delta : Int) =
        ((digitsVal [a, b] * 60 + digitsVal [c, d] + delta : Nat) : Int) := by
      push_cast; ring
    rw [c1, toDouble_exact_natCast _ hbound]
  rw [addMinutesToTime_of_parts _ _ _ [] (parts_clock a b c d ha hb hc hd) _ _ ht,
    floorQuotient_exact _ hbound]

/-- The clock-string result at a concrete input: 22:45 plus 200 minutes. -/
theorem addMinutesToTime_well_formed_witness :
    digitsVal ['2', '2'] * 60 + digitsVal ['4', '5'] + 200 ≤ 2 ^ 53 ∧
    addMinutesToTime "22:45".toList (200 : Nat) = "익일 02:05".toList :=
  ⟨by decide,
    ((addMinutesToTime_well_formed '2' '2' '4' '5' (by decide) (by decide) (by decide)
      (by decide) 200 (by decide)).1).trans (by decide)⟩

/-- A clock text starts with the next-day tag or with a digit. -/
theorem clockText_head (nextDay : Bool) (hour minute : Nat) :
    ∃ (c : Char) (r : JSString), clockText nextDay hour minute = c :: r ∧
      (c = '익' ∨ isDigit c = true) := by
  cases nextDay with
  | true => exact ⟨'익', _, rfl, Or.inl rfl⟩
  | false =>
    obtain ⟨hne, hdig, _⟩ := natToString_spec hour
    obtain ⟨x, xs, hx⟩ := List.exists_cons_of_ne_nil hne
    have hxd : isDigit x = true := hdig x (by rw [hx]; exact List.mem_cons_self _ _)
    have hunf : clockText false hour minute =
        List.replicate (2 - jsLength (x :: xs)) '0' ++ (x :: xs) ++
          ':' :: padStart2 (natToString minute) := by
      simp [clockText, padStart2, hx]
    rw [hunf]
    cases 2 - jsLength (x :: xs) with
    | zero =>
      refine ⟨x, xs ++ ':' :: padStart2 (natToString minute), ?_, Or.inr hxd⟩
      simp
    | succ k =>
      refine ⟨'0', List.replicate k '0' ++ x :: xs ++ ':' :: padStart2 (natToString minute),
        ?_, Or.inr (by decide)⟩
      simp [List.replicate_succ]

/-- A text that starts with a minus sign is not a clock time. -/
theorem not_isClockTime_of_minus (r : JSString) : ¬ IsClockTime ('-' :: r) := by
  rintro ⟨nd, h, m, _, heq⟩
  obtain ⟨c, r2, hc, hor⟩ := clockText_head nd h m
  rw [hc] at heq
  have hcc : '-' = c := (List.cons.inj heq).1
  subst hcc
  rcases hor with h1 | h1
  · exact absurd h1 (by decide)
  · exact absurd h1 (by decide)

/-- Claim C6 fails for a negative `delta`: 00:10 minus 20 minutes prints as `-1:-10`,
which is not a clock time with a non-negative hour and a minute in 0..59. -/
theorem addMinutesToTime_negative_delta_not_clock :
    addMinutesToTime "00:10".toList (-20) = "-1:-10".toList ∧
      ¬ IsClockTime (addMinutesToTime "00:10".toList (-20)) := by
  have h : addMinutesToTime "00:10".toList (-20) = "-1:-10".toList := by decide
  refine ⟨h, ?_⟩
  rw [h]
  exact not_isClockTime_of_minus _

/-- Claim C6, amended: for a well-formed clock string `HH:MM` and an integer `delta`,
the result of `addMinutesToTime` is a clock time (hour at least 0, minute in 0..59,
next-day tag or not) exactly when `hour*60 + minute + delta` is not negative; so it is
one for every non-negative `delta`, and for a negative `delta` that does not reach back
before 00:00. -/
theorem addMinutesToTime_isClockTime_iff (a b c d : Char) (ha : isDigit a = true)
    (hb : isDigit b = true) (hc : isDigit c = true) (hd : isDigit d = true) (delta : Int) :
    IsClockTime (addMinutesToTime [a, b, ':', c, d] delta) ↔
      0 ≤ (digitsVal [a, b] : Int) * 60 + (digitsVal [c, d] : Int) + delta := by
  have hparts := parts_clock a b c d ha hb hc hd
  have hab : digitsVal [a, b] < 100 :=
    digitsVal_short [a, b] (by simp) (by
      intro x hx
      simp only [List.mem_cons, List.mem_singleton, List.not_mem_nil, or_false] at hx
      rcases hx with rfl | rfl <;> assumption)
  have hcd : digitsVal [c, d] < 100 :=
    digitsVal_short [c, d] (by simp) (by
      intro x hx
      simp only [List.mem_cons, List.mem_singleton, List.not_mem_nil, or_false] at hx
      rcases hx with rfl | rfl <;> assumption)
  have htotal := total_clock _ _ hab hcd delta
  constructor
  · intro hclock
    by_contra hneg
    have hlt : (digitsVal [a, b] : Int) * 60 + (digitsVal [c, d] : Int) + delta < 0 := by
      omega
    have hq : mathFloorDiv
        (toDouble ((digitsVal [a, b] : Int) * 60 + (digitsVal [c, d] : Int) + delta)) 60
        < 0 := mathFloorDiv_neg _ (toDouble_neg _ hlt)
    obtain ⟨k, hk⟩ := Int.eq_negSucc_of_lt_zero hq
    have hno : ¬ (Int.negSucc k ≥ 24) := by
      have := Int.negSucc_lt_zero k
      omega
    have hne := numToStringNat_ne_nil (k + 1)
    obtain ⟨x, xs, hx⟩ := List.exists_cons_of_ne_nil hne
    have hpad : padStart2 ('-' :: x :: xs) = '-' :: x :: xs := by
      have hlen : 2 - jsLength ('-' :: x :: xs) = 0 := by
        simp only [jsLength]
        split_ifs <;> omega
      simp [padStart2, hlen]
    apply not_isClockTime_of_minus
      (x :: xs ++ ':' :: padStart2 (numToString (jsMod
        (toDouble ((digitsVal [a, b] : Int) * 60 + (digitsVal [c, d] : Int) + delta)) 60)))
    have hres : addMinutesToTime [a, b, ':', c, d] delta =
        '-' :: (x :: xs ++ ':' :: padStart2 (numToString (jsMod
          (toDouble ((digitsVal [a, b] : Int) * 60 + (digitsVal [c, d] : Int) + delta))
            60))) := by
      unfold addMinutesToTime
      rw [hparts]
      simp only [htotal, hk, if_neg hno, numToString, hx, hpad]
      simp
    rw [← hres]
    exact hclock
  · intro hnn
    obtain ⟨t, ht⟩ := Int.eq_ofNat_of_zero_le (toDouble_nonneg _ hnn)
    rw [addMinutesToTime_of_parts _ _ _ [] hparts delta t (htotal.trans ht)]
    by_cases hlt : floorQuotient t 60 < 24
    · rw [if_pos hlt]
      refine ⟨false, floorQuotient t 60, t % 60, Nat.mod_lt _ (by decide), ?_⟩
      simp [clockText, twoDigits, padStart2_natToString (floorQuotient t 60) (by omega),
        padStart2_natToString (t % 60) (by omega)]
    · rw [if_neg hlt]
      refine ⟨true, floorQuotient t 60 % 24, t % 60, Nat.mod_lt _ (by decide), ?_⟩
      simp [clockText, twoDigits, padStart2_natToString (floorQuotient t 60 % 24) (by omega),
        padStart2_natToString (t % 60) (by omega)]

/-- The amended C6 at concrete inputs: 09:00 minus 30 minutes is a clock time. -/
theorem addMinutesToTime_isClockTime_iff_witness :
    IsClockTime (addMinutesToTime "09:00".toList (-30)) :=
  (addMinutesToTime_isClockTime_iff '0' '9' '0' '0' (by decide) (by decide) (by decide)
    (by decide) (-30)).2 (by decide)

/-! ## Schedule projection -/

/-- What the flex-day branch computes, each operation rounded as the script rounds it. -/
theorem expectedEndTime_flex_unfold (c : Char) (cs : JSString) (t w : Int) :
    expectedEndTime (some (c :: cs)) 5 t w =
      if jsSub (jsMul 40 60) (jsAdd w t) > 0 then
        some (addMinutesToTime (c :: cs) (jsAdd (jsSub (jsMul 40 60) (jsAdd w t)) 60))
      else if jsSub (jsMul 40 60) (jsAdd w t) = 0 then some "정시 퇴근 가능".toList
      else some ("초과근무 중 (".toList ++
        formatMinutesToTime ((Int.natAbs (jsSub (jsMul 40 60) (jsAdd w t)) : Nat) : Int) ++
        " 초과)".toList) := rfl

/-- Claim C2 fails when the worked minutes leave the range of exact integers.  With 1
minute today and `2 ^ 53` minutes in the week the sum is rounded to `2 ^ 53`, so the
overtime status carries `2 ^ 53 - 2400 = 9007199254738592` minutes, where `|remaining|`
of the claim is 9007199254738593; the two print differently. -/
theorem flex_day_overtime_inexact :
    toDouble 9007199254740992 = 9007199254740992 ∧
    expectedEndTime (some "09:00".toList) 5 1 9007199254740992 =
      some ("초과근무 중 (".toList ++ formatMinutesToTime 9007199254738592 ++
        " 초과)".toList) ∧
    |40 * 60 - ((9007199254740992 : Int) + 1)| = 9007199254738593 ∧
    formatMinutesToTime 9007199254738592 = "150119987578976시간 32분".toList ∧
    formatMinutesToTime 9007199254738593 = "150119987578976시간 33분".toList ∧
    expectedEndTime (some "09:00".toList) 5 1 9007199254740992 ≠
      some ("초과근무 중 (".toList ++ formatMinutesToTime 9007199254738593 ++
        " 초과)".toList) := by
  refine ⟨by decide, by decide, by norm_num, by decide, by decide, by decide⟩

/-- Claim C2, amended: on the flex day (Friday, day 5) with a start time present and
non-negative minute counts whose sum is at most `2 ^ 53`, with
`remaining = 40*60 - (weekMinutes + todayMinutes)`: a positive `remaining` projects
`addMinutesToTime startTime (remaining + 60)`, a zero one gives the exactly-met status,
a negative one gives the overtime status that carries `|remaining|` minutes printed by
`formatMinutesToTime`.  With 1800 and 60 minutes and a start at 09:00 the projection is
19:00; with 2500 and 0 minutes it is an overtime of 100 minutes. -/
theorem expectedEndTime_flex_day (startTime : JSString) (hs : startTime ≠ [])
    (todayMinutes weekMinutes : Int) (htoday : 0 ≤ todayMinutes) (hweek : 0 ≤ weekMinutes)
    (hbound : weekMinutes + todayMinutes ≤ 2 ^ 53) :
    (40 * 60 - (weekMinutes + todayMinutes) > 0 →
      expectedEndTime (some startTime) 5 todayMinutes weekMinutes =
        some (addMinutesToTime startTime (40 * 60 - (weekMinutes + todayMinutes) + 60))) ∧
    (40 * 60 - (weekMinutes + todayMinutes) = 0 →
      expectedEndTime (some startTime) 5 todayMinutes weekMinutes =
        some "정시 퇴근 가능".toList) ∧
    (40 * 60 - (weekMinutes + todayMinutes) < 0 →
      expectedEndTime (some startTime) 5 todayMinutes weekMinutes =
        some ("초과근무 중 (".toList ++
          formatMinutesToTime (|40 * 60 - (weekMinutes + todayMinutes)|) ++
          " 초과)".toList)) ∧
    expectedEndTime (some "09:00".toList) 5 60 1800 = some "19:00".toList ∧
    expectedEndTime (some startTime) 5 0 2500 =
      some ("초과근무 중 (".toList ++ formatMinutesToTime 100 ++ " 초과)".toList) ∧
    formatMinutesToTime 100 = "1시간 40분".toList := by
  obtain ⟨c, cs, rfl⟩ := List.exists_cons_of_ne_nil hs
  have h53 : (2 : Int) ^ 53 = 9007199254740992 := by norm_num
  have htarget : jsMul 40 60 = 40 * 60 := by decide
  have hsum : jsAdd weekMinutes todayMinutes = weekMinutes + todayMinutes :=
    toDouble_exact_of_bounds _ (by omega) (by omega)
  have hrem : jsSub (40 * 60) (weekMinutes + todayMinutes) =
      40 * 60 - (weekMinutes + todayMinutes) :=
    toDouble_exact_of_bounds _ (by omega) (by omega)
  refine ⟨?_, ?_, ?_, by decide, ?_, by decide⟩
  · intro h
    have hend : jsAdd (40 * 60 - (weekMinutes + todayMinutes)) 60 =
        40 * 60 - (weekMinutes + todayMinutes) + 60 :=
      toDouble_exact_of_bounds _ (by omega) (by omega)
    rw [expectedEndTime_flex_unfold, htarget, hsum, hrem, if_pos h, hend]
  · intro h
    have h1 : ¬ (40 * 60 - (weekMinutes + todayMinutes) > 0) := by omega
    rw [expectedEndTime_flex_unfold, htarget, hsum, hrem, if_neg h1, if_pos h]
  · intro h
    have h1 : ¬ (40 * 60 - (weekMinutes + todayMinutes) > 0) := by omega
    have h2 : ¬ (40 * 60 - (weekMinutes + todayMinutes) = 0) := by omega
    rw [expectedEndTime_flex_unfold, htarget, hsum, hrem, if_neg h1, if_neg h2,
      Int.natCast_natAbs]
  · rw [expectedEndTime_flex_unfold]
    rfl

/-- The flex-day projection at a concrete input: start at 09:00, 60 minutes today, 1800
minutes in the week. -/
theorem expectedEndTime_flex_day_witness :
    "09:00".toList ≠ [] ∧ (0 : Int) ≤ 60 ∧ (0 : Int) ≤ 1800 ∧ (1800 : Int) + 60 ≤ 2 ^ 53 ∧
    expectedEndTime (some "09:00".toList) 5 60 1800 =
      some (addMinutesToTime "09:00".toList (40 * 60 - (1800 + 60) + 60)) :=
  ⟨by decide, by decide, by decide, by decide,
    (expectedEndTime_flex_day "09:00".toList (by decide) 60 1800 (by decide) (by decide)
      (by decide)).1 (by decide)⟩

/-- Claim C3: on every regular work day (day 1 to 4) with a start time present the
projected end time is `addMinutesToTime startTime (8*60 + 60)`, whatever the minute
counts; for a start at 09:00 it is 18:00. -/
theorem expectedEndTime_regular_day (startTime : JSString) (hs : startTime ≠ [])
    (dayOfWeek : Nat) (hlo : 1 ≤ dayOfWeek) (hhi : dayOfWeek ≤ 4)
    (todayMinutes weekMinutes : Int) :
    expectedEndTime (some startTime) dayOfWeek todayMinutes weekMinutes =
      some (addMinutesToTime startTime (8 * 60 + 60)) ∧
    expectedEndTime (some "09:00".toList) dayOfWeek todayMinutes weekMinutes =
      some "18:00".toList := by
  obtain ⟨c, cs, rfl⟩ := List.exists_cons_of_ne_nil hs
  have hreg : ∀ (x : Char) (xs : JSString), expectedEndTime (some (x :: xs)) dayOfWeek
      todayMinutes weekMinutes = some (addMinutesToTime (x :: xs) (8 * 60 + 60)) := by
    intro x xs
    interval_cases dayOfWeek <;> rfl
  have hadd : addMinutesToTime "09:00".toList (8 * 60 + 60) = "18:00".toList := by decide
  exact ⟨hreg c cs, (hreg '0' "9:00".toList).trans (congrArg some hadd)⟩

/-- The regular-day projection at a concrete input: a Wednesday, start at 09:00. -/
theorem expectedEndTime_regular_day_witness :
    expectedEndTime (some "09:00".toList) 3 125 1530 =
      some (addMinutesToTime "09:00".toList (8 * 60 + 60)) ∧
    expectedEndTime (some "09:00".toList) 3 125 1530 = some "18:00".toList :=
  expectedEndTime_regular_day "09:00".toList (by decide) 3 (by decide) (by decide) 125 1530

/-- Claim C4: there is no projection whenever the start time is absent (whatever the
day and the minute counts), and none on a weekend day (0 or 6) even with a start time;
on the days 1 to 5 with a start time present there always is one. -/
theorem expectedEndTime_none_iff :
    (∀ (startTime : Option JSString) (dayOfWeek : Nat) (todayMinutes weekMinutes : Int),
      truthy startTime = false →
        expectedEndTime startTime dayOfWeek todayMinutes weekMinutes = none) ∧
    (∀ (startTime : Option JSString) (dayOfWeek : Nat) (todayMinutes weekMinutes : Int),
      dayOfWeek = 0 ∨ dayOfWeek = 6 →
        expectedEndTime startTime dayOfWeek todayMinutes weekMinutes = none) ∧
    (∀ (startTime : Option JSString) (dayOfWeek : Nat) (todayMinutes weekMinutes : Int),
      truthy startTime = true → 1 ≤ dayOfWeek → dayOfWeek ≤ 5 →
        expectedEndTime startTime dayOfWeek todayMinutes weekMinutes ≠ none) := by
  refine ⟨?_, ?_, ?_⟩
  · intro st d t w h
    match st, h with
    | none, _ => rfl
    | some [], _ => rfl
  · intro st d t w h
    match st with
    | none => rfl
    | some [] => rfl
    | some (c :: cs) => rcases h with rfl | rfl <;> rfl
  · intro st d t w h hlo hhi
    match st, h with
    | some (c :: cs), _ =>
      have hunfold := expectedEndTime_flex_unfold c cs t w
      have hreg : ∀ k : Nat, 1 ≤ k → k ≤ 4 → expectedEndTime (some (c :: cs)) k t w =
          some (addMinutesToTime (c :: cs) (8 * 60 + 60)) := by
        intro k h1 h4
        interval_cases k <;> rfl
      by_cases h5 : d = 5
      · subst h5
        rw [hunfold]
        split_ifs <;> exact Option.some_ne_none _
      · rw [hreg d hlo (by omega)]
        exact Option.some_ne_none _

/-- The projection at concrete inputs: no start time on a Wednesday, a start time on a
Saturday, a start time on a Friday. -/
theorem expectedEndTime_none_iff_witness :
    expectedEndTime none 3 125 1530 = none ∧
    expectedEndTime (some "09:00".toList) 6 125 1530 = none ∧
    expectedEndTime (some "09:00".toList) 5 125 1530 ≠ none :=
  ⟨expectedEndTime_none_iff.1 none 3 125 1530 rfl,
    expectedEndTime_none_iff.2.1 (some "09:00".toList) 6 125 1530 (Or.inr rfl),
    expectedEndTime_none_iff.2.2 (some "09:00".toList) 5 125 1530 rfl (by decide)
      (by decide)⟩

/-! ## `findStartTime`: the earliest collected time -/

theorem compareFound_le_iff (a b : FoundTime) :
    compareFound a b ≤ 0 ↔
      a.hour24 < b.hour24 ∨ (a.hour24 = b.hour24 ∧ a.minute ≤ b.minute) := by
  unfold compareFound
  split_ifs with h <;> omega

theorem insertFound_perm (a : FoundTime) (l : List FoundTime) :
    (insertFound a l).Perm (a :: l) := by
  induction l with
  | nil => exact List.Perm.refl _
  | cons b t ih =>
    unfold insertFound
    split_ifs
    · exact List.Perm.refl _
    · exact (List.Perm.cons b ih).trans (List.Perm.swap a b t)

/-- The sorted array holds the entries of the array, each as often as before. -/
theorem sortFound_perm (l : List FoundTime) : (sortFound l).Perm l := by
  induction l with
  | nil => exact List.Perm.refl _
  | cons a t ih => exact (insertFound_perm a (sortFound t)).trans (List.Perm.cons a ih)

theorem insertFound_sorted (a : FoundTime) (l : List FoundTime)
    (hl : l.Pairwise (fun x y => compareFound x y ≤ 0)) :
    (insertFound a l).Pairwise (fun x y => compareFound x y ≤ 0) := by
  induction l with
  | nil => simp [insertFound]
  | cons b t ih =>
    obtain ⟨hb, ht⟩ := List.pairwise_cons.mp hl
    unfold insertFound
    split_ifs with hc
    · refine List.pairwise_cons.mpr ⟨?_, hl⟩
      intro y hy
      rcases List.mem_cons.mp hy with rfl | hy
      · exact hc
      · have h1 := (compareFound_le_iff a b).mp hc
        have h2 := (compareFound_le_iff b y).mp (hb y hy)
        rw [compareFound_le_iff]; omega
    · refine List.pairwise_cons.mpr ⟨?_, ih ht⟩
      intro y hy
      rcases List.mem_cons.mp ((insertFound_perm a t).subset hy) with rfl | hy
      · have h1 := compareFound_le_iff y b
        rw [compareFound_le_iff]; omega
      · exact hb y hy

/-- The sorted array is in order: no entry comes after one that the comparison function
puts behind it. -/
theorem sortFound_sorted (l : List FoundTime) :
    (sortFound l).Pairwise (fun x y => compareFound x y ≤ 0) := by
  induction l with
  | nil => exact List.Pairwise.nil
  | cons a t ih => exact insertFound_sorted a _ ih

/-- The sorted array starts with a member of the array that no member precedes. -/
theorem sortFound_head (l : List FoundTime) (hne : l ≠ []) :
    ∃ (f : FoundTime) (rest : List FoundTime), sortFound l = f :: rest ∧ f ∈ l ∧
      ∀ g ∈ l, compareFound f g ≤ 0 := by
  induction l with
  | nil => exact absurd rfl hne
  | cons a t ih =>
    by_cases ht : t = []
    · subst ht
      refine ⟨a, [], rfl, List.mem_cons_self _ _, ?_⟩
      intro g hg
      simp only [List.mem_singleton] at hg
      subst hg
      rw [compareFound_le_iff]; omega
    · obtain ⟨f, rest, hs, hmem, hmin⟩ := ih ht
      by_cases hc : compareFound a f ≤ 0
      · refine ⟨a, f :: rest, ?_, List.mem_cons_self _ _, ?_⟩
        · simp [sortFound, hs, insertFound, hc]
        · intro g hg
          rcases List.mem_cons.mp hg with rfl | hg
          · rw [compareFound_le_iff]; omega
          · have h1 := (compareFound_le_iff f g).mp (hmin g hg)
            have h2 := (compareFound_le_iff a f).mp hc
            rw [compareFound_le_iff]; omega
      · refine ⟨f, insertFound a rest, ?_, List.mem_cons_of_mem _ hmem, ?_⟩
        · simp [sortFound, hs, insertFound, hc]
        · intro g hg
          rcases List.mem_cons.mp hg with rfl | hg
          · have h2 := (compareFound_le_iff g f)
            rw [compareFound_le_iff]; omega
          · exact hmin g hg

/-- When the collecting loop found something, `findStartTime` returns the time of a
collected entry that no collected entry precedes. -/
theorem findStartTime_of_collected (document target : DomNode)
    (hmarker : findMarker (elementsOf document) = some target)
    (hfound : collectTimes (elementsOf target) ≠ []) :
    ∃ f ∈ collectTimes (elementsOf target), findStartTime document = some f.time ∧
      ∀ g ∈ collectTimes (elementsOf target),
        ¬ (g.hour24 < f.hour24 ∨ (g.hour24 = f.hour24 ∧ g.minute < f.minute)) := by
  obtain ⟨f, rest, hs, hmem, hmin⟩ := sortFound_head _ hfound
  refine ⟨f, hmem, ?_, ?_⟩
  · have hemp : (collectTimes (elementsOf target)).isEmpty = false := by
      cases h : collectTimes (elementsOf target) with
      | nil => exact absurd h hfound
      | cons _ _ => rfl
    simp [findStartTime, hmarker, hemp, hs]
  · intro g hg
    have h1 := (compareFound_le_iff f g).mp (hmin g hg)
    omega

/-! ## Texts in the scope of the marker are short -/

theorem jsLength_append (a b : JSString) : jsLength (a ++ b) = jsLength a + jsLength b := by
  induction a with
  | nil => simp [jsLength]
  | cons c t ih =>
    show (if c.toNat < 0x10000 then 1 else 2) + jsLength (t ++ b) =
      (if c.toNat < 0x10000 then 1 else 2) + jsLength t + jsLength b
    rw [ih]; omega

theorem dropWhile_head_not {p : Char → Bool} (l : JSString) (c : Char) (r : JSString)
    (h : l.dropWhile p = c :: r) : p c = false := by
  induction l with
  | nil => simp at h
  | cons a t ih =>
    by_cases ha : p a = true
    · rw [List.dropWhile_cons_of_pos ha] at h
      exact ih h
    · rw [List.dropWhile_cons_of_neg ha] at h
      have hac : a = c := (List.cons.inj h).1
      rw [← hac]
      simpa using ha

/-- White space in front of a text that starts with another character: dropping it
leaves that text, after what is left of the front. -/
theorem dropWhile_append_of_head {p : Char → Bool} (front : JSString) (c : Char)
    (r : JSString) (hc : p c = false) :
    ∃ front2 : JSString, (front ++ c :: r).dropWhile p = front2 ++ c :: r := by
  induction front with
  | nil => exact ⟨[], by simp [List.dropWhile, hc]⟩
  | cons a t ih =>
    by_cases ha : p a = true
    · obtain ⟨f2, hf2⟩ := ih
      exact ⟨f2, by rw [List.cons_append, List.dropWhile_cons_of_pos ha, hf2]⟩
    · exact ⟨a :: t, by rw [List.cons_append, List.dropWhile_cons_of_neg ha]⟩

/-- A non-empty trimmed text starts and ends with a character that is not white space,
and sits inside the text it was trimmed from. -/
theorem trim_shape (D : JSString) (hne : trim D ≠ []) :
    (∃ w1 w2 : JSString, D = w1 ++ trim D ++ w2) ∧
    (∃ (c : Char) (r : JSString), trim D = c :: r ∧ isJSWhitespace c = false) ∧
    (∃ (r : JSString) (c : Char), trim D = r ++ [c] ∧ isJSWhitespace c = false) := by
  have hD : D = D.takeWhile isJSWhitespace ++ D.dropWhile isJSWhitespace :=
    (List.takeWhile_append_dropWhile _ _).symm
  have hZ : (D.dropWhile isJSWhitespace).reverse =
      (D.dropWhile isJSWhitespace).reverse.takeWhile isJSWhitespace ++
        (D.dropWhile isJSWhitespace).reverse.dropWhile isJSWhitespace :=
    (List.takeWhile_append_dropWhile _ _).symm
  have hT : trim D = ((D.dropWhile isJSWhitespace).reverse.dropWhile isJSWhitespace).reverse :=
    rfl
  have hZ2 : D.dropWhile isJSWhitespace =
      trim D ++ ((D.dropWhile isJSWhitespace).reverse.takeWhile isJSWhitespace).reverse := by
    have := congrArg List.reverse hZ
    rw [List.reverse_reverse, List.reverse_append] at this
    rw [hT]; exact this
  obtain ⟨c, r, hcr⟩ := List.exists_cons_of_ne_nil hne
  refine ⟨⟨_, _, by rw [List.append_assoc, ← hZ2]; exact hD⟩, ⟨c, r, hcr, ?_⟩, ?_⟩
  · rw [hcr, List.cons_append] at hZ2
    exact dropWhile_head_not _ _ _ hZ2
  · cases hU : (D.dropWhile isJSWhitespace).reverse.dropWhile isJSWhitespace with
    | nil => rw [hT, hU] at hne; exact absurd rfl hne
    | cons u U =>
      refine ⟨U.reverse, u, ?_, dropWhile_head_not _ _ _ hU⟩
      rw [hT, hU, List.reverse_cons]

/-- Trimming a text keeps, whole, the trimmed form of any contiguous part of it. -/
theorem trim_part (front D back : JSString) :
    ∃ a b : JSString, trim (front ++ D ++ back) = a ++ trim D ++ b := by
  by_cases hne : trim D = []
  · exact ⟨trim (front ++ D ++ back), [], by simp [hne]⟩
  · obtain ⟨⟨w1, w2, hD⟩, ⟨c, r, hcr, hc⟩, ⟨r2, c2, hr2, hc2⟩⟩ := trim_shape D hne
    have hM : front ++ D ++ back = (front ++ w1) ++ c :: (r ++ (w2 ++ back)) := by
      conv_lhs => rw [hD, hcr]
      simp
    obtain ⟨f2, hf2⟩ := dropWhile_append_of_head (front ++ w1) c (r ++ (w2 ++ back)) hc
    have hL : (front ++ D ++ back).dropWhile isJSWhitespace =
        (f2 ++ r2) ++ c2 :: (w2 ++ back) := by
      rw [hM, hf2]
      have : c :: r = r2 ++ [c2] := by rw [← hcr, hr2]
      calc f2 ++ c :: (r ++ (w2 ++ back)) = f2 ++ ((c :: r) ++ (w2 ++ back)) := by simp
        _ = f2 ++ ((r2 ++ [c2]) ++ (w2 ++ back)) := by rw [this]
        _ = (f2 ++ r2) ++ c2 :: (w2 ++ back) := by simp
    have hrev : ((front ++ D ++ back).dropWhile isJSWhitespace).reverse =
        (w2 ++ back).reverse ++ c2 :: (f2 ++ r2).reverse := by
      rw [hL]; simp
    obtain ⟨b2, hb2⟩ := dropWhile_append_of_head (w2 ++ back).reverse c2 (f2 ++ r2).reverse hc2
    refine ⟨f2, b2.reverse, ?_⟩
    show (((front ++ D ++ back).dropWhile isJSWhitespace).reverse.dropWhile
      isJSWhitespace).reverse = _
    rw [hrev, hb2, hr2]
    simp

/-- The trimmed text of a contiguous part is no longer than the trimmed whole. -/
theorem jsLength_trim_part (front D back : JSString) :
    jsLength (trim D) ≤ jsLength (trim (front ++ D ++ back)) := by
  obtain ⟨a, b, h⟩ := trim_part front D back
  rw [h, jsLength_append, jsLength_append]
  omega

mutual
/-- The text content of an element of a subtree is a contiguous part of the text content
of the subtree. -/
theorem textContent_part : ∀ (n el : DomNode), el ∈ elementsOf n →
    ∃ front back : JSString, textContent n = front ++ textContent el ++ back
  | DomNode.text _, el, h => by simp [elementsOf] at h
  | DomNode.element t cs, el, h => by
    simp only [elementsOf, List.mem_cons] at h
    rcases h with rfl | h
    · exact ⟨[], [], by simp⟩
    · obtain ⟨front, back, hp⟩ := textContentList_part cs el h
      exact ⟨front, back, by simp only [textContent]; exact hp⟩
/-- The same for a run of sibling subtrees. -/
theorem textContentList_part : ∀ (ns : List DomNode) (el : DomNode), el ∈ elementsOfList ns →
    ∃ front back : JSString, textContentList ns = front ++ textContent el ++ back
  | [], el, h => by simp [elementsOfList] at h
  | n :: ns, el, h => by
    simp only [elementsOfList, List.mem_append] at h
    rcases h with h | h
    · obtain ⟨front, back, hp⟩ := textContent_part n el h
      exact ⟨front, back ++ textContentList ns, by simp only [textContentList, hp]; simp⟩
    · obtain ⟨front, back, hp⟩ := textContentList_part ns el h
      exact ⟨textContent n ++ front, back, by simp only [textContentList, hp]; simp⟩
end

/-- The marker element is one of the elements searched, and its trimmed text is
shorter than 20. -/
theorem findMarker_spec (allElements : List DomNode) (target : DomNode)
    (h : findMarker allElements = some target) :
    target ∈ allElements ∧ jsLength (trimmedText target) < 20 ∧
      (isBreakNoneText (trimmedText target) = true ∨
        isRecordingText (trimmedText target) = true) := by
  unfold findMarker at h
  have hshort1 : ∀ t : JSString, isBreakNoneText t = true → jsLength t < 20 := by
    intro t ht
    simp only [isBreakNoneText, Bool.or_eq_true, Bool.and_eq_true, beq_iff_eq,
      decide_eq_true_eq] at ht
    rcases ht with rfl | ⟨_, hlt⟩
    · decide
    · exact hlt
  have hshort2 : ∀ t : JSString, isRecordingText t = true → jsLength t < 20 := by
    intro t ht
    simp only [isRecordingText, Bool.and_eq_true, decide_eq_true_eq] at ht
    exact ht.2
  cases h1 : allElements.find? (fun el => isBreakNoneText (trimmedText el)) with
  | some el =>
    rw [h1] at h
    have hel : el = target := Option.some.inj h
    subst hel
    have hp := List.find?_some h1
    exact ⟨List.mem_of_find?_eq_some h1, hshort1 _ hp, Or.inl hp⟩
  | none =>
    rw [h1] at h
    have hp := List.find?_some h
    exact ⟨List.mem_of_find?_eq_some h, hshort2 _ hp, Or.inr hp⟩

/-- Every element in the scope of the marker has a trimmed text shorter than 20, so the
collecting loop never skips one for its length. -/
theorem scope_text_short (allElements : List DomNode) (target el : DomNode)
    (hmarker : findMarker allElements = some target) (hel : el ∈ elementsOf target) :
    jsLength (trimmedText el) < 20 := by
  obtain ⟨_, hlt, _⟩ := findMarker_spec allElements target hmarker
  obtain ⟨front, back, hp⟩ := textContent_part target el hel
  have := jsLength_trim_part front (textContent el) back
  rw [← hp] at this
  unfold trimmedText at *
  omega

/-! ## `findStartTime`: what is collected and what is returned -/

/-- What the clock pattern captures: the period word, one or two hour digits, two
minute digits. -/
theorem matchMeridiemClock_shape (s p h m : JSString)
    (hs : matchMeridiemClock s = some (p, h, m)) :
    (p = "오전".toList ∨ p = "오후".toList) ∧
    (1 ≤ h.length ∧ h.length ≤ 2 ∧ ∀ x ∈ h, isDigit x = true) ∧
    ∃ m1 m2 : Char, m = [m1, m2] ∧ isDigit m1 = true ∧ isDigit m2 = true := by
  unfold matchMeridiemClock at hs
  split at hs
  · rename_i q r
    split_ifs at hs with hq
    simp only at hs
    split_ifs at hs with hlen
    split at hs
    · rename_i m1 m2 hdrop
      split_ifs at hs with hd
      simp only [Option.some.injEq, Prod.mk.injEq] at hs
      obtain ⟨rfl, rfl, rfl⟩ := hs
      simp only [Bool.and_eq_true] at hd
      refine ⟨?_, ⟨hlen.1, hlen.2, ?_⟩, m1, m2, rfl, hd.1, hd.2⟩
      · rcases hq with rfl | rfl
        · exact Or.inl rfl
        · exact Or.inr rfl
      · intro x hx
        exact (List.mem_takeWhile_imp hx)
    · exact absurd hs (by simp)
  · exact absurd hs (by simp)

/-- A digit character is the digit character of its value. -/
theorem digitChar_digitVal (c : Char) (hc : isDigit c = true) :
    digitChar (digitVal c) = c ∧ digitVal c < 10 := by
  simp only [isDigit, Bool.and_eq_true, decide_eq_true_eq] at hc
  have hof : Char.ofNat c.toNat = c := Char.ofNat_toNat c
  unfold digitVal
  obtain ⟨h1, h2⟩ := hc
  generalize c.toNat = n at *
  subst hof
  interval_cases n <;> exact ⟨by decide, by decide⟩

/-- Two digits are the two-digit form of their value. -/
theorem twoDigits_digitsVal (m1 m2 : Char) (h1 : isDigit m1 = true)
    (h2 : isDigit m2 = true) :
    twoDigits (digitsVal [m1, m2]) = [m1, m2] ∧ digitsVal [m1, m2] < 100 := by
  obtain ⟨e1, l1⟩ := digitChar_digitVal m1 h1
  obtain ⟨e2, l2⟩ := digitChar_digitVal m2 h2
  have hv : digitsVal [m1, m2] = digitVal m1 * 10 + digitVal m2 := by
    simp [digitsVal, List.foldl]
  rw [hv]
  refine ⟨?_, by omega⟩
  unfold twoDigits
  have hq : (digitVal m1 * 10 + digitVal m2) / 10 = digitVal m1 := by omega
  have hr : (digitVal m1 * 10 + digitVal m2) % 10 = digitVal m2 := by omega
  rw [hq, hr, e1, e2]

/-- What the collecting loop stores for an element: the element's text matches the
clock pattern, the hour is converted to the 24-hour clock, the time is the padded hour,
a colon and the two minute digits as they stand. -/
theorem foundTimeOf_spec (el : DomNode) (ft : FoundTime) (h : foundTimeOf el = some ft) :
    ∃ (p hs : JSString) (m1 m2 : Char),
      matchMeridiemClock (trimmedText el) = some (p, hs, [m1, m2]) ∧
      isDigit m1 = true ∧ isDigit m2 = true ∧
      ft.hour24 = (if p = "오후".toList ∧ digitsVal hs ≠ 12 then digitsVal hs + 12
        else if p = "오전".toList ∧ digitsVal hs = 12 then 0 else digitsVal hs) ∧
      ft.minute = digitsVal [m1, m2] ∧
      ft.time = padStart2 (natToString ft.hour24) ++ ':' :: [m1, m2] ∧
      ft.original = trimmedText el := by
  unfold foundTimeOf at h
  simp only at h
  split_ifs at h with hlen
  split at h
  · rename_i p hs m hmatch
    obtain ⟨_, _, m1, m2, rfl, hd1, hd2⟩ := matchMeridiemClock_shape _ _ _ _ hmatch
    simp only [Option.some.injEq] at h
    subst h
    exact ⟨p, hs, m1, m2, hmatch, hd1, hd2, rfl, rfl, rfl, rfl⟩
  · exact absurd h (by simp)

/-- An element whose text matches the clock pattern and is not longer than 30 is
collected. -/
theorem foundTimeOf_of_match (el : DomNode)
    (hmatch : (matchMeridiemClock (trimmedText el)).isSome = true)
    (hlen : jsLength (trimmedText el) ≤ 30) :
    ∃ ft : FoundTime, foundTimeOf el = some ft ∧ ft.original = trimmedText el := by
  obtain ⟨⟨p, hs, m⟩, hx⟩ := Option.isSome_iff_exists.mp hmatch
  have hno : ¬ (jsLength (trimmedText el) > 30) := by omega
  unfold foundTimeOf
  simp only [if_neg hno, hx]
  exact ⟨_, rfl, rfl⟩

/-- Claim C7: when a marker is found and some fragment in its scope (the marker or one
of its descendants) matches the clock pattern, `findStartTime` returns the earliest of
the collected matches: the returned time is the time of a collected entry and no
collected entry has a smaller (hour24, minute) pair.  Every matching fragment of the
scope is collected.  With `오전 9:05` and `오전 9:10` under a tracking marker the result
is 09:05. -/
theorem findStartTime_earliest (document target : DomNode)
    (hmarker : findMarker (elementsOf document) = some target)
    (hmatch : ∃ el ∈ elementsOf target, (matchMeridiemClock (trimmedText el)).isSome = true) :
    (∃ f ∈ collectTimes (elementsOf target), findStartTime document = some f.time ∧
      ∀ g ∈ collectTimes (elementsOf target),
        ¬ (g.hour24 < f.hour24 ∨ (g.hour24 = f.hour24 ∧ g.minute < f.minute))) ∧
    (∀ el ∈ elementsOf target, (matchMeridiemClock (trimmedText el)).isSome = true →
      ∃ g ∈ collectTimes (elementsOf target), g.original = trimmedText el) ∧
    findStartTime markerWithTwoTimes = some "09:05".toList := by
  have hall : ∀ el ∈ elementsOf target,
      (matchMeridiemClock (trimmedText el)).isSome = true →
      ∃ g ∈ collectTimes (elementsOf target), g.original = trimmedText el := by
    intro el hel hm
    have hlt := scope_text_short _ target el hmarker hel
    obtain ⟨ft, hft, horig⟩ := foundTimeOf_of_match el hm (by omega)
    exact ⟨ft, List.mem_filterMap.mpr ⟨el, hel, hft⟩, horig⟩
  have hfound : collectTimes (elementsOf target) ≠ [] := by
    obtain ⟨el, hel, hm⟩ := hmatch
    obtain ⟨g, hg, _⟩ := hall el hel hm
    exact List.ne_nil_of_mem hg
  exact ⟨findStartTime_of_collected document target hmarker hfound, hall, by decide⟩

/-- The earliest-time result on the page with `오전 9:10` and `오전 9:05` under the
marker. -/
theorem findStartTime_earliest_witness :
    ∃ f ∈ collectTimes (elementsOf markerWithTwoTimes),
      findStartTime markerWithTwoTimes = some f.time ∧
      ∀ g ∈ collectTimes (elementsOf markerWithTwoTimes),
        ¬ (g.hour24 < f.hour24 ∨ (g.hour24 = f.hour24 ∧ g.minute < f.minute)) :=
  (findStartTime_earliest markerWithTwoTimes markerWithTwoTimes rfl
    ⟨DomNode.element "span" [DomNode.text "오전 9:05".toList],
      List.Mem.tail _ (List.Mem.tail _ (List.Mem.head _)), rfl⟩).1

/-- A result of `findStartTime` is the time of an entry collected in the scope of the
marker. -/
theorem findStartTime_some (document : DomNode) (s : JSString)
    (hres : findStartTime document = some s) :
    ∃ (target el : DomNode) (ft : FoundTime),
      findMarker (elementsOf document) = some target ∧ el ∈ elementsOf target ∧
      foundTimeOf el = some ft ∧ s = ft.time := by
  unfold findStartTime at hres
  simp only at hres
  cases hm : findMarker (elementsOf document) with
  | none => rw [hm] at hres; exact absurd hres (by simp)
  | some target =>
    rw [hm] at hres
    simp only at hres
    by_cases hne : collectTimes (elementsOf target) = []
    · rw [hne] at hres
      exact absurd hres (by simp)
    · obtain ⟨f, rest, hs, hmem, _⟩ := sortFound_head _ hne
      have hemp : (collectTimes (elementsOf target)).isEmpty = false := by
        cases h : collectTimes (elementsOf target) with
        | nil => exact absurd h hne
        | cons _ _ => rfl
      rw [hemp, hs] at hres
      simp only [Bool.false_eq_true, if_false, Option.some.injEq] at hres
      obtain ⟨el, hel, hft⟩ := List.mem_filterMap.mp hmem
      exact ⟨target, el, f, rfl, hel, hft, hres.symm⟩

/-- Claim C8 fails: under a tracking marker the fragment `오후 13:75` matches the clock
pattern, and `findStartTime` returns `25:75`, which is no normalized 24-hour clock
time. -/
theorem findStartTime_not_normalized :
    findStartTime markerWithBadTime = some "25:75".toList ∧
      ¬ IsNormalizedClock "25:75".toList := by
  refine ⟨by decide, ?_⟩
  rintro ⟨hour, minute, hh, _, heq⟩
  have h1 : '2' = digitChar (hour / 10) := by
    have := congrArg (fun l => l.head?) heq
    simpa [twoDigits] using this
  have h2 : '5' = digitChar (hour % 10) := by
    have := congrArg (fun l => l.tail.head?) heq
    simpa [twoDigits] using this
  interval_cases hour <;> revert h1 h2 <;> decide

/-- Claim C8, amended: every time returned by `findStartTime` is the hour, a number in
0..111 printed in at least two digits, a colon and two minute digits; it is a
normalized 24-hour clock time (hour in 0..23, minute in 0..59) whenever every fragment
in the scope of the marker that matches the clock pattern carries an hour of at most 12
and a minute below 60. -/
theorem findStartTime_shape (document : DomNode) (s : JSString)
    (hres : findStartTime document = some s) :
    (∃ (hour : Nat) (m1 m2 : Char), hour ≤ 111 ∧ isDigit m1 = true ∧ isDigit m2 = true ∧
      s = padStart2 (natToString hour) ++ ':' :: [m1, m2]) ∧
    ((∀ target el : DomNode, findMarker (elementsOf document) = some target →
        el ∈ elementsOf target → ∀ p h m : JSString,
          matchMeridiemClock (trimmedText el) = some (p, h, m) →
            digitsVal h ≤ 12 ∧ digitsVal m < 60) →
      IsNormalizedClock s) := by
  obtain ⟨target, el, ft, hmarker, hel, hft, rfl⟩ := findStartTime_some document s hres
  obtain ⟨p, hs, m1, m2, hmatch, hd1, hd2, hhour, hmin, htime, _⟩ := foundTimeOf_spec el ft hft
  obtain ⟨_, ⟨_, hlen, hdig⟩, _⟩ := matchMeridiemClock_shape _ _ _ _ hmatch
  have hlt := digitsVal_short hs hlen hdig
  constructor
  · refine ⟨ft.hour24, m1, m2, ?_, hd1, hd2, htime⟩
    rw [hhour]
    split_ifs <;> omega
  · intro hvalid
    obtain ⟨h12, h60⟩ := hvalid target el hmarker hel p hs [m1, m2] hmatch
    have h24 : ft.hour24 < 24 := by
      rw [hhour]
      split_ifs with c1 c2 <;> omega
    refine ⟨ft.hour24, digitsVal [m1, m2], h24, h60, ?_⟩
    rw [htime, padStart2_natToString _ (by omega), (twoDigits_digitsVal m1 m2 hd1 hd2).1]
    rfl

/-- The amended C8 on the page with `오전 9:10` and `오전 9:05` under the marker. -/
theorem findStartTime_shape_witness :
    findStartTime markerWithTwoTimes = some "09:05".toList ∧
      IsNormalizedClock "09:05".toList := by
  refine ⟨by decide,
    (findStartTime_shape markerWithTwoTimes "09:05".toList (by decide)).2 ?_⟩
  intro target el hmarker hel p h m hmatch
  have ht : target = markerWithTwoTimes := by
    have h0 : findMarker (elementsOf markerWithTwoTimes) = some markerWithTwoTimes := rfl
    rw [h0] at hmarker
    exact (Option.some.inj hmarker).symm
  subst ht
  have hels : elementsOf markerWithTwoTimes =
      [markerWithTwoTimes, DomNode.element "span" [DomNode.text "오전 9:10".toList],
        DomNode.element "span" [DomNode.text "오전 9:05".toList]] := rfl
  rw [hels] at hel
  simp only [List.mem_cons, List.mem_singleton, List.not_mem_nil, or_false] at hel
  rcases hel with rfl | rfl | rfl
  · have h0 : matchMeridiemClock (trimmedText markerWithTwoTimes) = none := by decide
    rw [h0] at hmatch
    exact absurd hmatch (by simp)
  · have h0 : matchMeridiemClock (trimmedText
        (DomNode.element "span" [DomNode.text "오전 9:10".toList])) =
        some ("오전".toList, "9".toList, "10".toList) := by decide
    rw [h0] at hmatch
    simp only [Option.some.injEq, Prod.mk.injEq] at hmatch
    obtain ⟨_, rfl, rfl⟩ := hmatch
    decide
  · have h0 : matchMeridiemClock (trimmedText
        (DomNode.element "span" [DomNode.text "오전 9:05".toList])) =
        some ("오전".toList, "9".toList, "05".toList) := by decide
    rw [h0] at hmatch
    simp only [Option.some.injEq, Prod.mk.injEq] at hmatch
    obtain ⟨_, rfl, rfl⟩ := hmatch
    decide

/-! ## `validateTimeData` -/

theorem testClock_iff (s : JSString) :
    testClock s = true ↔ ∃ a b c d : Char, isDigit a = true ∧ isDigit b = true ∧
      isDigit c = true ∧ isDigit d = true ∧ s = [a, b, ':', c, d] := by
  constructor
  · intro h
    unfold testClock at h
    split at h
    · rename_i a b c d
      simp only [Bool.and_eq_true] at h
      exact ⟨a, b, c, d, h.1.1.1, h.1.1.2, h.1.2, h.2, rfl⟩
    · exact absurd h (by simp)
  · rintro ⟨a, b, c, d, ha, hb, hc, hd, rfl⟩
    simp [testClock, ha, hb, hc, hd]

theorem testNextDayClock_iff (s : JSString) :
    testNextDayClock s = true ↔ ∃ a b c d : Char, isDigit a = true ∧ isDigit b = true ∧
      isDigit c = true ∧ isDigit d = true ∧ s = "익일 ".toList ++ [a, b, ':', c, d] := by
  constructor
  · intro h
    unfold testNextDayClock at h
    split at h
    · rename_i rest
      obtain ⟨a, b, c, d, ha, hb, hc, hd, rfl⟩ := (testClock_iff rest).mp h
      exact ⟨a, b, c, d, ha, hb, hc, hd, rfl⟩
    · exact absurd h (by simp)
  · rintro ⟨a, b, c, d, ha, hb, hc, hd, rfl⟩
    show testClock [a, b, ':', c, d] = true
    exact (testClock_iff _).mpr ⟨a, b, c, d, ha, hb, hc, hd, rfl⟩

/-- The third test fails exactly on a truthy start time without one of the shapes. -/
theorem startTimeMalformed_iff (startTime : Option JSString) :
    startTimeMalformed startTime = false ↔
      (truthy startTime = false ∨ HasClockShape startTime) := by
  match startTime with
  | none => simp [startTimeMalformed, truthy]
  | some [] => simp [startTimeMalformed, truthy]
  | some (x :: xs) =>
    have ht : truthy (some (x :: xs)) = true := rfl
    simp only [startTimeMalformed, ht, Bool.and_eq_false_iff, Bool.not_eq_false_eq_eq_true,
      Bool.true_eq_false, false_or, testClock_iff, testNextDayClock_iff, HasClockShape,
      Option.some.injEq]
    constructor
    · rintro (⟨a, b, c, d, ha, hb, hc, hd, h⟩ | ⟨a, b, c, d, ha, hb, hc, hd, h⟩)
      · exact ⟨a, b, c, d, ha, hb, hc, hd, Or.inl h⟩
      · exact ⟨a, b, c, d, ha, hb, hc, hd, Or.inr h⟩
    · rintro ⟨a, b, c, d, ha, hb, hc, hd, h | h⟩
      · exact Or.inl ⟨a, b, c, d, ha, hb, hc, hd, h⟩
      · exact Or.inr ⟨a, b, c, d, ha, hb, hc, hd, h⟩

/-- Claim C9: `validateTimeData` returns `valid = true` exactly when neither error
condition holds: it is not the case that both minute counts are 0 and the start time is
absent, and the start time is absent or has the shape `HH:MM` or `익일 HH:MM`.  On
`(0, 0, null)` the result is invalid and the no-data error is its only error; on
`(0, 480, "09:00")` it is valid without errors. -/
theorem validateTimeData_valid_iff (todayMinutes weekMinutes : Int)
    (startTime : Option JSString) :
    ((validateTimeData todayMinutes weekMinutes startTime).valid = true ↔
      ¬ (todayMinutes = 0 ∧ weekMinutes = 0 ∧ truthy startTime = false) ∧
        (truthy startTime = false ∨ HasClockShape startTime)) ∧
    ((validateTimeData 0 0 none).valid = false ∧
      (validateTimeData 0 0 none).errors = [NO_DATA_ERROR]) ∧
    ((validateTimeData 0 480 (some "09:00".toList)).valid = true ∧
      (validateTimeData 0 480 (some "09:00".toList)).errors = []) := by
  refine ⟨?_, ⟨by decide, by decide⟩, ⟨by decide, by decide⟩⟩
  rw [← startTimeMalformed_iff]
  unfold validateTimeData
  by_cases h1 : todayMinutes = 0 ∧ weekMinutes = 0 ∧ truthy startTime = false <;>
    by_cases h2 : startTimeMalformed startTime = true <;>
    simp [h1, h2]

/-- The hour total exceeds twice the weekly target exactly when the minute total exceeds
4800. -/
theorem totalHours_gt_iff (x : Int) :
    ((x : ℚ) / 60 > ((WEEKLY_TARGET_HOURS * 2 : Int) : ℚ)) ↔ x > 2 * 40 * 60 := by
  have h80 : ((WEEKLY_TARGET_HOURS * 2 : Int) : ℚ) = 80 := by
    simp only [WEEKLY_TARGET_HOURS]; norm_num
  rw [h80, gt_iff_lt, lt_div_iff₀ (by norm_num : (0 : ℚ) < 60)]
  constructor
  · intro h
    have h2 : ((4800 : Int) : ℚ) < (x : ℚ) := by push_cast; linarith
    have h3 : (4800 : Int) < x := by exact_mod_cast h2
    omega
  · intro h
    have h3 : (4800 : Int) < x := by omega
    have h2 : ((4800 : Int) : ℚ) < (x : ℚ) := by exact_mod_cast h3
    push_cast at h2; linarith

/-- Claim C10: the plausibility warning is not fatal.  `validateTimeData` emits a warning
exactly when `todayMinutes + weekMinutes > 2 * 40 * 60`, and `valid` (with the list of
errors) is what it would be with the warning check removed: `valid` says that the list
of errors is empty, whatever the warnings. -/
theorem validateTimeData_warning_not_fatal (todayMinutes weekMinutes : Int)
    (startTime : Option JSString) :
    ((validateTimeData todayMinutes weekMinutes startTime).warnings ≠ [] ↔
      todayMinutes + weekMinutes > 2 * 40 * 60) ∧
    (validateTimeData todayMinutes weekMinutes startTime).valid =
      (validateTimeDataWithoutWarning todayMinutes weekMinutes startTime).valid ∧
    (validateTimeData todayMinutes weekMinutes startTime).errors =
      (validateTimeDataWithoutWarning todayMinutes weekMinutes startTime).errors ∧
    (validateTimeData todayMinutes weekMinutes startTime).valid =
      (validateTimeData todayMinutes weekMinutes startTime).errors.isEmpty := by
  refine ⟨?_, rfl, rfl, ?_⟩
  · rw [← totalHours_gt_iff]
    unfold validateTimeData
    simp only [List.nil_append]
    split_ifs with h
    · exact ⟨fun _ => h, fun _ => by simp⟩
    · exact ⟨fun hc => absurd rfl hc, fun hc => absurd hc h⟩
  · unfold validateTimeData
    simp only [List.nil_append]
    split_ifs <;> rfl

/-! ## `findStartTime`: the 12-hour to 24-hour conversion -/

/-- The clock pattern matches a text made of a period word, white space, one or two
hour digits, a colon and two minute digits, and captures the three parts. -/
theorem matchMeridiemClock_of_text (q : Char) (ws hs : JSString) (m1 m2 : Char)
    (hq : q = '전' ∨ q = '후') (hws : ∀ x ∈ ws, isJSWhitespace x = true)
    (hhs : ∀ x ∈ hs, isDigit x = true) (hlo : 1 ≤ hs.length) (hhi : hs.length ≤ 2)
    (h1 : isDigit m1 = true) (h2 : isDigit m2 = true) :
    matchMeridiemClock ('오' :: q :: (ws ++ hs ++ ':' :: [m1, m2])) =
      some (['오', q], hs, [m1, m2]) := by
  obtain ⟨a, t, rfl⟩ : ∃ a t, hs = a :: t := by
    cases hs with
    | nil => simp at hlo
    | cons a t => exact ⟨a, t, rfl⟩
  have ha : isDigit a = true := hhs a (List.mem_cons_self _ _)
  have hcolon : isDigit ':' = false := by decide
  have hdrop : (ws ++ (a :: t) ++ ':' :: [m1, m2]).dropWhile isJSWhitespace =
      (a :: t) ++ ':' :: [m1, m2] := by
    have := dropWhile_run (p := isJSWhitespace) ws a (t ++ ':' :: [m1, m2]) hws
      (not_ws_of_isDigit ha)
    simpa using this
  have htake : ((a :: t) ++ ':' :: [m1, m2]).takeWhile isDigit = a :: t :=
    takeWhile_run (a :: t) ':' [m1, m2] hhs hcolon
  have hrest : ((a :: t) ++ ':' :: [m1, m2]).dropWhile isDigit = ':' :: [m1, m2] :=
    dropWhile_run (a :: t) ':' [m1, m2] hhs hcolon
  unfold matchMeridiemClock
  simp only [hq, if_true, hdrop, htake, hrest, h1, h2, Bool.and_self]
  have hlen : 1 ≤ (a :: t).length ∧ (a :: t).length ≤ 2 := ⟨hlo, hhi⟩
  simp only [hlen, and_self, if_true]

/-- Claim C18: the conversion of `findStartTime` from the 12-hour to the 24-hour clock.
For an element whose text is a period word (`오전` or `오후`), white space, an hour `h` in
1..12 in one or two digits, a colon and two minute digits, the collected entry has the
hour 12 for `오후 12`, 0 for `오전 12`, `h + 12` for `오후 h` with `h < 12` and `h` for
`오전 h` with `h < 12`; its time is that hour, zero-padded to two digits, a colon and the
minute digits as they stand. -/
theorem foundTimeOf_conversion (el : DomNode) (q : Char) (ws hs : JSString) (m1 m2 : Char)
    (htext : trimmedText el = '오' :: q :: (ws ++ hs ++ ':' :: [m1, m2]))
    (hq : q = '전' ∨ q = '후') (hws : ∀ x ∈ ws, isJSWhitespace x = true)
    (hhs : ∀ x ∈ hs, isDigit x = true) (hlen1 : 1 ≤ hs.length) (hlen2 : hs.length ≤ 2)
    (h1 : isDigit m1 = true) (h2 : isDigit m2 = true)
    (hshort : jsLength (trimmedText el) ≤ 30)
    (hlo : 1 ≤ digitsVal hs) (hhi : digitsVal hs ≤ 12) :
    ∃ ft : FoundTime, foundTimeOf el = some ft ∧
      ft.time = twoDigits ft.hour24 ++ ':' :: [m1, m2] ∧
      ft.minute = digitsVal [m1, m2] ∧
      (q = '후' → digitsVal hs = 12 → ft.hour24 = 12) ∧
      (q = '전' → digitsVal hs = 12 → ft.hour24 = 0) ∧
      (q = '후' → digitsVal hs < 12 → ft.hour24 = digitsVal hs + 12) ∧
      (q = '전' → digitsVal hs < 12 → ft.hour24 = digitsVal hs) := by
  have hmatch := matchMeridiemClock_of_text q ws hs m1 m2 hq hws hhs hlen1 hlen2 h1 h2
  have hno : ¬ (jsLength (trimmedText el) > 30) := by omega
  have hpm : (['오', q] = "오후".toList) ↔ q = '후' := by
    constructor
    · intro h
      have := (List.cons.inj (List.cons.inj h).2).1
      exact this
    · rintro rfl; rfl
  have ham : (['오', q] = "오전".toList) ↔ q = '전' := by
    constructor
    · intro h
      have := (List.cons.inj (List.cons.inj h).2).1
      exact this
    · rintro rfl; rfl
  have hne : ('전' : Char) ≠ '후' := by decide
  obtain ⟨ft, hft, _⟩ := foundTimeOf_of_match el (by rw [htext, hmatch]; rfl) hshort
  obtain ⟨p, hs2, n1, n2, hm2, _, _, hhour, hmin, htime, _⟩ := foundTimeOf_spec el ft hft
  rw [htext, hmatch] at hm2
  simp only [Option.some.injEq, Prod.mk.injEq, List.cons.injEq, and_true] at hm2
  obtain ⟨hp, hhs2, hn1, hn2⟩ := hm2
  subst hp hhs2 hn1 hn2
  simp only [hpm, ham] at hhour
  have h24 : ft.hour24 < 100 := by
    rw [hhour]; split_ifs <;> omega
  refine ⟨ft, hft, ?_, hmin, ?_, ?_, ?_, ?_⟩
  · rw [htime, padStart2_natToString _ h24]
    rfl
  · rintro rfl h12
    rw [hhour]; simp [h12]
  · rintro rfl h12
    rw [hhour]; simp [h12, hne]
  · rintro rfl hlt
    have : digitsVal hs ≠ 12 := by omega
    rw [hhour]; simp [this]
  · rintro rfl hlt
    have : digitsVal hs ≠ 12 := by omega
    rw [hhour]; simp [this, hne]

/-- The conversion on an element with the text `오후 3:07`: the time is 15:07. -/
theorem foundTimeOf_conversion_witness :
    ∃ ft : FoundTime,
      foundTimeOf (DomNode.element "span" [DomNode.text "오후 3:07".toList]) = some ft ∧
      ft.time = twoDigits ft.hour24 ++ ':' :: ['0', '7'] ∧
      ft.minute = digitsVal ['0', '7'] ∧
      (('후' : Char) = '후' → digitsVal ['3'] = 12 → ft.hour24 = 12) ∧
      (('후' : Char) = '전' → digitsVal ['3'] = 12 → ft.hour24 = 0) ∧
      (('후' : Char) = '후' → digitsVal ['3'] < 12 → ft.hour24 = digitsVal ['3'] + 12) ∧
      (('후' : Char) = '전' → digitsVal ['3'] < 12 → ft.hour24 = digitsVal ['3']) :=
  foundTimeOf_conversion (DomNode.element "span" [DomNode.text "오후 3:07".toList])
    '후' [' '] ['3'] '0' '7' (by decide) (Or.inr rfl) (by decide) (by decide) (by decide)
    (by decide) (by decide) (by decide) (by decide) (by decide) (by decide)

/-! ## `findStartTime`: the scope of the search -/

theorem mem_elementsOfList_of_mem (cs : List DomNode) (c el : DomNode) (hc : c ∈ cs)
    (hel : el ∈ elementsOf c) : el ∈ elementsOfList cs := by
  induction cs with
  | nil => simp at hc
  | cons n ns ih =>
    simp only [elementsOfList, List.mem_append]
    rcases List.mem_cons.mp hc with rfl | hc
    · exact Or.inl hel
    · exact Or.inr (ih hc)

theorem isElement_iff (n : DomNode) :
    isElement n = true ↔ ∃ tag children, n = DomNode.element tag children := by
  cases n with
  | text d => simp [isElement]
  | element t cs => simp [isElement]

theorem mem_elementsOf_self (n : DomNode) (h : isElement n = true) : n ∈ elementsOf n := by
  obtain ⟨t, cs, rfl⟩ := (isElement_iff n).mp h
  simp [elementsOf]

/-- An element below a node is among the elements of the subtree of the node. -/
theorem mem_elementsOf_of_descendant (n el : DomNode) (hd : Descendant el n)
    (hel : isElement el = true) : el ∈ elementsOf n := by
  induction hd with
  | child t cs c hc =>
    simp only [elementsOf, List.mem_cons]
    exact Or.inr (mem_elementsOfList_of_mem cs c c hc (mem_elementsOf_self c hel))
  | deeper t cs c d hc _ ih =>
    simp only [elementsOf, List.mem_cons]
    exact Or.inr (mem_elementsOfList_of_mem cs c d hc (ih hel))

mutual
/-- The elements of the subtree of a node are elements, and each is the node or lies
below it. -/
theorem descendant_of_mem_elementsOf : ∀ (n el : DomNode), el ∈ elementsOf n →
    isElement el = true ∧ (el = n ∨ Descendant el n)
  | DomNode.text _, el, h => by simp [elementsOf] at h
  | DomNode.element t cs, el, h => by
    simp only [elementsOf, List.mem_cons] at h
    rcases h with rfl | h
    · exact ⟨rfl, Or.inl rfl⟩
    · obtain ⟨he, c, hc, hor⟩ := descendant_of_mem_elementsOfList cs el h
      refine ⟨he, Or.inr ?_⟩
      rcases hor with rfl | hd
      · exact Descendant.child t cs el hc
      · exact Descendant.deeper t cs c el hc hd
/-- The same for a run of sibling subtrees. -/
theorem descendant_of_mem_elementsOfList : ∀ (ns : List DomNode) (el : DomNode),
    el ∈ elementsOfList ns →
    isElement el = true ∧ ∃ c ∈ ns, (el = c ∨ Descendant el c)
  | [], el, h => by simp [elementsOfList] at h
  | n :: ns, el, h => by
    simp only [elementsOfList, List.mem_append] at h
    rcases h with h | h
    · obtain ⟨he, hor⟩ := descendant_of_mem_elementsOf n el h
      exact ⟨he, n, List.mem_cons_self _ _, hor⟩
    · obtain ⟨he, c, hc, hor⟩ := descendant_of_mem_elementsOfList ns el h
      exact ⟨he, c, List.mem_cons_of_mem _ hc, hor⟩
end

/-- The elements searched for clock texts are exactly the elements that are the marker
or lie below it. -/
theorem mem_elementsOf_iff (n el : DomNode) :
    el ∈ elementsOf n ↔ isElement el = true ∧ (el = n ∨ Descendant el n) := by
  constructor
  · exact descendant_of_mem_elementsOf n el
  · rintro ⟨he, rfl | hd⟩
    · exact mem_elementsOf_self el he
    · exact mem_elementsOf_of_descendant n el hd he

/-- An element is collected exactly when its text is not longer than 30 and matches the
clock pattern. -/
theorem foundTimeOf_isSome_iff (el : DomNode) :
    (foundTimeOf el).isSome = true ↔
      jsLength (trimmedText el) ≤ 30 ∧ (matchMeridiemClock (trimmedText el)).isSome = true := by
  constructor
  · intro h
    obtain ⟨ft, hft⟩ := Option.isSome_iff_exists.mp h
    obtain ⟨p, hs, m1, m2, hm, _⟩ := foundTimeOf_spec el ft hft
    refine ⟨?_, by rw [hm]; rfl⟩
    by_contra hlen
    have hgt : jsLength (trimmedText el) > 30 := by omega
    unfold foundTimeOf at hft
    simp only [if_pos hgt] at hft
    exact absurd hft (by simp)
  · rintro ⟨hlen, hm⟩
    obtain ⟨ft, hft, _⟩ := foundTimeOf_of_match el hm hlen
    rw [hft]; rfl

/-- The result of `findStartTime` is a function of the marker element alone. -/
theorem findStartTime_of_marker (document target : DomNode)
    (h : findMarker (elementsOf document) = some target) :
    findStartTime document =
      if (collectTimes (elementsOf target)).isEmpty then none
      else
        match sortFound (collectTimes (elementsOf target)) with
        | startTime :: _ => some startTime.time
        | [] => none := by
  unfold findStartTime
  simp only [h]

/-- Claim C19: the scope of the start-time search.  `findStartTime` returns a time
exactly when a marker is found and some element that is the marker or lies below it has
a trimmed text of at most 30 characters that matches the clock pattern; a returned time
always comes from such an element; and two pages on which the same marker, with the
same subtree, is selected give the same result, whatever clock-like text stands
elsewhere.  On a page with `오전 9:05` below the marker and an earlier clock text in a
widget beside it the result is 09:05. -/
theorem findStartTime_scope (document : DomNode) :
    ((findStartTime document).isSome = true ↔
      ∃ target el : DomNode, findMarker (elementsOf document) = some target ∧
        isElement el = true ∧ (el = target ∨ Descendant el target) ∧
        jsLength (trimmedText el) ≤ 30 ∧
        (matchMeridiemClock (trimmedText el)).isSome = true) ∧
    (∀ s : JSString, findStartTime document = some s →
      ∃ (target el : DomNode) (ft : FoundTime),
        findMarker (elementsOf document) = some target ∧
        (el = target ∨ Descendant el target) ∧ foundTimeOf el = some ft ∧ s = ft.time) ∧
    (∀ other target : DomNode, findMarker (elementsOf document) = some target →
      findMarker (elementsOf other) = some target →
      findStartTime other = findStartTime document) ∧
    findStartTime markerBesideOtherClock = some "09:05".toList ∧
    findStartTime markerBesideChangedClock = some "09:05".toList := by
  refine ⟨⟨?_, ?_⟩, ?_, ?_, by decide, by decide⟩
  · intro h
    obtain ⟨s, hs⟩ := Option.isSome_iff_exists.mp h
    obtain ⟨target, el, ft, hmarker, hel, hft, _⟩ := findStartTime_some document s hs
    obtain ⟨he, hor⟩ := (mem_elementsOf_iff target el).mp hel
    obtain ⟨hlen, hm⟩ := (foundTimeOf_isSome_iff el).mp (by rw [hft]; rfl)
    exact ⟨target, el, hmarker, he, hor, hlen, hm⟩
  · rintro ⟨target, el, hmarker, he, hor, hlen, hm⟩
    have hel : el ∈ elementsOf target := (mem_elementsOf_iff target el).mpr ⟨he, hor⟩
    obtain ⟨ft, hft, _⟩ := foundTimeOf_of_match el hm hlen
    have hfound : collectTimes (elementsOf target) ≠ [] :=
      List.ne_nil_of_mem (List.mem_filterMap.mpr ⟨el, hel, hft⟩)
    obtain ⟨f, _, hres, _⟩ := findStartTime_of_collected document target hmarker hfound
    rw [hres]; rfl
  · intro s hs
    obtain ⟨target, el, ft, hmarker, hel, hft, htime⟩ := findStartTime_some document s hs
    exact ⟨target, el, ft, hmarker, ((mem_elementsOf_iff target el).mp hel).2, hft, htime⟩
  · intro other target h1 h2
    rw [findStartTime_of_marker document target h1, findStartTime_of_marker other target h2]

/-- The scope on two concrete pages: they select the same marker element, differ in the
widget beside it, and give the same start time. -/
theorem findStartTime_scope_witness :
    findStartTime markerBesideChangedClock = findStartTime markerBesideOtherClock :=
  (findStartTime_scope markerBesideOtherClock).2.2.1 markerBesideChangedClock
    (DomNode.element "div" [DomNode.text "기록 중".toList,
      DomNode.element "span" [DomNode.text "오전 9:05".toList]]) rfl rfl

/-! ## `parseTimeToMinutes` against the three patterns of the specification -/

/-- A search finds what the pattern gives at a position where all earlier positions
fail. -/
theorem searchFirst_at {α : Type} (here : JSString → Option α) (front suf : JSString) (r : α)
    (hhere : here suf = some r)
    (hbefore : ∀ f2 s2 : JSString, front ++ suf = f2 ++ s2 → f2.length < front.length →
      here s2 = none) :
    searchFirst here (front ++ suf) = some r := by
  induction front with
  | nil => exact searchFirst_of_here here suf r hhere
  | cons c f ih =>
    have h0 : here (c :: (f ++ suf)) = none :=
      hbefore [] (c :: (f ++ suf)) rfl (by simp)
    have hstep : searchFirst here (c :: (f ++ suf)) = searchFirst here (f ++ suf) := by
      simp [searchFirst, h0]
    rw [List.cons_append, hstep]
    apply ih
    intro f2 s2 heq hlt
    exact hbefore (c :: f2) s2 (by rw [List.cons_append, heq]; rfl)
      (by simp only [List.length_cons]; omega)

/-- A search fails when the pattern fails at every position. -/
theorem searchFirst_none {α : Type} (here : JSString → Option α) (text : JSString)
    (hall : ∀ f2 s2 : JSString, text = f2 ++ s2 → here s2 = none) :
    searchFirst here text = none := by
  induction text with
  | nil => simpa [searchFirst] using hall [] [] rfl
  | cons c t ih =>
    have h0 : here (c :: t) = none := hall [] (c :: t) rfl
    simp only [searchFirst, h0]
    apply ih
    intro f2 s2 heq
    exact hall (c :: f2) s2 (by rw [heq]; rfl)

/-- The digits at the start of a text, when the run is followed by nothing or by a
character that is no digit. -/
theorem takeWhile_number (M back : JSString) (hM : ∀ c ∈ M, isDigit c = true)
    (hback : ∀ (c : Char) (r : JSString), back = c :: r → isDigit c = false) :
    (M ++ back).takeWhile isDigit = M ∧ (M ++ back).dropWhile isDigit = back := by
  cases back with
  | nil =>
    rw [List.append_nil]
    refine ⟨takeWhile_all M hM, ?_⟩
    have h := List.takeWhile_append_dropWhile isDigit M
    rw [takeWhile_all M hM] at h
    exact List.append_cancel_left (by rw [h, List.append_nil])
  | cons c r =>
    exact ⟨takeWhile_run M c r hM (hback c r rfl), dropWhile_run M c r hM (hback c r rfl)⟩

theorem isEmpty_false_of_ne {s : JSString} (h : s ≠ []) : s.isEmpty = false := by
  cases s with
  | nil => exact absurd rfl h
  | cons _ _ => rfl

/-- The hour-and-minute pattern succeeds at the start of a text exactly when the text
starts with an occurrence of the form, and captures its two numbers. -/
theorem matchHourMinuteHere_iff (suf H M : JSString) :
    matchHourMinuteHere suf = some (H, M) ↔ HourMinuteOccurrence suf [] H M := by
  have hsi : isDigit '시' = false := by decide
  have hbun : isDigit '분' = false := by decide
  constructor
  · intro h
    unfold matchHourMinuteHere at h
    simp only at h
    split_ifs at h with hd1
    split at h
    · rename_i r hdrop
      split_ifs at h with hd2
      split at h
      · rename_i back hdrop2
        simp only [Option.some.injEq, Prod.mk.injEq] at h
        obtain ⟨rfl, rfl⟩ := h
        refine ⟨r.takeWhile isJSWhitespace, back, ?_, ⟨?_, ?_⟩, ?_, ⟨?_, ?_⟩⟩
        · have e1 := (List.takeWhile_append_dropWhile isDigit suf).symm
          have e2 := (List.takeWhile_append_dropWhile isJSWhitespace r).symm
          have e3 := (List.takeWhile_append_dropWhile isDigit
            (r.dropWhile isJSWhitespace)).symm
          rw [hdrop2] at e3
          rw [hdrop] at e1
          conv_lhs => rw [e1, e2, e3]
          simp
        · intro hnil; rw [hnil] at hd1; exact hd1 rfl
        · intro c hc; exact List.mem_takeWhile_imp hc
        · intro c hc; exact List.mem_takeWhile_imp hc
        · intro hnil; rw [hnil] at hd2; exact hd2 rfl
        · intro c hc; exact List.mem_takeWhile_imp hc
      · exact absurd h (by simp)
    · exact absurd h (by simp)
  · rintro ⟨ws, back, heq, ⟨hHne, hH⟩, hws, ⟨hMne, hM⟩⟩
    obtain ⟨a, t, rfl⟩ := List.exists_cons_of_ne_nil hMne
    have ha : isDigit a = true := hM a (List.mem_cons_self _ _)
    have heq2 : suf = H ++ '시' :: ('간' :: (ws ++ (a :: t) ++ '분' :: back)) := by
      rw [heq]; simp
    have hws2 : (ws ++ (a :: t) ++ '분' :: back).dropWhile isJSWhitespace =
        (a :: t) ++ '분' :: back := by
      have := dropWhile_run (p := isJSWhitespace) ws a (t ++ '분' :: back) hws
        (not_ws_of_isDigit ha)
      simpa using this
    unfold matchHourMinuteHere
    rw [heq2, takeWhile_run H '시' _ hH hsi, dropWhile_run H '시' _ hH hsi]
    simp only [isEmpty_false_of_ne hHne, Bool.false_eq_true, if_false, hws2,
      takeWhile_run (a :: t) '분' back hM hbun, dropWhile_run (a :: t) '분' back hM hbun,
      List.isEmpty_cons]

/-- The colon pattern succeeds at the start of a text exactly when the text starts with
an occurrence of the form, and captures its two numbers. -/
theorem matchColonHere_iff (suf H M : JSString) :
    matchColonHere suf = some (H, M) ↔ ColonOccurrence suf [] H M := by
  have hcolon : isDigit ':' = false := by decide
  constructor
  · intro h
    unfold matchColonHere at h
    simp only at h
    split_ifs at h with hd1
    split at h
    · rename_i r hdrop
      split_ifs at h with hd2
      simp only [Option.some.injEq, Prod.mk.injEq] at h
      obtain ⟨rfl, rfl⟩ := h
      refine ⟨r.dropWhile isDigit, ?_, ⟨?_, ?_⟩, ⟨?_, ?_⟩, ?_⟩
      · have e1 := (List.takeWhile_append_dropWhile isDigit suf).symm
        have e2 := (List.takeWhile_append_dropWhile isDigit r).symm
        rw [hdrop] at e1
        conv_lhs => rw [e1, e2]
        simp
      · intro hnil; rw [hnil] at hd1; exact hd1 rfl
      · intro c hc; exact List.mem_takeWhile_imp hc
      · intro hnil; rw [hnil] at hd2; exact hd2 rfl
      · intro c hc; exact List.mem_takeWhile_imp hc
      · intro c r2 hcr; exact dropWhile_head_not r c r2 hcr
    · exact absurd h (by simp)
  · rintro ⟨back, heq, ⟨hHne, hH⟩, ⟨hMne, hM⟩, hback⟩
    have heq2 : suf = H ++ ':' :: (M ++ back) := by rw [heq]; simp
    obtain ⟨ht, _⟩ := takeWhile_number M back hM hback
    unfold matchColonHere
    rw [heq2, takeWhile_run H ':' _ hH hcolon, dropWhile_run H ':' _ hH hcolon]
    simp only [isEmpty_false_of_ne hHne, Bool.false_eq_true, if_false, ht,
      isEmpty_false_of_ne hMne]

/-- The hour-only pattern succeeds at the start of a text exactly when the text starts
with an occurrence of the form, and captures its number. -/
theorem matchHoursOnlyHere_iff (suf H : JSString) :
    matchHoursOnlyHere suf = some H ↔ HoursOnlyOccurrence suf [] H := by
  have hsi : isDigit '시' = false := by decide
  constructor
  · intro h
    unfold matchHoursOnlyHere at h
    simp only at h
    split_ifs at h with hd1
    split at h
    · rename_i back hdrop
      simp only [Option.some.injEq] at h
      subst h
      refine ⟨back, ?_, ⟨?_, ?_⟩⟩
      · have e1 := (List.takeWhile_append_dropWhile isDigit suf).symm
        rw [hdrop] at e1
        conv_lhs => rw [e1]
        simp
      · intro hnil; rw [hnil] at hd1; exact hd1 rfl
      · intro c hc; exact List.mem_takeWhile_imp hc
    · exact absurd h (by simp)
  · rintro ⟨back, heq, ⟨hHne, hH⟩⟩
    have heq2 : suf = H ++ '시' :: ('간' :: back) := by rw [heq]; simp
    unfold matchHoursOnlyHere
    rw [heq2, takeWhile_run H '시' _ hH hsi, dropWhile_run H '시' _ hH hsi]
    simp only [isEmpty_false_of_ne hHne, Bool.false_eq_true, if_false]

/-- A search returns the captures of the leftmost occurrence of a form, when the pattern
succeeds exactly at the occurrences of the form. -/
theorem searchFirst_leftmost {α : Type} (here : JSString → Option α)
    (Occ : JSString → JSString → α → Prop)
    (hiff : ∀ (suf : JSString) (r : α), here suf = some r ↔ Occ suf [] r)
    (hshift : ∀ (text front : JSString) (r : α),
      Occ text front r ↔ ∃ suf, text = front ++ suf ∧ Occ suf [] r)
    (text front : JSString) (r : α) (hocc : Occ text front r)
    (hleft : ∀ (f2 : JSString) (r2 : α), Occ text f2 r2 → front.length ≤ f2.length) :
    searchFirst here text = some r := by
  obtain ⟨suf, rfl, hsuf⟩ := (hshift text front r).mp hocc
  apply searchFirst_at here front suf r ((hiff suf r).mpr hsuf)
  intro f2 s2 heq hlt
  cases hh : here s2 with
  | none => rfl
  | some r2 =>
    have hocc2 : Occ (front ++ suf) f2 r2 :=
      (hshift _ f2 r2).mpr ⟨s2, heq, (hiff s2 r2).mp hh⟩
    have := hleft f2 r2 hocc2
    omega

/-- A search fails on a text without any occurrence of the form. -/
theorem searchFirst_absent {α : Type} (here : JSString → Option α)
    (Occ : JSString → JSString → α → Prop)
    (hiff : ∀ (suf : JSString) (r : α), here suf = some r ↔ Occ suf [] r)
    (hshift : ∀ (text front : JSString) (r : α),
      Occ text front r ↔ ∃ suf, text = front ++ suf ∧ Occ suf [] r)
    (text : JSString) (hno : ∀ (f : JSString) (r : α), ¬ Occ text f r) :
    searchFirst here text = none := by
  apply searchFirst_none
  intro f2 s2 heq
  cases hh : here s2 with
  | none => rfl
  | some r2 =>
    exact absurd ((hshift text f2 r2).mpr ⟨s2, heq, (hiff s2 r2).mp hh⟩) (hno f2 r2)

theorem hourMinuteOccurrence_shift (text front : JSString) (r : JSString × JSString) :
    HourMinuteOccurrence text front r.1 r.2 ↔
      ∃ suf, text = front ++ suf ∧ HourMinuteOccurrence suf [] r.1 r.2 := by
  constructor
  · rintro ⟨ws, back, heq, hH, hws, hM⟩
    exact ⟨r.1 ++ "시간".toList ++ ws ++ r.2 ++ '분' :: back, by rw [heq]; simp,
      ws, back, by simp, hH, hws, hM⟩
  · rintro ⟨suf, heq, ws, back, hsuf, hH, hws, hM⟩
    exact ⟨ws, back, by rw [heq, hsuf]; simp, hH, hws, hM⟩

theorem colonOccurrence_shift (text front : JSString) (r : JSString × JSString) :
    ColonOccurrence text front r.1 r.2 ↔
      ∃ suf, text = front ++ suf ∧ ColonOccurrence suf [] r.1 r.2 := by
  constructor
  · rintro ⟨back, heq, hH, hM, hback⟩
    exact ⟨r.1 ++ ':' :: r.2 ++ back, by rw [heq]; simp, back, by simp, hH, hM, hback⟩
  · rintro ⟨suf, heq, back, hsuf, hH, hM, hback⟩
    exact ⟨back, by rw [heq, hsuf]; simp, hH, hM, hback⟩

theorem hoursOnlyOccurrence_shift (text front H : JSString) :
    HoursOnlyOccurrence text front H ↔
      ∃ suf, text = front ++ suf ∧ HoursOnlyOccurrence suf [] H := by
  constructor
  · rintro ⟨back, heq, hH⟩
    exact ⟨H ++ "시간".toList ++ back, by rw [heq]; simp, back, by simp, hH⟩
  · rintro ⟨suf, heq, back, hsuf, hH⟩
    exact ⟨back, by rw [heq, hsuf]; simp, hH⟩

/-- The body of `parseTimeToMinutes` after its guard: on the empty text the three
searches fail and give the same 0. -/
theorem parseTimeToMinutes_eq (text : JSString) :
    parseTimeToMinutes text =
      match searchFirst matchHourMinuteHere text with
      | some (h, m) => jsAdd (jsMul (parseDigits h) 60) (parseDigits m)
      | none =>
        match searchFirst matchColonHere text with
        | some (h, m) => jsAdd (jsMul (parseDigits h) 60) (parseDigits m)
        | none =>
          match searchFirst matchHoursOnlyHere text with
          | some h => jsMul (parseDigits h) 60
          | none => 0 := by
  cases text with
  | nil => rfl
  | cons c cs => rfl

/-- The minute count computed from two captures is never negative. -/
theorem minutes_nonneg (h m : JSString) :
    0 ≤ jsAdd (jsMul (parseDigits h) 60) (parseDigits m) := by
  have h1 : 0 ≤ parseDigits h := toDouble_nonneg _ (Int.ofNat_nonneg _)
  have h2 : 0 ≤ parseDigits m := toDouble_nonneg _ (Int.ofNat_nonneg _)
  have h3 : 0 ≤ jsMul (parseDigits h) 60 := toDouble_nonneg _ (by positivity)
  exact toDouble_nonneg _ (by positivity)

/-- Claim C11 fails for a number of hours above `2 ^ 53`.  The text
`9007199254740993시간 0분` has the hour-and-minute form at its very start, with
`H = 9007199254740993` and `M = 0`, so the claim gives `60*H + M = 540431955284459580`;
`parseInt` rounds `H` to the double 9007199254740992 and the result is
540431955284459520.  The colon form `9007199254740993:00` gives the same. -/
theorem parseTimeToMinutes_large_hours_inexact :
    HourMinuteOccurrence "9007199254740993시간 0분".toList [] "9007199254740993".toList
      "0".toList ∧
    parseTimeToMinutes "9007199254740993시간 0분".toList = 540431955284459520 ∧
    60 * (digitsVal "9007199254740993".toList : Int) + (digitsVal "0".toList : Int) =
      540431955284459580 ∧
    parseTimeToMinutes "9007199254740993시간 0분".toList ≠
      60 * (digitsVal "9007199254740993".toList : Int) + (digitsVal "0".toList : Int) ∧
    parseTimeToMinutes "9007199254740993:00".toList = 540431955284459520 := by
  refine ⟨⟨[' '], [], by decide, ⟨by decide, by decide⟩, by decide, ⟨by decide, by decide⟩⟩,
    by decide, by decide, by decide, by decide⟩

/-- Claim C11, amended: `parseTimeToMinutes` is the ordered three-pattern reference on
the values up to `2 ^ 53`.  If the text has an occurrence of
`<H>시간<optional white space><M>분`, the result is `60*H + M` of the leftmost one,
whatever else the text holds, provided `60*H + M` is at most `2 ^ 53`; otherwise, if it
has an occurrence of `<H>:<M>`, the result is `60*H + M` of the leftmost one, with the
same proviso; otherwise, if it has an occurrence of `<H>시간`, the result is `60*H` of
the leftmost one, provided `60*H` is at most `2 ^ 53`; otherwise, also on the empty
text, the result is 0.  The result is never negative.  A text with a colon form in front
of an hour-and-minute form gives the value of the latter. -/
theorem parseTimeToMinutes_reference (text : JSString) :
    (∀ front H M : JSString, HourMinuteOccurrence text front H M →
      (∀ f2 H2 M2 : JSString, HourMinuteOccurrence text f2 H2 M2 →
        front.length ≤ f2.length) →
      60 * digitsVal H + digitsVal M ≤ 2 ^ 53 →
      parseTimeToMinutes text = 60 * (digitsVal H : Int) + (digitsVal M : Int)) ∧
    ((¬ ∃ f H M : JSString, HourMinuteOccurrence text f H M) →
      ∀ front H M : JSString, ColonOccurrence text front H M →
      (∀ f2 H2 M2 : JSString, ColonOccurrence text f2 H2 M2 → front.length ≤ f2.length) →
      60 * digitsVal H + digitsVal M ≤ 2 ^ 53 →
      parseTimeToMinutes text = 60 * (digitsVal H : Int) + (digitsVal M : Int)) ∧
    ((¬ ∃ f H M : JSString, HourMinuteOccurrence text f H M) →
      (¬ ∃ f H M : JSString, ColonOccurrence text f H M) →
      ∀ front H : JSString, HoursOnlyOccurrence text front H →
      (∀ f2 H2 : JSString, HoursOnlyOccurrence text f2 H2 → front.length ≤ f2.length) →
      60 * digitsVal H ≤ 2 ^ 53 →
      parseTimeToMinutes text = 60 * (digitsVal H : Int)) ∧
    ((¬ ∃ f H M : JSString, HourMinuteOccurrence text f H M) →
      (¬ ∃ f H M : JSString, ColonOccurrence text f H M) →
      (¬ ∃ f H : JSString, HoursOnlyOccurrence text f H) →
      parseTimeToMinutes text = 0) ∧
    0 ≤ parseTimeToMinutes text ∧
    parseTimeToMinutes [] = 0 ∧
    parseTimeToMinutes "12:30 근무 1시간 5분".toList = 65 := by
  have hHM := searchFirst_leftmost matchHourMinuteHere
    (fun t f (r : JSString × JSString) => HourMinuteOccurrence t f r.1 r.2)
    (fun suf r => matchHourMinuteHere_iff suf r.1 r.2) hourMinuteOccurrence_shift text
  have hHMno := searchFirst_absent matchHourMinuteHere
    (fun t f (r : JSString × JSString) => HourMinuteOccurrence t f r.1 r.2)
    (fun suf r => matchHourMinuteHere_iff suf r.1 r.2) hourMinuteOccurrence_shift text
  have hC := searchFirst_leftmost matchColonHere
    (fun t f (r : JSString × JSString) => ColonOccurrence t f r.1 r.2)
    (fun suf r => matchColonHere_iff suf r.1 r.2) colonOccurrence_shift text
  have hCno := searchFirst_absent matchColonHere
    (fun t f (r : JSString × JSString) => ColonOccurrence t f r.1 r.2)
    (fun suf r => matchColonHere_iff suf r.1 r.2) colonOccurrence_shift text
  have hO := searchFirst_leftmost matchHoursOnlyHere HoursOnlyOccurrence
    matchHoursOnlyHere_iff hoursOnlyOccurrence_shift text
  have hOno := searchFirst_absent matchHoursOnlyHere HoursOnlyOccurrence
    matchHoursOnlyHere_iff hoursOnlyOccurrence_shift text
  refine ⟨?_, ?_, ?_, ?_, ?_, rfl, by decide⟩
  · intro front H M hocc hleft hb
    have h1 := hHM front (H, M) hocc (fun f2 r2 h => hleft f2 r2.1 r2.2 h)
    rw [parseTimeToMinutes_eq, h1]
    exact minutes_exact _ _ hb
  · intro hno front H M hocc hleft hb
    have h0 := hHMno (fun f r h => hno ⟨f, r.1, r.2, h⟩)
    have h1 := hC front (H, M) hocc (fun f2 r2 h => hleft f2 r2.1 r2.2 h)
    rw [parseTimeToMinutes_eq, h0, h1]
    exact minutes_exact _ _ hb
  · intro hno1 hno2 front H hocc hleft hb
    have h0 := hHMno (fun f r h => hno1 ⟨f, r.1, r.2, h⟩)
    have h1 := hCno (fun f r h => hno2 ⟨f, r.1, r.2, h⟩)
    have h2 := hO front H hocc hleft
    rw [parseTimeToMinutes_eq, h0, h1, h2]
    exact hours_exact _ hb
  · intro hno1 hno2 hno3
    have h0 := hHMno (fun f r h => hno1 ⟨f, r.1, r.2, h⟩)
    have h1 := hCno (fun f r h => hno2 ⟨f, r.1, r.2, h⟩)
    have h2 := hOno (fun f r h => hno3 ⟨f, r, h⟩)
    rw [parseTimeToMinutes_eq, h0, h1, h2]
  · rw [parseTimeToMinutes_eq]
    split
    · exact minutes_nonneg _ _
    · split
      · exact minutes_nonneg _ _
      · split
        · exact toDouble_nonneg _
            (mul_nonneg (toDouble_nonneg _ (Int.ofNat_nonneg _)) (by decide))
        · exact le_refl 0

/-- The reference on the text `12:30 근무 1시간 5분`: its only hour-and-minute occurrence
stands after a colon form, and the result is its value. -/
theorem parseTimeToMinutes_reference_witness :
    60 * digitsVal "1".toList + digitsVal "5".toList ≤ 2 ^ 53 ∧
    parseTimeToMinutes "12:30 근무 1시간 5분".toList =
      60 * (digitsVal "1".toList : Int) + (digitsVal "5".toList : Int) := by
  refine ⟨by decide, ?_⟩
  refine (parseTimeToMinutes_reference "12:30 근무 1시간 5분".toList).1
    "12:30 근무 ".toList "1".toList "5".toList
    ⟨[' '], [], rfl, ⟨by decide, by decide⟩, by decide, ⟨by decide, by decide⟩⟩ ?_
    (by decide)
  intro f2 H2 M2 hocc
  by_contra hlt
  obtain ⟨suf, heq, hs⟩ := (hourMinuteOccurrence_shift _ f2 (H2, M2)).mp hocc
  have hm := (matchHourMinuteHere_iff suf H2 M2).mpr hs
  have hsuf : suf = ("12:30 근무 1시간 5분".toList).drop f2.length := by
    rw [heq]; simp
  have hlen : f2.length < 9 := by
    have : ("12:30 근무 ".toList).length = 9 := by decide
    omega
  rw [hsuf] at hm
  generalize f2.length = k at hm hlen
  have hnone : ∀ j, j < 9 →
      matchHourMinuteHere (("12:30 근무 1시간 5분".toList).drop j) = none := by decide
  rw [hnone k hlen] at hm
  exact absurd hm (by simp)

/-! ## The acquisition controller -/

/-- An attempt in a state without calculation and without display element runs the
pipeline, sets `isCalculated` and returns `true`. -/
theorem tryCalculate_run (s : Controller) (p : Bool) (h1 : s.isCalculated = false)
    (h2 : s.displayExists = false) :
    tryCalculate s p = ({ runPipeline s p with isCalculated := true }, true) := by
  simp only [tryCalculate, h1, h2, Bool.not_false, Bool.and_self, if_true]

/-- An attempt in any other state changes nothing and returns `false`. -/
theorem tryCalculate_skip (s : Controller) (p : Bool)
    (h : s.isCalculated = true ∨ s.displayExists = true) :
    tryCalculate s p = (s, false) := by
  rcases h with h | h <;> simp [tryCalculate, h]

theorem tryCalculate_cases (s : Controller) :
    (s.isCalculated = false ∧ s.displayExists = false) ∨
      (s.isCalculated = true ∨ s.displayExists = true) := by
  cases h1 : s.isCalculated <;> cases h2 : s.displayExists <;> simp

theorem inv_initialController (d : Bool) : (initialController d).Inv := by
  simp [Controller.Inv, initialController, MAX_RETRIES, MAX_FALLBACK_RETRIES]

theorem inv_onFirstAttempt (s : Controller) (p : Bool) (h : s.Inv)
    (ha : s.firstAttemptPending = true) : (onFirstAttempt s p).Inv := by
  obtain ⟨h1, h2, h3, h4, h5, h6, h7, h8, h9, h10, h11, h12, h13⟩ := h
  simp only [MAX_RETRIES, MAX_FALLBACK_RETRIES] at *
  obtain ⟨g1, g2, g3, g4, g5, g6, g7, g8⟩ := h13 ha
  unfold onFirstAttempt
  rcases tryCalculate_cases s with hc | hc
  · have hpr : s.pipelineRuns = 0 := by
      have hn : ¬ s.pipelineRuns = 1 := fun hx => by
        have := h2.mpr hx
        rw [hc.1] at this
        cases this
      omega
    rw [tryCalculate_run]
    rotate_left
    · exact hc.1
    · exact hc.2
    cases p <;>
      simp only [Controller.Inv, runPipeline, MAX_RETRIES, MAX_FALLBACK_RETRIES, if_true,
        Bool.false_eq_true, if_false] <;>
      refine ⟨?_, ?_, ?_, ?_, ?_, ?_, ?_, ?_, ?_, ?_, ?_, ?_, ?_⟩ <;>
      first
        | assumption
        | omega
        | simp_all
  · rw [tryCalculate_skip]
    rotate_left
    · exact hc
    simp only [Bool.false_eq_true, if_false, Controller.Inv, MAX_RETRIES,
      MAX_FALLBACK_RETRIES]
    refine ⟨?_, ?_, ?_, ?_, ?_, ?_, ?_, ?_, ?_, ?_, ?_, ?_, ?_⟩ <;>
      first
        | assumption
        | omega
        | simp_all

theorem inv_onMutation (s : Controller) (p : Bool) (h : s.Inv)
    (ha : s.observerActive = true) : (onMutation s p).Inv := by
  obtain ⟨h1, h2, h3, h4, h5, h6, h7, h8, h9, h10, h11, h12, h13⟩ := h
  simp only [MAX_RETRIES, MAX_FALLBACK_RETRIES] at *
  have h5b := h5 ha
  unfold onMutation
  rcases tryCalculate_cases s with hc | hc
  · have hpr : s.pipelineRuns = 0 := by
      have hn : ¬ s.pipelineRuns = 1 := fun hx => by
        have := h2.mpr hx
        rw [hc.1] at this
        cases this
      omega
    rw [tryCalculate_run]
    rotate_left
    · exact hc.1
    · exact hc.2
    cases p <;>
      simp only [Controller.Inv, runPipeline, MAX_RETRIES, MAX_FALLBACK_RETRIES, if_true,
        Bool.false_eq_true, if_false] <;>
      refine ⟨?_, ?_, ?_, ?_, ?_, ?_, ?_, ?_, ?_, ?_, ?_, ?_, ?_⟩ <;>
      first
        | assumption
        | omega
        | simp_all
  · rw [tryCalculate_skip]
    rotate_left
    · exact hc
    simp only [Bool.false_eq_true, if_false, MAX_RETRIES]
    split_ifs with hge <;>
      simp only [Controller.Inv, MAX_RETRIES, MAX_FALLBACK_RETRIES] <;>
      refine ⟨?_, ?_, ?_, ?_, ?_, ?_, ?_, ?_, ?_, ?_, ?_, ?_, ?_⟩ <;>
      first
        | assumption
        | omega
        | simp_all

theorem inv_onTick (s : Controller) (p : Bool) (h : s.Inv)
    (ha : s.intervalActive = true) : (onTick s p).Inv := by
  obtain ⟨h1, h2, h3, h4, h5, h6, h7, h8, h9, h10, h11, h12, h13⟩ := h
  simp only [MAX_RETRIES, MAX_FALLBACK_RETRIES] at *
  have h8b := h8 ha
  unfold onTick
  rcases tryCalculate_cases s with hc | hc
  · have hpr : s.pipelineRuns = 0 := by
      have hn : ¬ s.pipelineRuns = 1 := fun hx => by
        have := h2.mpr hx
        rw [hc.1] at this
        cases this
      omega
    rw [tryCalculate_run]
    rotate_left
    · exact hc.1
    · exact hc.2
    cases p <;>
      simp only [Controller.Inv, runPipeline, MAX_RETRIES, MAX_FALLBACK_RETRIES, if_true,
        Bool.false_eq_true, if_false, Bool.true_or] <;>
      refine ⟨?_, ?_, ?_, ?_, ?_, ?_, ?_, ?_, ?_, ?_, ?_, ?_, ?_⟩ <;>
      first
        | assumption
        | omega
        | simp_all
  · rw [tryCalculate_skip]
    rotate_left
    · exact hc
    simp only [Bool.false_or, decide_eq_true_eq, MAX_FALLBACK_RETRIES]
    split_ifs with hge <;>
      simp only [Controller.Inv, MAX_RETRIES, MAX_FALLBACK_RETRIES] <;>
      refine ⟨?_, ?_, ?_, ?_, ?_, ?_, ?_, ?_, ?_, ?_, ?_, ?_, ?_⟩ <;>
      first
        | assumption
        | omega
        | simp_all

theorem inv_onTimeout (s : Controller) (p : Bool) (h : s.Inv)
    (ha : s.timeoutPending = true) : (onTimeout s p).Inv := by
  obtain ⟨h1, h2, h3, h4, h5, h6, h7, h8, h9, h10, h11, h12, h13⟩ := h
  simp only [MAX_RETRIES, MAX_FALLBACK_RETRIES] at *
  obtain ⟨g1, g2⟩ := h11 ha
  unfold onTimeout
  cases hic : s.isCalculated
  · simp only [Bool.not_false, if_true]
    have hpr : s.pipelineRuns = 0 := by
      have hn : ¬ s.pipelineRuns = 1 := fun hx => by
        have := h2.mpr hx
        rw [hic] at this
        cases this
      omega
    cases hde : s.displayExists
    · rw [tryCalculate_run]
      rotate_left
      · rfl
      · rfl
      cases p <;>
        simp only [Controller.Inv, runPipeline, MAX_RETRIES, MAX_FALLBACK_RETRIES, if_true,
          Bool.false_eq_true, if_false] <;>
        refine ⟨?_, ?_, ?_, ?_, ?_, ?_, ?_, ?_, ?_, ?_, ?_, ?_, ?_⟩ <;>
        first
          | assumption
          | omega
          | simp_all
    · rw [tryCalculate_skip]
      rotate_left
      · exact Or.inr rfl
      simp only [Controller.Inv, MAX_RETRIES, MAX_FALLBACK_RETRIES]
      refine ⟨?_, ?_, ?_, ?_, ?_, ?_, ?_, ?_, ?_, ?_, ?_, ?_, ?_⟩ <;>
        first
          | assumption
          | omega
          | simp_all
  · simp only [Bool.not_true, Bool.false_eq_true, if_false, Controller.Inv, MAX_RETRIES,
      MAX_FALLBACK_RETRIES]
    refine ⟨?_, ?_, ?_, ?_, ?_, ?_, ?_, ?_, ?_, ?_, ?_, ?_, ?_⟩ <;>
      first
        | assumption
        | omega
        | simp_all

/-- Every step of the controller keeps the invariant. -/
theorem inv_step (s : Controller) (e : Event) (h : s.Inv) : (step s e).Inv := by
  cases e with
  | firstAttempt p =>
    show (if s.firstAttemptPending then onFirstAttempt s p else s).Inv
    split_ifs with ha
    · exact inv_onFirstAttempt s p h ha
    · exact h
  | mutation p =>
    show (if s.observerActive then onMutation s p else s).Inv
    split_ifs with ha
    · exact inv_onMutation s p h ha
    · exact h
  | tick p =>
    show (if s.intervalActive then onTick s p else s).Inv
    split_ifs with ha
    · exact inv_onTick s p h ha
    · exact h
  | timeout p =>
    show (if s.timeoutPending then onTimeout s p else s).Inv
    split_ifs with ha
    · exact inv_onTimeout s p h ha
    · exact h
  | pageSetsDisplay b =>
    exact h

/-- The invariant holds after every sequence of events. -/
theorem inv_runEvents (s : Controller) (es : List Event) (h : s.Inv) :
    (runEvents s es).Inv := by
  induction es generalizing s with
  | nil => exact h
  | cons e es ih => exact ih (step s e) (inv_step s e h)

/-- Once `isCalculated` is set, no step changes it or runs the pipeline. -/
theorem step_of_calculated (s : Controller) (e : Event) (h : s.isCalculated = true) :
    (step s e).isCalculated = true ∧ (step s e).pipelineRuns = s.pipelineRuns ∧
      (step s e).resultsPresented = s.resultsPresented ∧
      (step s e).errorsShown = s.errorsShown := by
  cases e with
  | firstAttempt p =>
    show (fun t : Controller => t.isCalculated = true ∧ t.pipelineRuns = s.pipelineRuns ∧
      t.resultsPresented = s.resultsPresented ∧ t.errorsShown = s.errorsShown)
      (if s.firstAttemptPending then onFirstAttempt s p else s)
    split_ifs
    · unfold onFirstAttempt
      rw [tryCalculate_skip]
      rotate_left
      · exact Or.inl h
      exact ⟨h, rfl, rfl, rfl⟩
    · exact ⟨h, rfl, rfl, rfl⟩
  | mutation p =>
    show (fun t : Controller => t.isCalculated = true ∧ t.pipelineRuns = s.pipelineRuns ∧
      t.resultsPresented = s.resultsPresented ∧ t.errorsShown = s.errorsShown)
      (if s.observerActive then onMutation s p else s)
    split_ifs
    · unfold onMutation
      rw [tryCalculate_skip]
      rotate_left
      · exact Or.inl h
      simp only [Bool.false_eq_true, if_false]
      split_ifs <;> exact ⟨h, rfl, rfl, rfl⟩
    · exact ⟨h, rfl, rfl, rfl⟩
  | tick p =>
    show (fun t : Controller => t.isCalculated = true ∧ t.pipelineRuns = s.pipelineRuns ∧
      t.resultsPresented = s.resultsPresented ∧ t.errorsShown = s.errorsShown)
      (if s.intervalActive then onTick s p else s)
    split_ifs
    · unfold onTick
      rw [tryCalculate_skip]
      rotate_left
      · exact Or.inl h
      simp only
      split_ifs <;> exact ⟨h, rfl, rfl, rfl⟩
    · exact ⟨h, rfl, rfl, rfl⟩
  | timeout p =>
    show (fun t : Controller => t.isCalculated = true ∧ t.pipelineRuns = s.pipelineRuns ∧
      t.resultsPresented = s.resultsPresented ∧ t.errorsShown = s.errorsShown)
      (if s.timeoutPending then onTimeout s p else s)
    split_ifs
    · unfold onTimeout
      simp only [h, Bool.not_true, Bool.false_eq_true, if_false]
      exact ⟨trivial, trivial, trivial, trivial⟩
    · exact ⟨h, rfl, rfl, rfl⟩
  | pageSetsDisplay b => exact ⟨h, rfl, rfl, rfl⟩

/-- Once `isCalculated` is set, no sequence of events runs the pipeline again. -/
theorem runEvents_of_calculated (s : Controller) (es : List Event)
    (h : s.isCalculated = true) :
    (runEvents s es).isCalculated = true ∧ (runEvents s es).pipelineRuns = s.pipelineRuns ∧
      (runEvents s es).resultsPresented = s.resultsPresented ∧
      (runEvents s es).errorsShown = s.errorsShown := by
  induction es generalizing s with
  | nil => exact ⟨h, rfl, rfl, rfl⟩
  | cons e es ih =>
    obtain ⟨h1, h2, h3, h4⟩ := step_of_calculated s e h
    obtain ⟨g1, g2, g3, g4⟩ := ih (step s e) h1
    exact ⟨g1, g2.trans h2, g3.trans h3, g4.trans h4⟩

/-- The fields an attempt leaves alone: those of the timers, the subscription and the
counters of the callbacks. -/
theorem tryCalculate_frame (s : Controller) (p : Bool) :
    (tryCalculate s p).1.firstAttemptPending = s.firstAttemptPending ∧
    (tryCalculate s p).1.observerActive = s.observerActive ∧
    (tryCalculate s p).1.timeoutPending = s.timeoutPending ∧
    (tryCalculate s p).1.intervalActive = s.intervalActive ∧
    (tryCalculate s p).1.retryCount = s.retryCount ∧
    (tryCalculate s p).1.fallbackRetries = s.fallbackRetries ∧
    (tryCalculate s p).1.observerAttempts = s.observerAttempts ∧
    (tryCalculate s p).1.intervalAttempts = s.intervalAttempts ∧
    (tryCalculate s p).1.timeoutAttempts = s.timeoutAttempts ∧
    (tryCalculate s p).1.timeoutFired = s.timeoutFired := by
  rcases tryCalculate_cases s with hc | hc
  · rw [tryCalculate_run s p hc.1 hc.2]
    cases p <;> exact ⟨rfl, rfl, rfl, rfl, rfl, rfl, rfl, rfl, rfl, rfl⟩
  · rw [tryCalculate_skip s p hc]
    exact ⟨rfl, rfl, rfl, rfl, rfl, rfl, rfl, rfl, rfl, rfl⟩

/-- The observer callback does not touch the interval timer or its counter. -/
theorem onMutation_frame (s : Controller) (p : Bool) :
    (onMutation s p).fallbackRetries = s.fallbackRetries ∧
    (onMutation s p).intervalActive = s.intervalActive ∧
    (onMutation s p).intervalAttempts = s.intervalAttempts := by
  obtain ⟨_, _, _, f4, _, f6, _, f8, _, _⟩ := tryCalculate_frame
    { s with retryCount := s.retryCount + 1, observerAttempts := s.observerAttempts + 1 } p
  unfold onMutation
  simp only
  split_ifs <;> exact ⟨f6, f4, f8⟩

/-- The interval callback does not touch the subscription or its counter. -/
theorem onTick_frame (s : Controller) (p : Bool) :
    (onTick s p).retryCount = s.retryCount ∧
    (onTick s p).observerActive = s.observerActive ∧
    (onTick s p).observerAttempts = s.observerAttempts := by
  obtain ⟨_, f2, _, _, f5, _, f7, _, _, _⟩ := tryCalculate_frame
    { s with fallbackRetries := s.fallbackRetries + 1,
             intervalAttempts := s.intervalAttempts + 1 } p
  unfold onTick
  simp only
  split_ifs <;> exact ⟨f5, f2, f7⟩

/-- Claim C12, evaluated on the code: on a fresh page whose first attempt finds nothing
presentable, the pipeline shows its error, and still `isCalculated` is set and the
controller does not start polling: no subscription, no interval timer and no timeout
exist afterwards.  The same holds whatever the page shows at the first attempt. -/
theorem firstAttempt_failure_marks_calculated :
    (step (initialController false) (Event.firstAttempt false)).isCalculated = true ∧
    (step (initialController false) (Event.firstAttempt false)).errorsShown = 1 ∧
    (step (initialController false) (Event.firstAttempt false)).resultsPresented = 0 ∧
    (step (initialController false) (Event.firstAttempt false)).polling = false ∧
    (step (initialController false) (Event.firstAttempt false)).allCancelled = true ∧
    (∀ p : Bool,
      (step (initialController false) (Event.firstAttempt p)).isCalculated = true ∧
      (step (initialController false) (Event.firstAttempt p)).allCancelled = true) := by
  decide

/-- Claim C13 fails: when a display element is already in the document at the first
attempt, the controller starts polling; if the element then disappears and a change
notification makes the successful attempt, only the subscription is cancelled: the
interval timer and the timeout are still active. -/
theorem success_leaves_timers_active :
    (runEvents (initialController true)
      [Event.firstAttempt true, Event.pageSetsDisplay false, Event.mutation true]).isCalculated
      = true ∧
    (runEvents (initialController true)
      [Event.firstAttempt true, Event.pageSetsDisplay false,
        Event.mutation true]).resultsPresented = 1 ∧
    (runEvents (initialController true)
      [Event.firstAttempt true, Event.pageSetsDisplay false,
        Event.mutation true]).observerActive = false ∧
    (runEvents (initialController true)
      [Event.firstAttempt true, Event.pageSetsDisplay false,
        Event.mutation true]).intervalActive = true ∧
    (runEvents (initialController true)
      [Event.firstAttempt true, Event.pageSetsDisplay false,
        Event.mutation true]).timeoutPending = true := by
  decide

/-- A step that runs the pipeline sets `isCalculated` and cancels the source that made
the attempt. -/
theorem step_run_spec (s : Controller) (e : Event) (h : s.Inv)
    (hrun : (step s e).pipelineRuns = s.pipelineRuns + 1) :
    (step s e).isCalculated = true ∧
    (∀ p, e = Event.firstAttempt p → (step s e).allCancelled = true) ∧
    (∀ p, e = Event.mutation p → (step s e).observerActive = false) ∧
    (∀ p, e = Event.tick p → (step s e).intervalActive = false) ∧
    (∀ p, e = Event.timeout p →
      (step s e).timeoutPending = false ∧ (step s e).observerActive = false) := by
  have hinv := inv_step s e h
  have hcalc : (step s e).isCalculated = true := by
    have h1 := h.1
    have h2 := hinv.2.1
    have h3 := hinv.1
    exact h2.mpr (by omega)
  refine ⟨hcalc, ?_, ?_, ?_, ?_⟩
  · rintro p rfl
    have hp : s.firstAttemptPending = true := by
      by_contra hne
      have : step s (Event.firstAttempt p) = s := by
        show (if s.firstAttemptPending then onFirstAttempt s p else s) = s
        rw [if_neg hne]
      rw [this] at hrun
      omega
    obtain ⟨g1, g2, g3, _⟩ := h.2.2.2.2.2.2.2.2.2.2.2.2 hp
    have hstep : step s (Event.firstAttempt p) = onFirstAttempt s p := by
      show (if s.firstAttemptPending then onFirstAttempt s p else s) = _
      rw [if_pos hp]
    rw [hstep] at hrun ⊢
    rcases tryCalculate_cases s with hc | hc
    · unfold onFirstAttempt
      rw [tryCalculate_run]
      rotate_left
      · exact hc.1
      · exact hc.2
      cases p <;> simp [Controller.allCancelled, runPipeline, g1, g2, g3]
    · unfold onFirstAttempt at hrun
      rw [tryCalculate_skip] at hrun
      rotate_left
      · exact hc
      simp at hrun
  · rintro p rfl
    have hp : s.observerActive = true := by
      by_contra hne
      have : step s (Event.mutation p) = s := by
        show (if s.observerActive then onMutation s p else s) = s
        rw [if_neg hne]
      rw [this] at hrun
      omega
    have hstep : step s (Event.mutation p) = onMutation s p := by
      show (if s.observerActive then onMutation s p else s) = _
      rw [if_pos hp]
    rw [hstep] at hrun ⊢
    rcases tryCalculate_cases s with hc | hc
    · unfold onMutation
      rw [tryCalculate_run]
      rotate_left
      · exact hc.1
      · exact hc.2
      rfl
    · unfold onMutation at hrun
      rw [tryCalculate_skip] at hrun
      rotate_left
      · exact hc
      simp only [Bool.false_eq_true, if_false] at hrun
      split_ifs at hrun <;> simp at hrun
  · rintro p rfl
    have hp : s.intervalActive = true := by
      by_contra hne
      have : step s (Event.tick p) = s := by
        show (if s.intervalActive then onTick s p else s) = s
        rw [if_neg hne]
      rw [this] at hrun
      omega
    have hstep : step s (Event.tick p) = onTick s p := by
      show (if s.intervalActive then onTick s p else s) = _
      rw [if_pos hp]
    rw [hstep] at hrun ⊢
    rcases tryCalculate_cases s with hc | hc
    · unfold onTick
      rw [tryCalculate_run]
      rotate_left
      · exact hc.1
      · exact hc.2
      rfl
    · unfold onTick at hrun
      rw [tryCalculate_skip] at hrun
      rotate_left
      · exact hc
      simp only at hrun
      split_ifs at hrun <;> simp at hrun
  · rintro p rfl
    have hp : s.timeoutPending = true := by
      by_contra hne
      have : step s (Event.timeout p) = s := by
        show (if s.timeoutPending then onTimeout s p else s) = s
        rw [if_neg hne]
      rw [this] at hrun
      omega
    have hfired : (step s (Event.timeout p)).timeoutFired = true := by
      have hstep : step s (Event.timeout p) = onTimeout s p := by
        show (if s.timeoutPending then onTimeout s p else s) = _
        rw [if_pos hp]
      rw [hstep]
      unfold onTimeout
      simp only
      split_ifs
      · exact (tryCalculate_frame _ p).2.2.2.2.2.2.2.2.2
      · rfl
    obtain ⟨k1, k2⟩ := hinv.2.2.2.2.2.2.2.2.2.2.2.1 hfired
    exact ⟨k2, k1⟩

/-- Claim C13, amended: in every reachable state, a step whose attempt runs the pipeline
(the successful attempt) sets `isCalculated` and cancels the source that made it: after
the first attempt no timer and no subscription is active, a notification has
disconnected the subscription, a tick has cleared the interval timer, the timeout is
spent and has disconnected the subscription.  The other timers may still be active, but
whatever happens afterwards the pipeline is not run again and nothing more is presented
or reported. -/
theorem success_cancels_own_source (d : Bool) (es : List Event) (e : Event)
    (hrun : (step (runEvents (initialController d) es) e).pipelineRuns =
      (runEvents (initialController d) es).pipelineRuns + 1) :
    (step (runEvents (initialController d) es) e).isCalculated = true ∧
    (∀ p, e = Event.firstAttempt p →
      (step (runEvents (initialController d) es) e).allCancelled = true) ∧
    (∀ p, e = Event.mutation p →
      (step (runEvents (initialController d) es) e).observerActive = false) ∧
    (∀ p, e = Event.tick p →
      (step (runEvents (initialController d) es) e).intervalActive = false) ∧
    (∀ p, e = Event.timeout p →
      (step (runEvents (initialController d) es) e).timeoutPending = false ∧
      (step (runEvents (initialController d) es) e).observerActive = false) ∧
    (∀ later : List Event,
      (runEvents (step (runEvents (initialController d) es) e) later).pipelineRuns =
        (step (runEvents (initialController d) es) e).pipelineRuns ∧
      (runEvents (step (runEvents (initialController d) es) e) later).resultsPresented =
        (step (runEvents (initialController d) es) e).resultsPresented ∧
      (runEvents (step (runEvents (initialController d) es) e) later).errorsShown =
        (step (runEvents (initialController d) es) e).errorsShown) := by
  have hinv := inv_runEvents (initialController d) es (inv_initialController d)
  obtain ⟨h1, h2, h3, h4, h5⟩ := step_run_spec _ e hinv hrun
  refine ⟨h1, h2, h3, h4, h5, ?_⟩
  intro later
  exact (runEvents_of_calculated _ later h1).2

/-- The amended C13 on the execution in which a change notification makes the
successful attempt. -/
theorem success_cancels_own_source_witness :
    (step (runEvents (initialController true)
      [Event.firstAttempt true, Event.pageSetsDisplay false])
      (Event.mutation true)).observerActive = false :=
  (success_cancels_own_source true [Event.firstAttempt true, Event.pageSetsDisplay false]
    (Event.mutation true) (by decide)).2.2.1 true rfl

/-- With every timer and the subscription cancelled, no callback of the controller does
anything. -/
theorem step_of_allCancelled (s : Controller) (e : Event) (h : s.allCancelled = true)
    (he : e.isCallback = true) : step s e = s := by
  simp only [Controller.allCancelled, Bool.and_eq_true, Bool.not_eq_true'] at h
  obtain ⟨⟨⟨h1, h2⟩, h3⟩, h4⟩ := h
  cases e with
  | firstAttempt p =>
    show (if s.firstAttemptPending then onFirstAttempt s p else s) = s
    rw [h1]; rfl
  | mutation p =>
    show (if s.observerActive then onMutation s p else s) = s
    rw [h2]; rfl
  | tick p =>
    show (if s.intervalActive then onTick s p else s) = s
    rw [h3]; rfl
  | timeout p =>
    show (if s.timeoutPending then onTimeout s p else s) = s
    rw [h4]; rfl
  | pageSetsDisplay b => exact absurd he (by simp [Event.isCallback])

/-- With every timer and the subscription cancelled, nothing changes any more but the
presence of the display element. -/
theorem runEvents_of_allCancelled (s : Controller) (es : List Event)
    (h : s.allCancelled = true) :
    (runEvents s es).allCancelled = true ∧ (runEvents s es).errorsShown = s.errorsShown ∧
      (runEvents s es).timeoutFired = s.timeoutFired ∧
      (runEvents s es).pipelineRuns = s.pipelineRuns := by
  induction es generalizing s with
  | nil => exact ⟨h, rfl, rfl, rfl⟩
  | cons e es ih =>
    cases hcb : e.isCallback
    · cases e with
      | pageSetsDisplay b =>
        have h2 : (step s (Event.pageSetsDisplay b)).allCancelled = true := h
        obtain ⟨g1, g2, g3, g4⟩ := ih _ h2
        exact ⟨g1, g2, g3, g4⟩
      | firstAttempt p => exact absurd hcb (by simp [Event.isCallback])
      | mutation p => exact absurd hcb (by simp [Event.isCallback])
      | tick p => exact absurd hcb (by simp [Event.isCallback])
      | timeout p => exact absurd hcb (by simp [Event.isCallback])
    · have hs : runEvents s (e :: es) = runEvents s es := by
        show runEvents (step s e) es = runEvents s es
        rw [step_of_allCancelled s e h hcb]
      rw [hs]
      exact ih s h

/-- Claim C14 fails: on a fresh page where the pipeline never succeeds, the error is
shown by the first attempt; the hard timeout has not fired then and never fires, and
no further error follows, because no timer and no subscription was ever created. -/
theorem error_not_at_timeout :
    (step (initialController false) (Event.firstAttempt false)).errorsShown = 1 ∧
    (step (initialController false) (Event.firstAttempt false)).timeoutFired = false ∧
    (∀ later : List Event,
      (runEvents (step (initialController false) (Event.firstAttempt false))
        later).timeoutFired = false ∧
      (runEvents (step (initialController false) (Event.firstAttempt false))
        later).errorsShown = 1) := by
  refine ⟨by decide, by decide, ?_⟩
  intro later
  obtain ⟨_, g2, g3, _⟩ := runEvents_of_allCancelled
    (step (initialController false) (Event.firstAttempt false)) later (by decide)
  exact ⟨g3.trans (by decide), g2.trans (by decide)⟩

/-- A step at which the pipeline does not succeed presents nothing. -/
theorem step_fails_presents_nothing (s : Controller) (e : Event) (he : e.fails = true) :
    (step s e).resultsPresented = s.resultsPresented := by
  have hrun : ∀ t : Controller, (tryCalculate t false).1.resultsPresented =
      t.resultsPresented := by
    intro t
    rcases tryCalculate_cases t with hc | hc
    · rw [tryCalculate_run t false hc.1 hc.2]; rfl
    · rw [tryCalculate_skip t false hc]
  cases e with
  | firstAttempt p =>
    cases p
    · show (if s.firstAttemptPending then onFirstAttempt s false else s).resultsPresented = _
      split_ifs
      · unfold onFirstAttempt
        simp only
        split_ifs <;> exact hrun _
      · rfl
    · exact absurd he (by decide)
  | mutation p =>
    cases p
    · show (if s.observerActive then onMutation s false else s).resultsPresented = _
      split_ifs
      · unfold onMutation
        simp only
        split_ifs <;> exact hrun _
      · rfl
    · exact absurd he (by decide)
  | tick p =>
    cases p
    · show (if s.intervalActive then onTick s false else s).resultsPresented = _
      split_ifs
      · unfold onTick
        simp only
        split_ifs <;> exact hrun _
      · rfl
    · exact absurd he (by decide)
  | timeout p =>
    cases p
    · show (if s.timeoutPending then onTimeout s false else s).resultsPresented = _
      split_ifs
      · unfold onTimeout
        simp only
        split_ifs
        · exact hrun _
        · rfl
      · rfl
    · exact absurd he (by decide)
  | pageSetsDisplay b => rfl

theorem runEvents_fails_presents_nothing (s : Controller) (es : List Event)
    (hes : ∀ e ∈ es, e.fails = true) :
    (runEvents s es).resultsPresented = s.resultsPresented := by
  induction es generalizing s with
  | nil => rfl
  | cons e es ih =>
    have h1 := step_fails_presents_nothing s e (hes e (List.mem_cons_self _ _))
    have h2 := ih (step s e) (fun x hx => hes x (List.mem_cons_of_mem _ hx))
    exact h2.trans h1

/-- Claim C14, amended: if no pipeline run succeeds (and there is no retry by the user),
no result is presented and the errors shown are the errors of the pipeline, one for
each of its runs; once the hard timeout has fired, it is spent and the
change-notification subscription is cancelled; and once every timer and the
subscription are cancelled, no callback of the controller does anything any more. -/
theorem never_succeeding_run (d : Bool) (es : List Event)
    (hes : ∀ e ∈ es, e.fails = true) :
    (runEvents (initialController d) es).resultsPresented = 0 ∧
    (runEvents (initialController d) es).errorsShown =
      (runEvents (initialController d) es).pipelineRuns ∧
    ((runEvents (initialController d) es).timeoutFired = true →
      (runEvents (initialController d) es).timeoutPending = false ∧
      (runEvents (initialController d) es).observerActive = false) ∧
    ((runEvents (initialController d) es).allCancelled = true →
      ∀ e : Event, e.isCallback = true →
        step (runEvents (initialController d) es) e = runEvents (initialController d) es) := by
  have hinv := inv_runEvents (initialController d) es (inv_initialController d)
  have h0 : (runEvents (initialController d) es).resultsPresented = 0 :=
    runEvents_fails_presents_nothing _ es hes
  refine ⟨h0, ?_, ?_, ?_⟩
  · have := hinv.2.2.1
    omega
  · intro hf
    obtain ⟨k1, k2⟩ := hinv.2.2.2.2.2.2.2.2.2.2.2.1 hf
    exact ⟨k2, k1⟩
  · intro hc e he
    exact step_of_allCancelled _ e hc he

/-- The amended C14 on an execution without success: the display element of another
instance is in the document, so the first attempt starts polling; the element
disappears, the timeout makes the one failing run of the pipeline, five ticks follow. -/
theorem never_succeeding_run_witness :
    (runEvents (initialController true)
      (Event.firstAttempt false :: Event.pageSetsDisplay false :: Event.timeout false ::
        List.replicate 5 (Event.tick false))).resultsPresented = 0 ∧
    (runEvents (initialController true)
      (Event.firstAttempt false :: Event.pageSetsDisplay false :: Event.timeout false ::
        List.replicate 5 (Event.tick false))).errorsShown = 1 :=
  ⟨(never_succeeding_run true
      (Event.firstAttempt false :: Event.pageSetsDisplay false :: Event.timeout false ::
        List.replicate 5 (Event.tick false)) (by decide)).1,
    by decide⟩

/-- Claim C15: without a retry by the user, whatever the order of the first attempt, the
change notifications, the interval ticks, the timeout and the changes the page makes,
the pipeline `calculateAndDisplayTotalTime` is run at most once, so a result is
presented at most once.  It is run once when the page is fresh. -/
theorem pipeline_runs_at_most_once (d : Bool) (es : List Event) :
    (runEvents (initialController d) es).pipelineRuns ≤ 1 ∧
    (runEvents (initialController d) es).resultsPresented ≤ 1 ∧
    (runEvents (initialController false)
      [Event.firstAttempt true, Event.mutation true, Event.tick true,
        Event.timeout true]).pipelineRuns = 1 := by
  have hinv := inv_runEvents (initialController d) es (inv_initialController d)
  have h1 := hinv.1
  have h3 := hinv.2.2.1
  exact ⟨h1, by omega, by decide⟩

/-- Claim C16: an attempt in a state where `isCalculated` is set or a display element
exists is a no-op: `tryCalculate` returns `false` and the state is unchanged, so the
pipeline is not run and `isCalculated` and the presented result stay as they are. -/
theorem tryCalculate_noop (s : Controller) (presentable : Bool)
    (h : s.isCalculated = true ∨ s.displayExists = true) :
    tryCalculate s presentable = (s, false) ∧
    (tryCalculate s presentable).1.pipelineRuns = s.pipelineRuns ∧
    (tryCalculate s presentable).1.isCalculated = s.isCalculated ∧
    (tryCalculate s presentable).1.displayExists = s.displayExists ∧
    (tryCalculate s presentable).1.resultsPresented = s.resultsPresented := by
  have hk := tryCalculate_skip s presentable h
  rw [hk]
  exact ⟨rfl, rfl, rfl, rfl, rfl⟩

/-- The no-op attempt in the state after a successful first attempt. -/
theorem tryCalculate_noop_witness :
    tryCalculate (step (initialController false) (Event.firstAttempt true)) true =
      (step (initialController false) (Event.firstAttempt true), false) :=
  (tryCalculate_noop (step (initialController false) (Event.firstAttempt true)) true
    (Or.inl (by decide))).1

/-- The observer callback does not read `fallbackRetries`: run from a state with any
other value of that counter it does the same, and hands the value on unchanged. -/
theorem step_mutation_ignores_fallbackRetries (t : Controller) (p : Bool) (n : Nat) :
    step { t with fallbackRetries := n } (Event.mutation p) =
      { step t (Event.mutation p) with fallbackRetries := n } := by
  cases hc : t.isCalculated <;> cases hd : t.displayExists <;> cases ha : t.observerActive <;>
    cases p <;>
    simp [step, onMutation, tryCalculate, runPipeline, hc, hd, ha] <;>
    split_ifs <;> rfl

/-- The interval callback does not read `retryCount`: run from a state with any other
value of that counter it does the same, and hands the value on unchanged. -/
theorem step_tick_ignores_retryCount (t : Controller) (p : Bool) (n : Nat) :
    step { t with retryCount := n } (Event.tick p) =
      { step t (Event.tick p) with retryCount := n } := by
  cases hc : t.isCalculated <;> cases hd : t.displayExists <;> cases ha : t.intervalActive <;>
    cases p <;>
    simp [step, onTick, tryCalculate, runPipeline, hc, hd, ha] <;>
    split_ifs <;> rfl

/-- Claim C17: the two retry budgets are bounded and independent.  In every reachable
state the observer callback has made at most `MAX_RETRIES = 20` attempts and the
subscription is cancelled when it has made 20, the interval callback has made at most 5
and the interval timer is cleared when it has made 5, the timeout has made at most one;
so at most 26 attempts are made after polling began.  The observer callback leaves the
counter and the timer of the interval alone, and the interval callback those of the
observer.  Neither callback reads the counter of the other: the observer callback run
with any other value `n` of `fallbackRetries` yields the same state (with `n` handed on),
so whether it cancels its subscription does not depend on that counter, and likewise the
interval callback with any other value of `retryCount`.  An execution that polls to the
end reaches all three bounds. -/
theorem retry_budgets (d : Bool) (es : List Event) :
    (runEvents (initialController d) es).observerAttempts ≤ 20 ∧
    (runEvents (initialController d) es).intervalAttempts ≤ 5 ∧
    (runEvents (initialController d) es).timeoutAttempts ≤ 1 ∧
    (runEvents (initialController d) es).observerAttempts +
      (runEvents (initialController d) es).intervalAttempts +
      (runEvents (initialController d) es).timeoutAttempts ≤ 20 + 5 + 1 ∧
    ((runEvents (initialController d) es).observerAttempts = 20 →
      (runEvents (initialController d) es).observerActive = false) ∧
    ((runEvents (initialController d) es).intervalAttempts = 5 →
      (runEvents (initialController d) es).intervalActive = false) ∧
    (∀ (t : Controller) (p : Bool),
      (step t (Event.mutation p)).fallbackRetries = t.fallbackRetries ∧
      (step t (Event.mutation p)).intervalActive = t.intervalActive ∧
      (step t (Event.mutation p)).intervalAttempts = t.intervalAttempts) ∧
    (∀ (t : Controller) (p : Bool),
      (step t (Event.tick p)).retryCount = t.retryCount ∧
      (step t (Event.tick p)).observerActive = t.observerActive ∧
      (step t (Event.tick p)).observerAttempts = t.observerAttempts) ∧
    (∀ (t : Controller) (p : Bool) (n : Nat),
      step { t with fallbackRetries := n } (Event.mutation p) =
        { step t (Event.mutation p) with fallbackRetries := n }) ∧
    (∀ (t : Controller) (p : Bool) (n : Nat),
      step { t with retryCount := n } (Event.tick p) =
        { step t (Event.tick p) with retryCount := n }) ∧
    ((runEvents (initialController true)
      (Event.firstAttempt false :: (List.replicate 20 (Event.mutation false) ++
        List.replicate 5 (Event.tick false) ++ [Event.timeout false]))).observerAttempts = 20 ∧
     (runEvents (initialController true)
      (Event.firstAttempt false :: (List.replicate 20 (Event.mutation false) ++
        List.replicate 5 (Event.tick false) ++ [Event.timeout false]))).intervalAttempts = 5 ∧
     (runEvents (initialController true)
      (Event.firstAttempt false :: (List.replicate 20 (Event.mutation false) ++
        List.replicate 5 (Event.tick false) ++ [Event.timeout false]))).timeoutAttempts = 1) := by
  obtain ⟨_, _, _, h4, h5, h6, h7, h8, h9, h10, _, _, _⟩ :=
    inv_runEvents (initialController d) es (inv_initialController d)
  simp only [MAX_RETRIES, MAX_FALLBACK_RETRIES] at h5 h6 h8 h9
  refine ⟨by omega, by omega, h10, by omega, ?_, ?_, ?_, ?_,
    step_mutation_ignores_fallbackRetries, step_tick_ignores_retryCount, by decide⟩
  · intro h20
    cases ha : (runEvents (initialController d) es).observerActive
    · rfl
    · have := h5 ha
      omega
  · intro h5b
    cases ha : (runEvents (initialController d) es).intervalActive
    · rfl
    · have := h8 ha
      omega
  · intro t p
    show (fun u : Controller => u.fallbackRetries = t.fallbackRetries ∧
      u.intervalActive = t.intervalActive ∧ u.intervalAttempts = t.intervalAttempts)
      (if t.observerActive then onMutation t p else t)
    split_ifs
    · exact onMutation_frame t p
    · exact ⟨rfl, rfl, rfl⟩
  · intro t p
    show (fun u : Controller => u.retryCount = t.retryCount ∧
      u.observerActive = t.observerActive ∧ u.observerAttempts = t.observerAttempts)
      (if t.intervalActive then onTick t p else t)
    split_ifs
    · exact onTick_frame t p
    · exact ⟨rfl, rfl, rfl⟩

/-- Noon and midnight on concrete fragments: `오후 12:30` is 12:30, `오전 12:05` is 00:05,
`오후 11:59` is 23:59 and `오전 1:00` is 01:00. -/
theorem foundTimeOf_noon_midnight :
    (foundTimeOf (DomNode.element "span" [DomNode.text "오후 12:30".toList])).map
      FoundTime.time = some "12:30".toList ∧
    (foundTimeOf (DomNode.element "span" [DomNode.text "오전 12:05".toList])).map
      FoundTime.time = some "00:05".toList ∧
    (foundTimeOf (DomNode.element "span" [DomNode.text "오후 11:59".toList])).map
      FoundTime.time = some "23:59".toList ∧
    (foundTimeOf (DomNode.element "span" [DomNode.text "오전 1:00".toList])).map
      FoundTime.time = some "01:00".toList := by
  decide

end FlexAddon
